import Mathlib

/-!
Shallow embedding of the concurrent hierarchical bitmap of `src/bitmap.c`
(64-bit build: W = 64 bits per bfield, F = 8 bfields per chunk, B = 512 bits
per chunk).  The code is verified in its sequential (quiescent) semantics:
every atomic read-modify-write becomes a pure function from the old word to
the new word together with the returned flags, and every compare-and-swap
succeeds (no concurrent interference), so the `try_*` operations fail only
when the observed bit pattern disagrees with the required one.

Machine words are modelled as `Nat` values below `2 ^ 64`; the 64-bit
complement is `x ^^^ (2 ^ 64 - 1)` and the wrapping subtraction used by the
byte-detection trick is taken modulo `2 ^ 64` explicitly.
-/

set_option maxRecDepth 10000

/-- Modelled from the spec: `MI_BFIELD_BITS` from `bitmap.h` (missing from
`src/`); the spec fixes the word width W = 64 for the concrete scenarios. -/
def MI_BFIELD_BITS : Nat := 64

/-- Modelled from the spec: `MI_BCHUNK_FIELDS` from `bitmap.h`; F = 8 bfields
per chunk in the 512-bit configuration used by the spec scenarios. -/
def MI_BCHUNK_FIELDS : Nat := 8

/-- Modelled from the spec: `MI_BCHUNK_BITS` from `bitmap.h`; B = F * W = 512. -/
def MI_BCHUNK_BITS : Nat := 512

/-- The all-ones 64-bit word, `mi_bfield_all_set()` in the source. -/
def mi_bfield_all_set : Nat := 2 ^ 64 - 1

/-- Bitwise complement of a 64-bit word (C `~x` at `mi_bfield_t`). -/
def bnot64 (x : Nat) : Nat := x ^^^ mi_bfield_all_set

/-- Wrapping 64-bit subtraction (C unsigned `a - b`). -/
def mi_sub64 (a b : Nat) : Nat := (2 ^ 64 + a - b) % 2 ^ 64

/-- `_mi_divide_up(n, d)` from the source's support header. -/
def mi_divide_up (n d : Nat) : Nat := (n + d - 1) / d

/-- Fueled helper for `mi_bfield_ctz`; 64 units of fuel fully evaluate any
64-bit word (structural recursion keeps the definition kernel-reducible). -/
def mi_bfield_ctz_go : Nat → Nat → Nat
  | 0, _ => 0
  | fuel + 1, x => if x = 0 then 0 else if x % 2 = 1 then 0 else mi_bfield_ctz_go fuel (x / 2) + 1

/-- Count of trailing zeros, `mi_bfield_ctz` / `mi_ctz`: the index of the
least significant set bit (0 when `x = 0`, where the C result is undefined
but unused). -/
def mi_bfield_ctz (x : Nat) : Nat := mi_bfield_ctz_go 64 x

/-- Fueled helper for `mi_bfield_popcount`. -/
def mi_bfield_popcount_go : Nat → Nat → Nat
  | 0, _ => 0
  | fuel + 1, x => if x = 0 then 0 else x % 2 + mi_bfield_popcount_go fuel (x / 2)

/-- Population count, `mi_bfield_popcount` / `mi_popcount`. -/
def mi_bfield_popcount (x : Nat) : Nat := mi_bfield_popcount_go 64 x

/-- `mi_bfield_find_least_bit` (`mi_bsf`): found flag plus index of the least
set bit. -/
def mi_bfield_find_least_bit (x : Nat) : Bool × Nat := (x != 0, mi_bfield_ctz x)

/-- `mi_bfield_clear_least_bit`. -/
def mi_bfield_clear_least_bit (x : Nat) : Nat := x &&& (x - 1)

/-- Fueled base-2 logarithm (index of the most significant set bit). -/
def mi_log2_go : Nat → Nat → Nat
  | 0, _ => 0
  | fuel + 1, x => if x < 2 then 0 else mi_log2_go fuel (x / 2) + 1

/-- `mi_bsr`: found flag plus index of the most significant set bit. -/
def mi_bsr (x : Nat) : Bool × Nat := (x != 0, mi_log2_go 64 x)

/-- `mi_bfield_mask(bit_count, shiftl)`: `bit_count` ones shifted left by
`shiftl`. -/
def mi_bfield_mask (bit_count shiftl : Nat) : Nat :=
  (if bit_count < 64 then 2 ^ bit_count - 1 else mi_bfield_all_set) <<< shiftl

/-- `mi_bfield_atomic_set(b, idx)`: new word and the 0-to-1 transition flag. -/
def mi_bfield_atomic_set (b idx : Nat) : Nat × Bool :=
  let mask := 1 <<< idx
  (b ||| mask, b &&& mask == 0)

/-- `mi_bfield_atomic_clear(b, idx, *all_clear)`: new word, the 1-to-0
transition flag, and the `all_clear` out-parameter (new word is zero). -/
def mi_bfield_atomic_clear (b idx : Nat) : Nat × Bool × Bool :=
  let mask := 1 <<< idx
  (b &&& bnot64 mask, b &&& mask == mask, b &&& bnot64 mask == 0)

/-- `mi_bfield_atomic_set_mask(b, mask, *already_set)`: new word, the
`already_set` out-parameter, and "all mask bits were 0" flag. -/
def mi_bfield_atomic_set_mask (b mask : Nat) : Nat × Nat × Bool :=
  (b ||| mask, mi_bfield_popcount (b &&& mask), b &&& mask == 0)

/-- `mi_bfield_atomic_clear_mask(b, mask, *already_clear)`: new word, the
`already_clear` out-parameter exactly as the source computes it
(`popcount(~(old & mask))`, the 64-bit complement of the overlap), and the
"all mask bits were 1" flag. -/
def mi_bfield_atomic_clear_mask (b mask : Nat) : Nat × Nat × Bool :=
  (b &&& bnot64 mask, mi_bfield_popcount (bnot64 (b &&& mask)), b &&& mask == mask)

/-- `mi_bfield_atomic_xset_mask(set, b, mask, *already_xset)`. -/
def mi_bfield_atomic_xset_mask (set : Bool) (b mask : Nat) : Nat × Nat × Bool :=
  if set then mi_bfield_atomic_set_mask b mask else mi_bfield_atomic_clear_mask b mask

/-- `mi_bfield_atomic_set8(b, byte_idx)`. -/
def mi_bfield_atomic_set8 (b byte_idx : Nat) : Nat × Bool :=
  let mask := 0xFF <<< (byte_idx * 8)
  let r := mi_bfield_atomic_set_mask b mask
  (r.1, r.2.2)

/-- `mi_bfield_atomic_clear8(b, byte_idx, *all_clear)`. -/
def mi_bfield_atomic_clear8 (b byte_idx : Nat) : Nat × Bool × Bool :=
  let mask := 0xFF <<< (byte_idx * 8)
  (b &&& bnot64 mask, b &&& mask == mask, b &&& bnot64 mask == 0)

/-- `mi_bfield_atomic_setX(b)`: exchange with all ones. -/
def mi_bfield_atomic_setX (b : Nat) : Nat × Bool := (mi_bfield_all_set, b == 0)

/-- `mi_bfield_atomic_clearX(b)`: exchange with zero. -/
def mi_bfield_atomic_clearX (b : Nat) : Nat × Bool := (0, bnot64 b == 0)

/-- `mi_bfield_atomic_try_set_mask(b, mask)`: fails (without change) unless
all mask bits are currently 0. -/
def mi_bfield_atomic_try_set_mask (b mask : Nat) : Nat × Bool :=
  if b &&& mask != 0 then (b, false) else (b ||| mask, true)

/-- `mi_bfield_atomic_try_clear_mask(b, mask, *all_clear)`: fails (without
change) unless all mask bits are currently 1; `all_clear` is written on both
paths. -/
def mi_bfield_atomic_try_clear_mask (b mask : Nat) : Nat × Bool × Bool :=
  if b &&& mask != mask then (b, false, b == 0)
  else (b &&& bnot64 mask, true, b &&& bnot64 mask == 0)

/-- `mi_bfield_atomic_try_xset_mask(set, b, mask, *all_clear)`; in set mode the
out-parameter is written `false`. -/
def mi_bfield_atomic_try_xset_mask (set : Bool) (b mask : Nat) : Nat × Bool × Bool :=
  if set then
    let r := mi_bfield_atomic_try_set_mask b mask
    (r.1, r.2, false)
  else mi_bfield_atomic_try_clear_mask b mask

/-- `mi_bfield_atomic_try_clear(b, idx, *all_clear)`. -/
def mi_bfield_atomic_try_clear (b idx : Nat) : Nat × Bool × Bool :=
  mi_bfield_atomic_try_clear_mask b (1 <<< idx)

/-- `mi_bfield_atomic_try_clear8(b, byte_idx, *all_clear)`. -/
def mi_bfield_atomic_try_clear8 (b byte_idx : Nat) : Nat × Bool × Bool :=
  mi_bfield_atomic_try_clear_mask b (0xFF <<< (byte_idx * 8))

/-- `mi_bfield_atomic_try_clearX(b)`: strong CAS from all-ones to zero. -/
def mi_bfield_atomic_try_clearX (b : Nat) : Nat × Bool :=
  if b == mi_bfield_all_set then (0, true) else (b, false)

/-- `mi_bfield_atomic_is_set_mask`. -/
def mi_bfield_atomic_is_set_mask (b mask : Nat) : Bool := b &&& mask == mask

/-- `mi_bfield_atomic_is_clear_mask`. -/
def mi_bfield_atomic_is_clear_mask (b mask : Nat) : Bool := b &&& mask == 0

/-- `mi_bfield_atomic_is_xset_mask`. -/
def mi_bfield_atomic_is_xset_mask (set : Bool) (b mask : Nat) : Bool :=
  if set then mi_bfield_atomic_is_set_mask b mask else mi_bfield_atomic_is_clear_mask b mask

/-- A bitmap chunk: the list of its `MI_BCHUNK_FIELDS` bfield words. -/
abbrev Bchunk := List Nat

/-- Read `chunk->bfields[i]`. -/
def mi_bchunk_bfield (c : Bchunk) (i : Nat) : Nat := c.getD i 0

/-- Bit `cidx` of a chunk (specification helper for stating properties). -/
def mi_bchunk_testBit (c : Bchunk) (cidx : Nat) : Bool :=
  (mi_bchunk_bfield c (cidx / 64)).testBit (cidx % 64)

/-- `mi_bchunk_set(chunk, cidx)`. -/
def mi_bchunk_set (c : Bchunk) (cidx : Nat) : Bchunk × Bool :=
  let i := cidx / 64
  let idx := cidx % 64
  let r := mi_bfield_atomic_set (mi_bchunk_bfield c i) idx
  (c.set i r.1, r.2)

/-- `mi_bchunk_clear(chunk, cidx, *maybe_all_clear)`. -/
def mi_bchunk_clear (c : Bchunk) (cidx : Nat) : Bchunk × Bool × Bool :=
  let i := cidx / 64
  let idx := cidx % 64
  let r := mi_bfield_atomic_clear (mi_bchunk_bfield c i) idx
  (c.set i r.1, r.2)

/-- `mi_bchunk_set8(chunk, byte_idx)`. -/
def mi_bchunk_set8 (c : Bchunk) (byte_idx : Nat) : Bchunk × Bool :=
  let i := byte_idx / 8
  let bidx := byte_idx % 8
  let r := mi_bfield_atomic_set8 (mi_bchunk_bfield c i) bidx
  (c.set i r.1, r.2)

/-- `mi_bchunk_clear8(chunk, byte_idx, *maybe_all_clear)`. -/
def mi_bchunk_clear8 (c : Bchunk) (byte_idx : Nat) : Bchunk × Bool × Bool :=
  let i := byte_idx / 8
  let bidx := byte_idx % 8
  let r := mi_bfield_atomic_clear8 (mi_bchunk_bfield c i) bidx
  (c.set i r.1, r.2)

/-- `mi_bchunk_setX(chunk, field_idx)`. -/
def mi_bchunk_setX (c : Bchunk) (field_idx : Nat) : Bchunk × Bool :=
  let r := mi_bfield_atomic_setX (mi_bchunk_bfield c field_idx)
  (c.set field_idx r.1, r.2)

/-- `mi_bchunk_clearX(chunk, field_idx, *maybe_all_clear)`; the out-parameter
is unconditionally written `true`. -/
def mi_bchunk_clearX (c : Bchunk) (field_idx : Nat) : Bchunk × Bool × Bool :=
  let r := mi_bfield_atomic_clearX (mi_bchunk_bfield c field_idx)
  (c.set field_idx r.1, r.2, true)

/-- Loop body of `mi_bchunk_xsetN`; the fuel argument only serves Lean's
termination checker and is always at least `n` at the call sites, which
suffices because each iteration consumes `min (64 - idx) n ≥ 1` bits. -/
def mi_bchunk_xsetN_go (set : Bool) : Nat → Bchunk → Nat → Nat → Nat → Nat → Bool → Bchunk × Bool × Nat
  | 0, c, _idx, _field, _n, acc, all => (c, all, acc)
  | fuel + 1, c, idx, field, n, acc, all =>
    if n = 0 then (c, all, acc)
    else
      let m := min (64 - idx) n
      let mask := mi_bfield_mask m idx
      let r := mi_bfield_atomic_xset_mask set (mi_bchunk_bfield c field) mask
      mi_bchunk_xsetN_go set fuel (c.set field r.1) 0 (field + 1) (n - m) (acc + r.2.1) (all && r.2.2)

/-- `mi_bchunk_xsetN(set, chunk, cidx, n, *palready_xset)`: new chunk, the
"all bits transitioned" result, and the accumulated already-xset count. -/
def mi_bchunk_xsetN (set : Bool) (c : Bchunk) (cidx n : Nat) : Bchunk × Bool × Nat :=
  mi_bchunk_xsetN_go set n c (cidx % 64) (cidx / 64) n 0 true

/-- `mi_bchunk_setN`. -/
def mi_bchunk_setN (c : Bchunk) (cidx n : Nat) : Bchunk × Bool × Nat :=
  mi_bchunk_xsetN true c cidx n

/-- `mi_bchunk_clearN`. -/
def mi_bchunk_clearN (c : Bchunk) (cidx n : Nat) : Bchunk × Bool × Nat :=
  mi_bchunk_xsetN false c cidx n

/-- Loop of `mi_bchunk_is_xsetN_` (the multi-field case). -/
def mi_bchunk_is_xsetN_go (set : Bool) : Nat → Bchunk → Nat → Nat → Nat → Bool
  | 0, _, _, _, _ => true
  | fuel + 1, c, field, idx, n =>
    if n = 0 then true
    else
      let m := min (64 - idx) n
      let mask := mi_bfield_mask m idx
      if !mi_bfield_atomic_is_xset_mask set (mi_bchunk_bfield c field) mask then false
      else mi_bchunk_is_xsetN_go set fuel c (field + 1) 0 (n - m)

/-- `mi_bchunk_is_xsetN(set, chunk, cidx, n)`. -/
def mi_bchunk_is_xsetN (set : Bool) (c : Bchunk) (cidx n : Nat) : Bool :=
  if n = 0 then true
  else if n ≤ 64 then
    mi_bfield_atomic_is_xset_mask set (mi_bchunk_bfield c (cidx / 64)) (mi_bfield_mask n (cidx % 64))
  else mi_bchunk_is_xsetN_go set n c (cidx / 64) (cidx % 64) n

/-- The `restore:` loop of `mi_bchunk_try_xsetN`: walk backward from the
failing field to the start field, inverting the committed masks.  The second
argument is the C loop's `field` variable; the C condition
`field > start_field` becomes `start_field ≤ f` on the predecessor. -/
def mi_bchunk_try_xsetN_restore (set : Bool) (mask_start mask_mid mask_end start_field end_field : Nat) : Bchunk → Nat → Bchunk
  | c, 0 => c
  | c, f + 1 =>
    if start_field ≤ f then
      let mask := if f = start_field then mask_start else if f = end_field then mask_end else mask_mid
      let r := mi_bfield_atomic_xset_mask (!set) (mi_bchunk_bfield c f) mask
      mi_bchunk_try_xsetN_restore set mask_start mask_mid mask_end start_field end_field (c.set f r.1) f
    else c

/-- Mid- and last-field part of `mi_bchunk_try_xsetN` (after the first field
committed); returns the chunk, the result, and the `pmaybe_all_clear`
out-parameter (`none` when the C code leaves it unwritten).  The fuel is at
least the remaining `n` at every call site, which bounds the number of
64-bit middle fields. -/
def mi_bchunk_try_xsetN_go (set : Bool) (mask_start start_field : Nat) : Nat → Bchunk → Nat → Nat → Nat → Bool → Bchunk × Bool × Option Bool
  | 0, c, _field, _n, _mask_mid, maybe => (c, true, some maybe)
  | fuel + 1, c, field, n, mask_mid, maybe =>
    if 64 ≤ n then
      let f := field + 1
      let mm := mi_bfield_all_set
      let r := mi_bfield_atomic_try_xset_mask set (mi_bchunk_bfield c f) mm
      if r.2.1 then
        mi_bchunk_try_xsetN_go set mask_start start_field fuel (c.set f r.1) f (n - 64) mm (maybe && r.2.2)
      else
        (mi_bchunk_try_xsetN_restore set mask_start mm 0 start_field MI_BCHUNK_FIELDS c f, false, some false)
    else if n = 0 then (c, true, some maybe)
    else
      let f := field + 1
      let mask_end := mi_bfield_mask n 0
      let r := mi_bfield_atomic_try_xset_mask set (mi_bchunk_bfield c f) mask_end
      if r.2.1 then (c.set f r.1, true, some (maybe && r.2.2))
      else
        (mi_bchunk_try_xsetN_restore set mask_start mask_mid mask_end start_field f c f, false, some false)

/-- `mi_bchunk_try_xsetN(set, chunk, cidx, n, *pmaybe_all_clear)`: all-or-
nothing multi-field transition with rollback.  For `n = 0` the source
returns `true` before writing the out-parameter (`none` here). -/
def mi_bchunk_try_xsetN (set : Bool) (c : Bchunk) (cidx n : Nat) : Bchunk × Bool × Option Bool :=
  if n = 0 then (c, true, none)
  else
    let start_idx := cidx % 64
    let start_field := cidx / 64
    let m := min (64 - start_idx) n
    let mask_start := mi_bfield_mask m start_idx
    let r := mi_bfield_atomic_try_xset_mask set (mi_bchunk_bfield c start_field) mask_start
    if r.2.1 then
      mi_bchunk_try_xsetN_go set mask_start start_field n (c.set start_field r.1) start_field (n - m) 0 r.2.2
    else (c, false, some false)

/-- `mi_bchunk_try_clearN`. -/
def mi_bchunk_try_clearN (c : Bchunk) (cidx n : Nat) : Bchunk × Bool × Option Bool :=
  mi_bchunk_try_xsetN false c cidx n

/-- `mi_bchunk_try_find_and_clear_at(chunk, chunk_idx, *pidx, allow_allset)`
(scalar path, `MI_OPT_SIMD` disabled as in the default build). -/
def mi_bchunk_try_find_and_clear_at (c : Bchunk) (chunk_idx : Nat) (allow_allset : Bool) : Bchunk × Option Nat :=
  let b := mi_bchunk_bfield c chunk_idx
  if !allow_allset && bnot64 b == 0 then (c, none)
  else
    match mi_bfield_find_least_bit b with
    | (true, cidx) =>
      let r := mi_bfield_atomic_try_clear (mi_bchunk_bfield c chunk_idx) cidx
      if r.2.1 then (c.set chunk_idx r.1, some (chunk_idx * 64 + cidx)) else (c, none)
    | (false, _) => (c, none)

/-- One scan pass of `mi_bchunk_try_find_and_clear` over the listed fields. -/
def mi_bchunk_tfac_pass (allow : Bool) : Bchunk → List Nat → Bchunk × Option Nat
  | c, [] => (c, none)
  | c, i :: rest =>
    match mi_bchunk_try_find_and_clear_at c i allow with
    | (c', some idx) => (c', some idx)
    | (_, none) => mi_bchunk_tfac_pass allow c rest

/-- `mi_bchunk_try_find_and_clear(chunk, *pidx)`: first pass skips all-set
fields, second pass allows them. -/
def mi_bchunk_try_find_and_clear (c : Bchunk) : Bchunk × Option Nat :=
  match mi_bchunk_tfac_pass false c (List.range 8) with
  | (c', some idx) => (c', some idx)
  | (_, none) => mi_bchunk_tfac_pass true c (List.range 8)

/-- Modelled from the spec: `MI_BFIELD_LO_BIT8` from `bitmap.h` (missing from
`src/`): the byte-wise low bit `0x0101...01`. -/
def MI_BFIELD_LO_BIT8 : Nat := 0x0101010101010101

/-- Modelled from the spec: `MI_BFIELD_HI_BIT8` from `bitmap.h` (missing from
`src/`): the byte-wise high bit `0x8080...80`. -/
def MI_BFIELD_HI_BIT8 : Nat := 0x8080808080808080

/-- The `has_set8` byte-detection value of
`mi_bchunk_try_find_and_clear8_at`: `((~b - LO) & (b & HI)) >> 7`. -/
def mi_has_set8 (b : Nat) : Nat :=
  (mi_sub64 (bnot64 b) MI_BFIELD_LO_BIT8 &&& (b &&& MI_BFIELD_HI_BIT8)) >>> 7

/-- `mi_bchunk_try_find_and_clear8_at(chunk, chunk_idx, *pidx, allow_all_set)`. -/
def mi_bchunk_try_find_and_clear8_at (c : Bchunk) (chunk_idx : Nat) (allow_all_set : Bool) : Bchunk × Option Nat :=
  let b := mi_bchunk_bfield c chunk_idx
  if !allow_all_set && bnot64 b == 0 then (c, none)
  else
    match mi_bfield_find_least_bit (mi_has_set8 b) with
    | (true, idx) =>
      let byte_idx := idx / 8
      let r := mi_bfield_atomic_try_clear8 (mi_bchunk_bfield c chunk_idx) byte_idx
      if r.2.1 then (c.set chunk_idx r.1, some (chunk_idx * 64 + idx)) else (c, none)
    | (false, _) => (c, none)

/-- One scan pass of `mi_bchunk_try_find_and_clear8` over the listed fields. -/
def mi_bchunk_tfac8_pass (allow : Bool) : Bchunk → List Nat → Bchunk × Option Nat
  | c, [] => (c, none)
  | c, i :: rest =>
    match mi_bchunk_try_find_and_clear8_at c i allow with
    | (c', some idx) => (c', some idx)
    | (_, none) => mi_bchunk_tfac8_pass allow c rest

/-- `mi_bchunk_try_find_and_clear8(chunk, *pidx)`: find the least byte with
all 8 bits set in a field that is not all-set, falling back to all-set
fields in a second pass, and clear it. -/
def mi_bchunk_try_find_and_clear8 (c : Bchunk) : Bchunk × Option Nat :=
  match mi_bchunk_tfac8_pass false c (List.range 8) with
  | (c', some idx) => (c', some idx)
  | (_, none) => mi_bchunk_tfac8_pass true c (List.range 8)

/-- Scan loop of `mi_bchunk_try_find_and_clearX`. -/
def mi_bchunk_tfacX_go : Bchunk → List Nat → Bchunk × Option Nat
  | c, [] => (c, none)
  | c, i :: rest =>
    let b := mi_bchunk_bfield c i
    if bnot64 b == 0 then
      let r := mi_bfield_atomic_try_clearX (mi_bchunk_bfield c i)
      if r.2 then (c.set i r.1, some (i * 64)) else mi_bchunk_tfacX_go c rest
    else mi_bchunk_tfacX_go c rest

/-- `mi_bchunk_try_find_and_clearX(chunk, *pidx)`: find the least all-set
field and clear it whole. -/
def mi_bchunk_try_find_and_clearX (c : Bchunk) : Bchunk × Option Nat :=
  mi_bchunk_tfacX_go c (List.range 8)

/-- Inner while-loop of `mi_bchunk_try_find_and_clearNX` on field `i`; the
fuel bounds the loop (at most 65 iterations occur because `bshift` strictly
increases except on a failed CAS, which cannot happen sequentially). -/
def mi_bchunk_tfacNX_inner (i n mask : Nat) : Nat → Bchunk → Nat → Nat → Bchunk × Option Nat
  | 0, c, _b, _bshift => (c, none)
  | fuel + 1, c, b, bshift =>
    match mi_bfield_find_least_bit b with
    | (false, _) => (c, none)
    | (true, idx) =>
      let b1 := b >>> idx
      let bshift1 := bshift + idx
      if 64 < bshift1 + n then (c, none)
      else if b1 &&& mask == mask then
        let r := mi_bfield_atomic_try_clear_mask (mi_bchunk_bfield c i) (mask <<< bshift1)
        if r.2.1 then (c.set i r.1, some (i * 64 + bshift1))
        else mi_bchunk_tfacNX_inner i n mask fuel c (mi_bchunk_bfield c i >>> bshift) bshift
      else
        let ones := mi_bfield_ctz (bnot64 b1)
        mi_bchunk_tfacNX_inner i n mask fuel c (b1 >>> ones) (bshift1 + ones)

/-- Outer field loop of `mi_bchunk_try_find_and_clearNX`. -/
def mi_bchunk_tfacNX_go (n mask : Nat) : Bchunk → List Nat → Bchunk × Option Nat
  | c, [] => (c, none)
  | c, i :: rest =>
    match mi_bchunk_tfacNX_inner i n mask 200 c (mi_bchunk_bfield c i) 0 with
    | (c', some idx) => (c', some idx)
    | (_, none) => mi_bchunk_tfacNX_go n mask c rest

/-- `mi_bchunk_try_find_and_clearNX(chunk, n, *pidx)` for runs inside a
single bfield (`n ≤ 64`); rejects `n = 0` and `n > 64`. -/
def mi_bchunk_try_find_and_clearNX (c : Bchunk) (n : Nat) : Bchunk × Option Nat :=
  if n = 0 || 64 < n then (c, none)
  else mi_bchunk_tfacNX_go n (mi_bfield_mask n 0) c (List.range 8)

/-- The pre-scan do-while loop of `mi_bchunk_try_find_and_clearN_`: returns
the `allset` verdict plus the `j` at which the scan broke (for the `i += j`
advance).  The `m -= 64` underflow noted in the source can only occur on the
final iteration, where `m` is dead, so saturating subtraction is faithful. -/
def mi_bchunk_tfacN_prescan (c : Bchunk) (i field_count : Nat) : Nat → Nat → Nat → Bool × Nat
  | 0, j, _ => (true, j)
  | fuel + 1, j, m =>
    let b := mi_bchunk_bfield c (i + j)
    match mi_bfield_find_least_bit (bnot64 b) with
    | (true, idx) =>
      if m > idx then (false, j)
      else if j + 1 < field_count then mi_bchunk_tfacN_prescan c i field_count fuel (j + 1) m
      else (true, j)
    | (false, _) =>
      if j + 1 < field_count then mi_bchunk_tfacN_prescan c i field_count fuel (j + 1) (m - 64)
      else (true, j)

/-- Outer loop of `mi_bchunk_try_find_and_clearN_`. -/
def mi_bchunk_tfacN_go (n field_count : Nat) : Nat → Bchunk → Nat → Bchunk × Option Nat
  | 0, c, _ => (c, none)
  | fuel + 1, c, i =>
    if 8 < i + field_count then (c, none)
    else
      match mi_bchunk_tfacN_prescan c i field_count (field_count + 1) 0 n with
      | (true, _) =>
        let cidx := i * 64
        let r := mi_bchunk_try_clearN c cidx n
        if r.2.1 then (r.1, some cidx)
        else mi_bchunk_tfacN_go n field_count fuel r.1 (i + 1)
      | (false, j) => mi_bchunk_tfacN_go n field_count fuel c (i + j + 1)

/-- `mi_bchunk_try_find_and_clearN_(chunk, n, *pidx)` for wide runs crossing
bfields; rejects `n = 0` and `n > 512`. -/
def mi_bchunk_try_find_and_clearN_ (c : Bchunk) (n : Nat) : Bchunk × Option Nat :=
  if n = 0 || 512 < n then (c, none)
  else mi_bchunk_tfacN_go n (mi_divide_up n 64) 16 c 0

/-- `mi_bchunk_all_are_clear(chunk)`. -/
def mi_bchunk_all_are_clear (c : Bchunk) : Bool :=
  (List.range 8).all (fun i => mi_bchunk_bfield c i == 0)

/-- `mi_bchunk_all_are_clear_relaxed(chunk)` (scalar fallback, identical to
the strict check). -/
def mi_bchunk_all_are_clear_relaxed (c : Bchunk) : Bool :=
  mi_bchunk_all_are_clear c

/-- Count-down loop of `mi_bchunk_bsr`. -/
def mi_bchunk_bsr_go (c : Bchunk) : Nat → Option Nat
  | 0 => none
  | i + 1 =>
    let b := mi_bchunk_bfield c i
    match mi_bsr b with
    | (true, idx) => some (i * 64 + idx)
    | (false, _) => mi_bchunk_bsr_go c i

/-- `mi_bchunk_bsr(chunk, *pidx)`: highest set bit of a chunk. -/
def mi_bchunk_bsr (c : Bchunk) : Option Nat := mi_bchunk_bsr_go c 8

/-- The bitmap header plus its chunks, as in `mi_bitmap_t`:
`chunk_count` (written once at init), the monotone hint
`chunk_max_accessed`, the summarizing `chunkmap` (one bchunk), and the
payload chunks. -/
structure Bitmap where
  chunk_count : Nat
  chunk_max_accessed : Nat
  chunkmap : Bchunk
  chunks : List Bchunk
deriving DecidableEq

/-- Read `&bitmap->chunks[i]`. -/
def mi_bitmap_chunk (bm : Bitmap) (i : Nat) : Bchunk := bm.chunks.getD i []

/-- `mi_bitmap_max_bits`. -/
def mi_bitmap_max_bits (bm : Bitmap) : Nat := bm.chunk_count * 512

/-- The state produced by `mi_bitmap_init(mem, bit_count, already_zero)` for
`bit_count = chunk_count * 512`: everything zeroed and `chunk_count` stored. -/
def mi_bitmap_zeroed (chunk_count : Nat) : Bitmap :=
  { chunk_count := chunk_count
    chunk_max_accessed := 0
    chunkmap := List.replicate 8 0
    chunks := List.replicate chunk_count (List.replicate 8 0) }

/-- `mi_bitmap_chunkmap_set_max(bitmap, chunk_idx)`: CAS-advance the hint
when strictly greater. -/
def mi_bitmap_chunkmap_set_max (bm : Bitmap) (chunk_idx : Nat) : Bitmap :=
  if bm.chunk_max_accessed < chunk_idx then { bm with chunk_max_accessed := chunk_idx } else bm

/-- `mi_bitmap_chunkmap_set(bitmap, chunk_idx)`. -/
def mi_bitmap_chunkmap_set (bm : Bitmap) (chunk_idx : Nat) : Bitmap :=
  mi_bitmap_chunkmap_set_max
    { bm with chunkmap := (mi_bchunk_set bm.chunkmap chunk_idx).1 } chunk_idx

/-- `mi_bitmap_chunkmap_try_clear(bitmap, chunk_idx)`: clear the chunkmap bit
only if the chunk is observed all clear, re-check, and restore the bit if the
re-check fails (which cannot happen sequentially). -/
def mi_bitmap_chunkmap_try_clear (bm : Bitmap) (chunk_idx : Nat) : Bitmap × Bool :=
  if !mi_bchunk_all_are_clear_relaxed (mi_bitmap_chunk bm chunk_idx) then (bm, false)
  else
    let bm1 := { bm with chunkmap := (mi_bchunk_clear bm.chunkmap chunk_idx).1 }
    if !mi_bchunk_all_are_clear_relaxed (mi_bitmap_chunk bm1 chunk_idx) then
      ({ bm1 with chunkmap := (mi_bchunk_set bm1.chunkmap chunk_idx).1 }, false)
    else (mi_bitmap_chunkmap_set_max bm1 chunk_idx, true)

/-- Chunkmap bit `i` (specification helper). -/
def mi_bitmap_cmapBit (bm : Bitmap) (i : Nat) : Bool :=
  (mi_bchunk_bfield bm.chunkmap (i / 64)).testBit (i % 64)

/-- `mi_bitmap_xset(set, bitmap, idx)`. -/
def mi_bitmap_xset (set : Bool) (bm : Bitmap) (idx : Nat) : Bitmap × Bool :=
  let chunk_idx := idx / 512
  let cidx := idx % 512
  if set then
    let r := mi_bchunk_set (mi_bitmap_chunk bm chunk_idx) cidx
    let bm1 := { bm with chunks := bm.chunks.set chunk_idx r.1 }
    (mi_bitmap_chunkmap_set bm1 chunk_idx, r.2)
  else
    let r := mi_bchunk_clear (mi_bitmap_chunk bm chunk_idx) cidx
    let bm1 := { bm with chunks := bm.chunks.set chunk_idx r.1 }
    if r.2.2 then ((mi_bitmap_chunkmap_try_clear bm1 chunk_idx).1, r.2.1)
    else (bm1, r.2.1)

/-- `mi_bitmap_xset8(set, bitmap, idx)` (with `idx % 8 = 0`). -/
def mi_bitmap_xset8 (set : Bool) (bm : Bitmap) (idx : Nat) : Bitmap × Bool :=
  let chunk_idx := idx / 512
  let byte_idx := idx % 512 / 8
  if set then
    let r := mi_bchunk_set8 (mi_bitmap_chunk bm chunk_idx) byte_idx
    let bm1 := { bm with chunks := bm.chunks.set chunk_idx r.1 }
    (mi_bitmap_chunkmap_set bm1 chunk_idx, r.2)
  else
    let r := mi_bchunk_clear8 (mi_bitmap_chunk bm chunk_idx) byte_idx
    let bm1 := { bm with chunks := bm.chunks.set chunk_idx r.1 }
    if r.2.2 then ((mi_bitmap_chunkmap_try_clear bm1 chunk_idx).1, r.2.1)
    else (bm1, r.2.1)

/-- `mi_bitmap_xsetX(set, bitmap, idx)` (with `idx % 64 = 0`). -/
def mi_bitmap_xsetX (set : Bool) (bm : Bitmap) (idx : Nat) : Bitmap × Bool :=
  let chunk_idx := idx / 512
  let field_idx := idx % 512 / 64
  if set then
    let r := mi_bchunk_setX (mi_bitmap_chunk bm chunk_idx) field_idx
    let bm1 := { bm with chunks := bm.chunks.set chunk_idx r.1 }
    (mi_bitmap_chunkmap_set bm1 chunk_idx, r.2)
  else
    let r := mi_bchunk_clearX (mi_bitmap_chunk bm chunk_idx) field_idx
    let bm1 := { bm with chunks := bm.chunks.set chunk_idx r.1 }
    if r.2.2 then ((mi_bitmap_chunkmap_try_clear bm1 chunk_idx).1, r.2.1)
    else (bm1, r.2.1)

/-- `mi_bitmap_xsetN_(set, bitmap, idx, n, *already_xset)` (general range in
one chunk, including the source's paranoia clamp). -/
def mi_bitmap_xsetN_go (set : Bool) (bm : Bitmap) (idx n : Nat) : Bitmap × Bool × Nat :=
  let chunk_idx := idx / 512
  let cidx := idx % 512
  let n1 := if 512 < cidx + n then 512 - cidx else n
  if set then
    let r := mi_bchunk_setN (mi_bitmap_chunk bm chunk_idx) cidx n1
    let bm1 := { bm with chunks := bm.chunks.set chunk_idx r.1 }
    (mi_bitmap_chunkmap_set bm1 chunk_idx, r.2.1, r.2.2)
  else
    let r := mi_bchunk_clearN (mi_bitmap_chunk bm chunk_idx) cidx n1
    let bm1 := { bm with chunks := bm.chunks.set chunk_idx r.1 }
    let bm2 := if r.2.2 < n1 then (mi_bitmap_chunkmap_try_clear bm1 chunk_idx).1 else bm1
    (bm2, r.2.1, r.2.2)

/-- `mi_bitmap_xsetN(set, bitmap, idx, n, *already_xset)`: dispatcher on `n`
(the `already_xset` out-parameter is written only on the general path). -/
def mi_bitmap_xsetN (set : Bool) (bm : Bitmap) (idx n : Nat) : Bitmap × Bool × Option Nat :=
  if n = 1 then
    let r := mi_bitmap_xset set bm idx
    (r.1, r.2, none)
  else if n = 8 then
    let r := mi_bitmap_xset8 set bm idx
    (r.1, r.2, none)
  else if n = 64 then
    let r := mi_bitmap_xsetX set bm idx
    (r.1, r.2, none)
  else
    let r := mi_bitmap_xsetN_go set bm idx n
    (r.1, r.2.1, some r.2.2)

/-- `mi_bitmap_is_xsetN(set, bitmap, idx, n)`. -/
def mi_bitmap_is_xsetN (set : Bool) (bm : Bitmap) (idx n : Nat) : Bool :=
  let chunk_idx := idx / 512
  let cidx := idx % 512
  let n1 := if 512 < cidx + n then 512 - cidx else n
  mi_bchunk_is_xsetN set (mi_bitmap_chunk bm chunk_idx) cidx n1

/-- Chunkmap maintenance loop over the middle chunks of
`mi_bitmap_unsafe_setN` (sets whole chunkmap bfields when aligned). -/
def mi_bitmap_unsafe_setN_cmap_go : Nat → Bitmap → Nat → Nat → Bitmap
  | 0, bm, _, _ => bm
  | fuel + 1, bm, chunk_idx, end_chunk =>
    if chunk_idx < end_chunk then
      if chunk_idx % 64 = 0 && chunk_idx + 64 ≤ end_chunk then
        let bm1 := { bm with chunkmap := bm.chunkmap.set (chunk_idx / 64) mi_bfield_all_set }
        let bm2 := mi_bitmap_chunkmap_set bm1 (chunk_idx + 64 - 1)
        mi_bitmap_unsafe_setN_cmap_go fuel bm2 (chunk_idx + 64) end_chunk
      else
        mi_bitmap_unsafe_setN_cmap_go fuel (mi_bitmap_chunkmap_set bm chunk_idx) (chunk_idx + 1) end_chunk
    else bm

/-- The `_mi_memset(~0)` over the middle chunks of `mi_bitmap_unsafe_setN`. -/
def mi_set_chunks_go : Nat → List Bchunk → Nat → List Bchunk
  | 0, cs, _ => cs
  | k + 1, cs, i => mi_set_chunks_go k (cs.set i (List.replicate 8 mi_bfield_all_set)) (i + 1)

/-- The middle-chunks block of `mi_bitmap_unsafe_setN`: memset the
`mid_chunks` chunks starting at `chunk_idx1` to all ones and mark them in
the chunkmap (no-op when there is no middle part). -/
def mi_bitmap_unsafe_setN_mid (bm2 : Bitmap) (chunk_idx1 mid_chunks : Nat) : Bitmap :=
  if 0 < mid_chunks then
    let bmA := { bm2 with chunks := mi_set_chunks_go mid_chunks bm2.chunks chunk_idx1 }
    mi_bitmap_unsafe_setN_cmap_go (chunk_idx1 + mid_chunks) bmA chunk_idx1
      (chunk_idx1 + mid_chunks)
  else bm2

/-- The final partial-chunk block of `mi_bitmap_unsafe_setN`. -/
def mi_bitmap_unsafe_setN_last (bm3 : Bitmap) (chunk_idx2 n2 : Nat) : Bitmap :=
  if 0 < n2 then
    let bmB := { bm3 with
      chunks := bm3.chunks.set chunk_idx2
        (mi_bchunk_setN (mi_bitmap_chunk bm3 chunk_idx2) 0 n2).1 }
    mi_bitmap_chunkmap_set bmB chunk_idx2
  else bm3

/-- `mi_bitmap_unsafe_setN(bitmap, idx, n)`: single-threaded bulk set across
chunks; resets `chunk_max_accessed` to 0 at the end. -/
def mi_bitmap_unsafe_setN (bm : Bitmap) (idx n : Nat) : Bitmap :=
  let chunk_idx := idx / 512
  let cidx := idx % 512
  let m := min (512 - cidx) n
  let bm1 := { bm with chunks := bm.chunks.set chunk_idx (mi_bchunk_setN (mi_bitmap_chunk bm chunk_idx) cidx m).1 }
  let bm2 := mi_bitmap_chunkmap_set bm1 chunk_idx
  let chunk_idx1 := chunk_idx + 1
  let n1 := n - m
  let mid_chunks := n1 / 512
  let bm3 := mi_bitmap_unsafe_setN_mid bm2 chunk_idx1 mid_chunks
  let chunk_idx2 := chunk_idx1 + mid_chunks
  let n2 := n1 - mid_chunks * 512
  let bm4 := mi_bitmap_unsafe_setN_last bm3 chunk_idx2 n2
  { bm4 with chunk_max_accessed := 0 }

/-- The loop body of the `mi_bfield_iterate` macro: fueled by the initial
popcount, take the least bit of the current arm, switching to the second arm
(`bfield & ~cycle_mask`) when the first is exhausted. -/
def mi_bfield_iterate_go (bfield cycle_mask : Nat) : Nat → Nat → List Nat
  | 0, _ => []
  | bcount + 1, b =>
    let b1 := if b = 0 then bfield &&& bnot64 cycle_mask else b
    mi_bfield_ctz b1 :: mi_bfield_iterate_go bfield cycle_mask bcount (mi_bfield_clear_least_bit b1)

/-- The visit order produced by the `mi_bfield_iterate(bfield, start, cycle)`
macro. -/
def mi_bfield_iterate_list (bfield start cycle : Nat) : List Nat :=
  let cycle_mask := mi_bfield_mask (cycle - start) start
  mi_bfield_iterate_go bfield cycle_mask (mi_bfield_popcount bfield) (bfield &&& cycle_mask)

/-- The visit order of `mi_bfield_cycle_iterate(bfield, tseq, cycle)`:
`start = (uint32_t)tseq % (uint32_t)cycle`. -/
def mi_bfield_cycle_iterate_list (bfield tseq cycle : Nat) : List Nat :=
  mi_bfield_iterate_list bfield (tseq % 2 ^ 32 % (cycle % 2 ^ 32)) cycle

/-- A visitor of `mi_bitmap_find`: given the bitmap state, a chunk index and
the run length `n`, return the new state and the claimed bit index when the
search is to stop. -/
abbrev MiVisitFun := Bitmap → Nat → Nat → Bitmap × Option Nat

/-- Inner loop of `mi_bitmap_find`: visit the listed chunk indices in order,
threading the state, stopping at the first successful visit. -/
def mi_bitmap_find_inner (visit : MiVisitFun) (n : Nat) : Bitmap → List Nat → Bitmap × Option Nat
  | bm, [] => (bm, none)
  | bm, cidx :: rest =>
    match visit bm cidx n with
    | (bm', some idx) => (bm', some idx)
    | (bm', none) => mi_bitmap_find_inner visit n bm' rest

/-- Outer loop of `mi_bitmap_find`: for each chunkmap entry (in cyclic
order), load the entry and visit its set bits in the inner cyclic order. -/
def mi_bitmap_find_outer (visit : MiVisitFun) (tseq n cmap_acc cmap_acc_bits : Nat) : Bitmap → List Nat → Bitmap × Option Nat
  | bm, [] => (bm, none)
  | bm, e :: rest =>
    let cmap_entry := mi_bchunk_bfield bm.chunkmap e
    let cmap_entry_cycle := if e ≠ cmap_acc then 64 else cmap_acc_bits
    let bits := mi_bfield_cycle_iterate_list cmap_entry tseq cmap_entry_cycle
    match mi_bitmap_find_inner visit n bm (bits.map (fun eidx => e * 64 + eidx)) with
    | (bm', some idx) => (bm', some idx)
    | (bm', none) => mi_bitmap_find_outer visit tseq n cmap_acc cmap_acc_bits bm' rest

/-- `mi_bitmap_find(bitmap, tseq, n, *pidx, on_find, ...)`. -/
def mi_bitmap_find (bm : Bitmap) (tseq n : Nat) (visit : MiVisitFun) : Bitmap × Option Nat :=
  let cmap_max_count := mi_divide_up bm.chunk_count 64
  let chunk_acc := bm.chunk_max_accessed
  let cmap_acc := chunk_acc / 64
  let cmap_acc_bits := 1 + chunk_acc % 64
  let cmap_mask := mi_bfield_mask cmap_max_count 0
  let cmap_cycle := cmap_acc + 1
  mi_bitmap_find_outer visit tseq n cmap_acc cmap_acc_bits bm
    (mi_bfield_cycle_iterate_list cmap_mask tseq cmap_cycle)

/-- `mi_bitmap_try_find_and_clear_visit`, generic over the chunk-level
find-and-clear function passed as `arg1`. -/
def mi_bitmap_try_find_and_clear_visit (try_fn : Bchunk → Nat → Bchunk × Option Nat) : MiVisitFun :=
  fun bm chunk_idx n =>
    match try_fn (mi_bitmap_chunk bm chunk_idx) n with
    | (c', some cidx) =>
      ({ bm with chunks := bm.chunks.set chunk_idx c' }, some (chunk_idx * 512 + cidx))
    | (_, none) => ((mi_bitmap_chunkmap_try_clear bm chunk_idx).1, none)

/-- `mi_bchunk_try_find_and_clear_1`. -/
def mi_bchunk_try_find_and_clear_1 (c : Bchunk) (_n : Nat) : Bchunk × Option Nat :=
  mi_bchunk_try_find_and_clear c

/-- `mi_bchunk_try_find_and_clear_8`. -/
def mi_bchunk_try_find_and_clear_8 (c : Bchunk) (_n : Nat) : Bchunk × Option Nat :=
  mi_bchunk_try_find_and_clear8 c

/-- `mi_bchunk_try_find_and_clear_X`. -/
def mi_bchunk_try_find_and_clear_X (c : Bchunk) (_n : Nat) : Bchunk × Option Nat :=
  mi_bchunk_try_find_and_clearX c

/-- `mi_bchunk_try_find_and_clearNX` with the generic signature. -/
def mi_bchunk_try_find_and_clearNX_fn (c : Bchunk) (n : Nat) : Bchunk × Option Nat :=
  mi_bchunk_try_find_and_clearNX c n

/-- `mi_bchunk_try_find_and_clearN_` with the generic signature. -/
def mi_bchunk_try_find_and_clearN_fn (c : Bchunk) (n : Nat) : Bchunk × Option Nat :=
  mi_bchunk_try_find_and_clearN_ c n

/-- `mi_bitmap_try_find_and_clear(bitmap, tseq, *pidx)`. -/
def mi_bitmap_try_find_and_clear (bm : Bitmap) (tseq : Nat) : Bitmap × Option Nat :=
  mi_bitmap_find bm tseq 1 (mi_bitmap_try_find_and_clear_visit mi_bchunk_try_find_and_clear_1)

/-- `mi_bitmap_try_find_and_clear8(bitmap, tseq, *pidx)`. -/
def mi_bitmap_try_find_and_clear8 (bm : Bitmap) (tseq : Nat) : Bitmap × Option Nat :=
  mi_bitmap_find bm tseq 8 (mi_bitmap_try_find_and_clear_visit mi_bchunk_try_find_and_clear_8)

/-- `mi_bitmap_try_find_and_clearX(bitmap, tseq, *pidx)`. -/
def mi_bitmap_try_find_and_clearX (bm : Bitmap) (tseq : Nat) : Bitmap × Option Nat :=
  mi_bitmap_find bm tseq 64 (mi_bitmap_try_find_and_clear_visit mi_bchunk_try_find_and_clear_X)

/-- `mi_bitmap_try_find_and_clearNX(bitmap, tseq, n, *pidx)`. -/
def mi_bitmap_try_find_and_clearNX (bm : Bitmap) (tseq n : Nat) : Bitmap × Option Nat :=
  mi_bitmap_find bm tseq n (mi_bitmap_try_find_and_clear_visit mi_bchunk_try_find_and_clearNX_fn)

/-- `mi_bitmap_try_find_and_clearN_(bitmap, tseq, n, *pidx)`. -/
def mi_bitmap_try_find_and_clearN_ (bm : Bitmap) (tseq n : Nat) : Bitmap × Option Nat :=
  mi_bitmap_find bm tseq n (mi_bitmap_try_find_and_clear_visit mi_bchunk_try_find_and_clearN_fn)

/-- `mi_bitmap_try_find_and_claim_visit`: the claim callback is modelled as
a pure function of the slice index returning (claimed, keep_set as left by
the callback; the C code initializes `keep_set = true` before the call). -/
def mi_bitmap_try_find_and_claim_visit (claimFn : Nat → Bool × Bool) : MiVisitFun :=
  fun bm chunk_idx _n =>
    match mi_bchunk_try_find_and_clear (mi_bitmap_chunk bm chunk_idx) with
    | (c', some cidx) =>
      let bm1 := { bm with chunks := bm.chunks.set chunk_idx c' }
      let slice_index := chunk_idx * 512 + cidx
      let cl := claimFn slice_index
      if cl.1 then (bm1, some slice_index)
      else if cl.2 then
        ({ bm1 with chunks := bm1.chunks.set chunk_idx (mi_bchunk_set (mi_bitmap_chunk bm1 chunk_idx) cidx).1 }, none)
      else (bm1, none)
    | (_, none) => ((mi_bitmap_chunkmap_try_clear bm chunk_idx).1, none)

/-- `mi_bitmap_try_find_and_claim(bitmap, tseq, *pidx, claim, ...)`. -/
def mi_bitmap_try_find_and_claim (bm : Bitmap) (tseq : Nat) (claimFn : Nat → Bool × Bool) : Bitmap × Option Nat :=
  mi_bitmap_find bm tseq 1 (mi_bitmap_try_find_and_claim_visit claimFn)

/-- Count-down loop of `mi_bitmap_bsr` over the chunkmap bfields. -/
def mi_bitmap_bsr_go (bm : Bitmap) : Nat → Option Nat
  | 0 => none
  | i + 1 =>
    let cmap := mi_bchunk_bfield bm.chunkmap i
    match mi_bsr cmap with
    | (true, cmap_idx) =>
      let chunk_idx := i * 64 + cmap_idx
      match mi_bchunk_bsr (mi_bitmap_chunk bm chunk_idx) with
      | some cidx => some (chunk_idx * 512 + cidx)
      | none => mi_bitmap_bsr_go bm i
    | (false, _) => mi_bitmap_bsr_go bm i

/-- `mi_bitmap_bsr(bitmap, *idx)`: highest set bit via the chunkmap. -/
def mi_bitmap_bsr (bm : Bitmap) : Option Nat :=
  mi_bitmap_bsr_go bm (mi_divide_up bm.chunk_count 64)

/-- The conjunction of the `mi_assert_internal` preconditions at the head of
one `mi_bfield_iterate` expansion. -/
def mi_bfield_iterate_asserts (start cycle : Nat) : Bool :=
  decide (start ≤ cycle) && decide (start < 64) && decide (cycle < 64)

/-- All `mi_bfield_iterate` assertion preconditions evaluated by a complete
(fruitless) scan of `mi_bitmap_find`: the outer expansion over the chunkmap
mask, and one inner expansion per visited chunkmap entry. -/
def mi_bitmap_find_asserts (bm : Bitmap) (tseq : Nat) : Bool :=
  let cmap_max_count := mi_divide_up bm.chunk_count 64
  let chunk_acc := bm.chunk_max_accessed
  let cmap_acc := chunk_acc / 64
  let cmap_acc_bits := 1 + chunk_acc % 64
  let cmap_mask := mi_bfield_mask cmap_max_count 0
  let cmap_cycle := cmap_acc + 1
  let startX := tseq % 2 ^ 32 % (cmap_cycle % 2 ^ 32)
  mi_bfield_iterate_asserts startX cmap_cycle &&
    (mi_bfield_iterate_list cmap_mask startX cmap_cycle).all (fun cmap_idx =>
      let cmap_entry_cycle := if cmap_idx ≠ cmap_acc then 64 else cmap_acc_bits
      let startY := tseq % 2 ^ 32 % (cmap_entry_cycle % 2 ^ 32)
      mi_bfield_iterate_asserts startY cmap_entry_cycle)

/-- Invariant I2 (chunkmap over-approximation): every chunk with a set bit
has its chunkmap bit set. -/
def mi_bitmap_I2 (bm : Bitmap) : Prop :=
  ∀ i, i < bm.chunk_count →
    mi_bchunk_all_are_clear (mi_bitmap_chunk bm i) = false → mi_bitmap_cmapBit bm i = true

/-- Structural well-formedness used by the bitmap-level theorems: the
chunkmap bchunk really has 8 bfields and the chunk count fits the chunkmap
(C ≤ B, invariant I4). -/
def mi_bitmap_wf (bm : Bitmap) : Prop :=
  bm.chunkmap.length = 8 ∧ bm.chunk_count ≤ 512

/-- Exactness of the chunkmap: bit `i` is set iff chunk `i` has a set bit. -/
def mi_bitmap_cmap_exact (bm : Bitmap) : Prop :=
  ∀ i, i < bm.chunk_count →
    mi_bitmap_cmapBit bm i = !mi_bchunk_all_are_clear (mi_bitmap_chunk bm i)

/-- Byte `j` of a word (specification helper for the byte-search claims). -/
def mi_byte (x j : Nat) : Nat := x >>> (8 * j) % 256

/-- Specification helper: every bfield of `c1` equals the corresponding
bfield of `c`, possibly and-masked — the shape every clearing step leaves
behind — and the field count is unchanged. -/
def mi_chunk_shrinks (c c1 : Bchunk) : Prop :=
  c1.length = c.length ∧
  ∀ g, mi_bchunk_bfield c1 g = mi_bchunk_bfield c g ∨
    ∃ m, mi_bchunk_bfield c1 g = mi_bchunk_bfield c g &&& m

/-- Shape well-formedness of the chunk array: every chunk has 8 bfields,
each holding a 64-bit value. -/
def mi_bitmap_chunks_wf (bm : Bitmap) : Prop :=
  ∀ c ∈ bm.chunks, c.length = 8 ∧ ∀ b ∈ c, b < 2 ^ 64

/-- Specification helper: the byte-wise low-bit constant `0x0101...01` on
`k` bytes (`MI_BFIELD_LO_BIT8` generalized for the byte-trick induction). -/
def mi_lo8 : Nat → Nat
  | 0 => 0
  | k + 1 => 1 + 256 * mi_lo8 k

/-- Specification helper: the byte-wise high-bit constant `0x8080...80` on
`k` bytes (`MI_BFIELD_HI_BIT8` generalized for the byte-trick induction). -/
def mi_hi8 : Nat → Nat
  | 0 => 0
  | k + 1 => 128 + 256 * mi_hi8 k

/-- Specification helper: bitwise complement on `k` bytes. -/
def mi_bnotk (k b : Nat) : Nat := b ^^^ (2 ^ (8 * k) - 1)

/-- Specification helper: subtraction modulo `2 ^ (8 k)`. -/
def mi_subk (k a b : Nat) : Nat := (2 ^ (8 * k) + a - b) % 2 ^ (8 * k)

/-- Specification helper: the `k`-byte generalization of the detection value
`(~b - LO) & (b & HI)` computed by `mi_has_set8` (before the shift by 7). -/
def mi_hasFF (k b : Nat) : Nat :=
  mi_subk k (mi_bnotk k b) (mi_lo8 k) &&& (b &&& mi_hi8 k)

/-! ## Bit-level toolkit -/

theorem mi_bfield_ctz_go_succ (fuel x : Nat) :
    mi_bfield_ctz_go (fuel + 1) x =
      if x = 0 then 0 else if x % 2 = 1 then 0 else mi_bfield_ctz_go fuel (x / 2) + 1 := rfl

theorem mi_bfield_popcount_go_succ (fuel x : Nat) :
    mi_bfield_popcount_go (fuel + 1) x =
      if x = 0 then 0 else x % 2 + mi_bfield_popcount_go fuel (x / 2) := rfl

theorem mi_bfield_ctz_go_zero (fuel : Nat) : mi_bfield_ctz_go fuel 0 = 0 := by
  cases fuel <;> simp [mi_bfield_ctz_go]

theorem mi_bfield_ctz_go_fuel_eq : ∀ f1 f2 x, x < 2 ^ f1 → x < 2 ^ f2 →
    mi_bfield_ctz_go f1 x = mi_bfield_ctz_go f2 x := by
  intro f1
  induction f1 with
  | zero =>
    intro f2 x h1 _
    interval_cases x
    simp [mi_bfield_ctz_go_zero]
  | succ f ih =>
    intro f2 x h1 h2
    by_cases hx : x = 0
    · subst hx; simp [mi_bfield_ctz_go_zero]
    cases f2 with
    | zero => omega
    | succ f2' =>
      by_cases hodd : x % 2 = 1
      · rw [mi_bfield_ctz_go_succ, mi_bfield_ctz_go_succ]
        simp [hx, hodd]
      · have hd1 : x / 2 < 2 ^ f := by
          have := Nat.pow_succ 2 f
          omega
        have hd2 : x / 2 < 2 ^ f2' := by
          have := Nat.pow_succ 2 f2'
          omega
        rw [mi_bfield_ctz_go_succ, mi_bfield_ctz_go_succ]
        simp [hx, hodd, ih f2' (x / 2) hd1 hd2]

theorem mi_bfield_ctz_odd (x : Nat) (h : x % 2 = 1) : mi_bfield_ctz x = 0 := by
  have hx : x ≠ 0 := by omega
  show mi_bfield_ctz_go (63 + 1) x = 0
  rw [mi_bfield_ctz_go_succ]
  simp [hx, h]

theorem mi_bfield_ctz_even (x : Nat) (hx : x ≠ 0) (h : x % 2 = 0) (hb : x < 2 ^ 64) :
    mi_bfield_ctz x = mi_bfield_ctz (x / 2) + 1 := by
  show mi_bfield_ctz_go (63 + 1) x = mi_bfield_ctz_go 64 (x / 2) + 1
  have hlt : x / 2 < 2 ^ 63 := by
    have := Nat.pow_succ 2 63
    omega
  have hlt64 : x / 2 < 2 ^ 64 := by
    have : (2:Nat) ^ 63 ≤ 2 ^ 64 := Nat.pow_le_pow_right (by omega) (by omega)
    omega
  rw [mi_bfield_ctz_go_succ, if_neg hx, if_neg (by omega : ¬x % 2 = 1)]
  rw [mi_bfield_ctz_go_fuel_eq 63 64 (x / 2) hlt hlt64]

theorem mi_bfield_ctz_spec (x : Nat) (hb : x < 2 ^ 64) (hx : x ≠ 0) :
    x.testBit (mi_bfield_ctz x) = true ∧ ∀ j, j < mi_bfield_ctz x → x.testBit j = false := by
  induction x using Nat.strong_induction_on with
  | _ x ih =>
    by_cases hodd : x % 2 = 1
    · rw [mi_bfield_ctz_odd x hodd]
      constructor
      · simp [Nat.testBit_zero, hodd]
      · omega
    · have heven : x % 2 = 0 := by omega
      have hq : x / 2 ≠ 0 := by omega
      have hqlt : x / 2 < x := Nat.div_lt_self (Nat.pos_of_ne_zero hx) (by omega)
      have hqb : x / 2 < 2 ^ 64 := by omega
      obtain ⟨h1, h2⟩ := ih (x / 2) hqlt hqb hq
      rw [mi_bfield_ctz_even x hx heven hb]
      constructor
      · rw [Nat.testBit_add_one]; exact h1
      · intro j hj
        cases j with
        | zero => simp [Nat.testBit_zero, heven]
        | succ j' => rw [Nat.testBit_add_one]; exact h2 j' (by omega)

theorem mi_bfield_ctz_lt (x : Nat) (hb : x < 2 ^ 64) (hx : x ≠ 0) : mi_bfield_ctz x < 64 := by
  by_contra h
  have h1 := (mi_bfield_ctz_spec x hb hx).1
  have : x < 2 ^ mi_bfield_ctz x :=
    lt_of_lt_of_le hb (Nat.pow_le_pow_right (by omega) (by omega))
  rw [Nat.testBit_lt_two_pow this] at h1
  exact Bool.false_ne_true h1

theorem mi_bfield_ctz_eq_of (x k : Nat) (hb : x < 2 ^ 64)
    (h1 : x.testBit k = true) (h2 : ∀ j, j < k → x.testBit j = false) :
    mi_bfield_ctz x = k := by
  have hx : x ≠ 0 := by
    intro h; subst h; simp at h1
  obtain ⟨c1, c2⟩ := mi_bfield_ctz_spec x hb hx
  rcases Nat.lt_trichotomy (mi_bfield_ctz x) k with h | h | h
  · rw [h2 _ h] at c1; exact absurd c1 (by simp)
  · exact h
  · rw [c2 _ h] at h1; exact absurd h1 (by simp)

theorem mi_land_odd (x : Nat) (h : x % 2 = 1) : x &&& (x - 1) = x - 1 := by
  apply Nat.eq_of_testBit_eq
  intro j
  rw [Nat.testBit_and]
  cases j with
  | zero =>
    have : (x - 1) % 2 = 0 := by omega
    simp [Nat.testBit_zero, this]
  | succ j' =>
    have hdiv : (x - 1) / 2 = x / 2 := by omega
    rw [Nat.testBit_add_one, Nat.testBit_add_one, hdiv, Bool.and_self]

theorem mi_land_even (x : Nat) (hx : x ≠ 0) (h : x % 2 = 0) :
    x &&& (x - 1) = 2 * (x / 2 &&& (x / 2 - 1)) := by
  apply Nat.eq_of_testBit_eq
  intro j
  rw [Nat.testBit_and]
  cases j with
  | zero =>
    have h2 : (2 * (x / 2 &&& (x / 2 - 1))) % 2 = 0 := by omega
    simp [Nat.testBit_zero, h, h2]
  | succ j' =>
    have hdiv : (x - 1) / 2 = x / 2 - 1 := by omega
    have hdiv2 : 2 * (x / 2 &&& (x / 2 - 1)) / 2 = x / 2 &&& (x / 2 - 1) := by omega
    rw [Nat.testBit_add_one, Nat.testBit_add_one, Nat.testBit_add_one, hdiv, hdiv2,
      Nat.testBit_and]

theorem mi_clear_least_testBit (x : Nat) (hb : x < 2 ^ 64) (hx : x ≠ 0) (j : Nat) :
    (mi_bfield_clear_least_bit x).testBit j = (x.testBit j && decide (j ≠ mi_bfield_ctz x)) := by
  induction x using Nat.strong_induction_on generalizing j with
  | _ x ih =>
    unfold mi_bfield_clear_least_bit
    by_cases hodd : x % 2 = 1
    · rw [mi_land_odd x hodd, mi_bfield_ctz_odd x hodd]
      cases j with
      | zero =>
        have : (x - 1) % 2 = 0 := by omega
        simp [Nat.testBit_zero, this]
      | succ j' =>
        have hdiv : (x - 1) / 2 = x / 2 := by omega
        rw [Nat.testBit_add_one, Nat.testBit_add_one, hdiv]
        simp
    · have heven : x % 2 = 0 := by omega
      have hq : x / 2 ≠ 0 := by omega
      have hqlt : x / 2 < x := Nat.div_lt_self (Nat.pos_of_ne_zero hx) (by omega)
      have hqb : x / 2 < 2 ^ 64 := by omega
      rw [mi_land_even x hx heven, mi_bfield_ctz_even x hx heven hb]
      cases j with
      | zero =>
        have h2 : (2 * (x / 2 &&& (x / 2 - 1))) % 2 = 0 := by
          omega
        simp [Nat.testBit_zero, heven, h2]
      | succ j' =>
        have hdiv2 : 2 * (x / 2 &&& (x / 2 - 1)) / 2 = x / 2 &&& (x / 2 - 1) := by omega
        rw [Nat.testBit_add_one, Nat.testBit_add_one, hdiv2]
        have := ih (x / 2) hqlt hqb hq j'
        unfold mi_bfield_clear_least_bit at this
        rw [this]
        have hiff : (j' ≠ mi_bfield_ctz (x / 2)) ↔ (j' + 1 ≠ mi_bfield_ctz (x / 2) + 1) := by omega
        rw [decide_eq_decide.mpr hiff]

theorem mi_bfield_popcount_go_zero (fuel : Nat) : mi_bfield_popcount_go fuel 0 = 0 := by
  cases fuel <;> simp [mi_bfield_popcount_go]

theorem mi_bfield_popcount_go_fuel_eq : ∀ f1 f2 x, x < 2 ^ f1 → x < 2 ^ f2 →
    mi_bfield_popcount_go f1 x = mi_bfield_popcount_go f2 x := by
  intro f1
  induction f1 with
  | zero =>
    intro f2 x h1 _
    interval_cases x
    simp [mi_bfield_popcount_go_zero]
  | succ f ih =>
    intro f2 x h1 h2
    by_cases hx : x = 0
    · subst hx; simp [mi_bfield_popcount_go_zero]
    cases f2 with
    | zero => omega
    | succ f2' =>
      have hd1 : x / 2 < 2 ^ f := by
        have := Nat.pow_succ 2 f
        omega
      have hd2 : x / 2 < 2 ^ f2' := by
        have := Nat.pow_succ 2 f2'
        omega
      rw [mi_bfield_popcount_go_succ, mi_bfield_popcount_go_succ]
      simp [hx, ih f2' (x / 2) hd1 hd2]

theorem mi_bfield_popcount_div2 (x : Nat) (hx : x ≠ 0) (hb : x < 2 ^ 64) :
    mi_bfield_popcount x = x % 2 + mi_bfield_popcount (x / 2) := by
  show mi_bfield_popcount_go (63 + 1) x = x % 2 + mi_bfield_popcount_go 64 (x / 2)
  have hlt : x / 2 < 2 ^ 63 := by
    have := Nat.pow_succ 2 63
    omega
  have hlt64 : x / 2 < 2 ^ 64 := by
    have : (2:Nat) ^ 63 ≤ 2 ^ 64 := Nat.pow_le_pow_right (by omega) (by omega)
    omega
  rw [mi_bfield_popcount_go_succ, if_neg hx]
  rw [mi_bfield_popcount_go_fuel_eq 63 64 (x / 2) hlt hlt64]

theorem mi_bfield_popcount_eq_zero (x : Nat) (hb : x < 2 ^ 64) :
    mi_bfield_popcount x = 0 ↔ x = 0 := by
  induction x using Nat.strong_induction_on with
  | _ x ih =>
    constructor
    · intro h
      by_contra hx
      rw [mi_bfield_popcount_div2 x hx hb] at h
      have hq0 : mi_bfield_popcount (x / 2) = 0 := by omega
      have hm : x % 2 = 0 := by omega
      have hq : x / 2 ≠ 0 := by omega
      have hqlt : x / 2 < x := Nat.div_lt_self (Nat.pos_of_ne_zero hx) (by omega)
      exact hq ((ih (x / 2) hqlt (by omega)).mp hq0)
    · intro h
      subst h
      simp [mi_bfield_popcount, mi_bfield_popcount_go_zero]

theorem mi_bfield_popcount_clear_least (x : Nat) (hb : x < 2 ^ 64) (hx : x ≠ 0) :
    mi_bfield_popcount x = mi_bfield_popcount (mi_bfield_clear_least_bit x) + 1 := by
  induction x using Nat.strong_induction_on with
  | _ x ih =>
    unfold mi_bfield_clear_least_bit
    by_cases hodd : x % 2 = 1
    · rw [mi_land_odd x hodd]
      rw [mi_bfield_popcount_div2 x hx hb]
      by_cases hq : x - 1 = 0
      · rw [hq]
        have hx1 : x = 1 := by omega
        subst hx1
        simp [mi_bfield_popcount, mi_bfield_popcount_go_zero]
      · rw [mi_bfield_popcount_div2 (x - 1) hq (by omega)]
        have h1 : (x - 1) % 2 = 0 := by omega
        have h2 : (x - 1) / 2 = x / 2 := by omega
        rw [h1, h2]
        omega
    · have heven : x % 2 = 0 := by omega
      have hq : x / 2 ≠ 0 := by omega
      have hqlt : x / 2 < x := Nat.div_lt_self (Nat.pos_of_ne_zero hx) (by omega)
      rw [mi_land_even x hx heven]
      rw [mi_bfield_popcount_div2 x hx hb, heven]
      have ihq := ih (x / 2) hqlt (by omega) hq
      unfold mi_bfield_clear_least_bit at ihq
      by_cases hy : 2 * (x / 2 &&& (x / 2 - 1)) = 0
      · rw [hy]
        have : x / 2 &&& (x / 2 - 1) = 0 := by omega
        rw [this] at ihq
        simp [mi_bfield_popcount, mi_bfield_popcount_go_zero] at ihq ⊢
        omega
      · have hylt : 2 * (x / 2 &&& (x / 2 - 1)) < 2 ^ 64 := by
          have : x / 2 &&& (x / 2 - 1) ≤ x / 2 - 1 := Nat.and_le_right
          omega
        rw [mi_bfield_popcount_div2 _ hy hylt]
        have hm : 2 * (x / 2 &&& (x / 2 - 1)) % 2 = 0 := by omega
        have hd : 2 * (x / 2 &&& (x / 2 - 1)) / 2 = x / 2 &&& (x / 2 - 1) := by omega
        rw [hm, hd]
        omega

theorem mi_clear_least_lt (x : Nat) (hx : x ≠ 0) : mi_bfield_clear_least_bit x < x := by
  unfold mi_bfield_clear_least_bit
  have : x &&& (x - 1) ≤ x - 1 := Nat.and_le_right
  omega

theorem mi_bfield_mask_eq (bit_count shiftl : Nat) (h : bit_count ≤ 64) :
    mi_bfield_mask bit_count shiftl = (2 ^ bit_count - 1) <<< shiftl := by
  unfold mi_bfield_mask
  rcases Nat.lt_or_ge bit_count 64 with h1 | h1
  · rw [if_pos h1]
  · have : bit_count = 64 := by omega
    subst this
    rfl

theorem mi_bfield_mask_testBit (bit_count shiftl j : Nat) (h : bit_count ≤ 64) :
    (mi_bfield_mask bit_count shiftl).testBit j =
      (decide (shiftl ≤ j) && decide (j < shiftl + bit_count)) := by
  rw [mi_bfield_mask_eq bit_count shiftl h]
  rw [Nat.testBit_shiftLeft, Nat.testBit_two_pow_sub_one]
  rcases Nat.lt_or_ge j shiftl with h1 | h1
  · simp [Nat.not_le.mpr h1]
  · have hge : decide (j ≥ shiftl) = true := by simp [h1]
    rw [hge, Bool.true_and, Bool.true_and, decide_eq_decide]
    omega

theorem mi_bfield_mask_lt (bit_count shiftl : Nat) (h : bit_count + shiftl ≤ 64) :
    mi_bfield_mask bit_count shiftl < 2 ^ 64 := by
  apply Nat.lt_pow_two_of_testBit
  intro i hi
  rw [mi_bfield_mask_testBit bit_count shiftl i (by omega)]
  simp only [Bool.and_eq_false_iff, decide_eq_false_iff_not]
  omega

theorem bnot64_testBit (x j : Nat) (hj : j < 64) : (bnot64 x).testBit j = !x.testBit j := by
  unfold bnot64 mi_bfield_all_set
  rw [Nat.testBit_xor, Nat.testBit_two_pow_sub_one]
  simp [hj]

theorem bnot64_testBit_ge (x j : Nat) (hx : x < 2 ^ 64) (hj : 64 ≤ j) :
    (bnot64 x).testBit j = false := by
  unfold bnot64 mi_bfield_all_set
  rw [Nat.testBit_xor, Nat.testBit_two_pow_sub_one]
  have h1 : x.testBit j = false :=
    Nat.testBit_lt_two_pow (lt_of_lt_of_le hx (Nat.pow_le_pow_right (by omega) hj))
  simp [h1]
  omega

theorem bnot64_lt (x : Nat) (hx : x < 2 ^ 64) : bnot64 x < 2 ^ 64 := by
  apply Nat.lt_pow_two_of_testBit
  intro i hi
  exact bnot64_testBit_ge x i hx hi

theorem bnot64_bnot64 (x : Nat) (hx : x < 2 ^ 64) : bnot64 (bnot64 x) = x := by
  unfold bnot64
  rw [Nat.xor_assoc, Nat.xor_self, Nat.xor_zero]

theorem land_lt_two_pow_left (x y n : Nat) (hx : x < 2 ^ n) : x &&& y < 2 ^ n :=
  lt_of_le_of_lt Nat.and_le_left hx

theorem land_lt_two_pow_right (x y n : Nat) (hy : y < 2 ^ n) : x &&& y < 2 ^ n :=
  lt_of_le_of_lt Nat.and_le_right hy

theorem lor_lt_two_pow (x y n : Nat) (hx : x < 2 ^ n) (hy : y < 2 ^ n) : x ||| y < 2 ^ n := by
  apply Nat.lt_pow_two_of_testBit
  intro i hi
  rw [Nat.testBit_or, Nat.testBit_lt_two_pow (lt_of_lt_of_le hx (Nat.pow_le_pow_right (by omega) hi)),
    Nat.testBit_lt_two_pow (lt_of_lt_of_le hy (Nat.pow_le_pow_right (by omega) hi))]
  rfl

/-! ## The cyclic iteration order (claim C6 machinery) -/

theorem filter_range_cons (n k : Nat) (p q : Nat → Bool) (hk : k < n) (hp : p k = true)
    (hlow : ∀ j, j < k → p j = false) (hq : ∀ j, q j = (p j && decide (j ≠ k))) :
    (List.range n).filter p = k :: (List.range n).filter q := by
  induction n with
  | zero => omega
  | succ n ih =>
    rw [List.range_succ, List.filter_append, List.filter_append]
    rcases Nat.lt_or_ge k n with h1 | h1
    · rw [ih h1]
      have : (List.filter p [n]) = (List.filter q [n]) := by
        simp only [List.filter, hq n]
        have : decide (n ≠ k) = true := by simp; omega
        rw [this, Bool.and_true]
      rw [this]
      rfl
    · have hkn : k = n := by omega
      subst hkn
      have h2 : (List.range k).filter p = [] := by
        rw [List.filter_eq_nil_iff]
        intro a ha
        rw [List.mem_range] at ha
        simp [hlow a ha]
      have h3 : (List.range k).filter q = [] := by
        rw [List.filter_eq_nil_iff]
        intro a ha
        rw [List.mem_range] at ha
        simp [hq a, hlow a ha]
      rw [h2, h3]
      simp [List.filter, hp, hq k]

theorem filter_range_split (n t : Nat) (p : Nat → Bool) :
    (List.range n).filter p =
      ((List.range n).filter (fun j => decide (j < t) && p j)) ++
        ((List.range n).filter (fun j => decide (t ≤ j) && p j)) := by
  induction n with
  | zero => simp
  | succ n ih =>
    rw [List.range_succ, List.filter_append, List.filter_append, List.filter_append, ih]
    rcases Nat.lt_or_ge n t with h1 | h1
    · have hB : (List.range n).filter (fun j => decide (t ≤ j) && p j) = [] := by
        rw [List.filter_eq_nil_iff]
        intro a ha
        rw [List.mem_range] at ha
        simp
        intro h
        omega
      have hBn : List.filter (fun j => decide (t ≤ j) && p j) [n] = [] := by
        have hc : (decide (t ≤ n) && p n) = false := by
          have : decide (t ≤ n) = false := by simp; omega
          rw [this, Bool.false_and]
        simp [List.filter_singleton, hc]
      have hAn : List.filter (fun j => decide (j < t) && p j) [n] = List.filter p [n] := by
        have hc : (decide (n < t) && p n) = p n := by
          have : decide (n < t) = true := by simp [h1]
          rw [this, Bool.true_and]
        simp [List.filter_singleton, hc]
      rw [hB, hBn, hAn]
      simp
    · have hAn : List.filter (fun j => decide (j < t) && p j) [n] = [] := by
        have hc : (decide (n < t) && p n) = false := by
          have : decide (n < t) = false := by simp; omega
          rw [this, Bool.false_and]
        simp [List.filter_singleton, hc]
      have hBn : List.filter (fun j => decide (t ≤ j) && p j) [n] = List.filter p [n] := by
        have hc : (decide (t ≤ n) && p n) = p n := by
          have : decide (t ≤ n) = true := by simp [h1]
          rw [this, Bool.true_and]
        simp [List.filter_singleton, hc]
      rw [hAn, hBn]
      simp

theorem mi_bfield_iterate_go_succ (bfield cycle_mask k b : Nat) :
    mi_bfield_iterate_go bfield cycle_mask (k + 1) b =
      (let b1 := if b = 0 then bfield &&& bnot64 cycle_mask else b
       mi_bfield_ctz b1 :: mi_bfield_iterate_go bfield cycle_mask k (mi_bfield_clear_least_bit b1)) := rfl

theorem mi_bfield_iterate_go_run (bfield cycle_mask : Nat) :
    ∀ b, b < 2 ^ 64 →
      mi_bfield_iterate_go bfield cycle_mask (mi_bfield_popcount b) b =
        (List.range 64).filter (fun j => b.testBit j) := by
  intro b
  induction b using Nat.strong_induction_on with
  | _ b ih =>
    intro hb
    cases hpc : mi_bfield_popcount b with
    | zero =>
      have hb0 : b = 0 := (mi_bfield_popcount_eq_zero b hb).mp hpc
      subst hb0
      show ([] : List Nat) = _
      symm
      rw [List.filter_eq_nil_iff]
      intro a _
      simp
    | succ k =>
      have hbne : b ≠ 0 := by
        intro h
        subst h
        rw [(mi_bfield_popcount_eq_zero 0 (by omega)).mpr rfl] at hpc
        exact Nat.noConfusion hpc
      rw [mi_bfield_iterate_go_succ]
      simp only [if_neg hbne]
      have hcl : mi_bfield_clear_least_bit b < b := mi_clear_least_lt b hbne
      have hclb : mi_bfield_clear_least_bit b < 2 ^ 64 := by omega
      have hk : mi_bfield_popcount (mi_bfield_clear_least_bit b) = k := by
        have := mi_bfield_popcount_clear_least b hb hbne
        omega
      rw [← hk, ih (mi_bfield_clear_least_bit b) hcl hclb]
      symm
      apply filter_range_cons 64 (mi_bfield_ctz b) _ _ (mi_bfield_ctz_lt b hb hbne)
        (mi_bfield_ctz_spec b hb hbne).1
        (fun j hj => (mi_bfield_ctz_spec b hb hbne).2 j hj)
      intro j
      exact mi_clear_least_testBit b hb hbne j

theorem mi_popcount_or_disjoint :
    ∀ x, x < 2 ^ 64 → ∀ y, y < 2 ^ 64 → x &&& y = 0 →
      mi_bfield_popcount (x ||| y) = mi_bfield_popcount x + mi_bfield_popcount y := by
  intro x
  induction x using Nat.strong_induction_on with
  | _ x ih =>
    intro hx y hy hdisj
    by_cases hx0 : x = 0
    · subst hx0
      simp only [Nat.zero_or]
      rw [(mi_bfield_popcount_eq_zero 0 (by omega)).mpr rfl]
      omega
    · by_cases hor0 : x ||| y = 0
      · exfalso
        apply hx0
        by_contra hxx
        obtain ⟨i, hi⟩ := Nat.ne_zero_implies_bit_true hxx
        have hbit : (x ||| y).testBit i = true := by rw [Nat.testBit_or, hi]; rfl
        rw [hor0] at hbit
        simp at hbit
      · have hxdiv : x / 2 < x := Nat.div_lt_self (Nat.pos_of_ne_zero hx0) (by omega)
        have hdisj2 : x / 2 &&& y / 2 = 0 := by
          rw [← Nat.and_div_two, hdisj]
        have hbit0 : ¬(x % 2 = 1 ∧ y % 2 = 1) := by
          rintro ⟨h1, h2⟩
          have : (x &&& y).testBit 0 = true := by
            rw [Nat.testBit_and]
            simp [Nat.testBit_zero, h1, h2]
          rw [hdisj] at this
          simp at this
        rw [mi_bfield_popcount_div2 (x ||| y) hor0 (lor_lt_two_pow x y 64 hx hy),
          Nat.or_div_two, mi_bfield_popcount_div2 x hx0 hx,
          ih (x / 2) hxdiv (by omega) (y / 2) (by omega) hdisj2]
        have hmod : (x ||| y) % 2 = x % 2 + y % 2 := by
          have h1 : (x ||| y) % 2 = 1 ↔ (x % 2 = 1 ∨ y % 2 = 1) := by
            simp only [Nat.mod_two_eq_one_iff_testBit_zero, Nat.testBit_or, Bool.or_eq_true]
          have hx2 := Nat.mod_two_eq_zero_or_one x
          have hy2 := Nat.mod_two_eq_zero_or_one y
          have ho2 := Nat.mod_two_eq_zero_or_one (x ||| y)
          rcases hx2 with h | h <;> rcases hy2 with h' | h' <;> omega
        by_cases hy0 : y = 0
        · subst hy0
          have hpc0 : mi_bfield_popcount 0 = 0 := (mi_bfield_popcount_eq_zero 0 (by omega)).mpr rfl
          have e1 : mi_bfield_popcount (0 / 2) = 0 := hpc0
          omega
        · rw [mi_bfield_popcount_div2 y hy0 hy]
          omega

theorem mi_split_by_mask (b m : Nat) (hb : b < 2 ^ 64) :
    b = (b &&& m) ||| (b &&& bnot64 m) := by
  apply Nat.eq_of_testBit_eq
  intro j
  rw [Nat.testBit_or, Nat.testBit_and, Nat.testBit_and]
  rcases Nat.lt_or_ge j 64 with hj | hj
  · rw [bnot64_testBit m j hj]
    cases hmb : m.testBit j <;> cases hbb : b.testBit j <;> simp
  · have : b.testBit j = false :=
      Nat.testBit_lt_two_pow (lt_of_lt_of_le hb (Nat.pow_le_pow_right (by omega) hj))
    simp [this]

theorem mi_mask_disjoint (b m : Nat) (hb : b < 2 ^ 64) :
    (b &&& m) &&& (b &&& bnot64 m) = 0 := by
  apply Nat.eq_of_testBit_eq
  intro j
  rw [Nat.testBit_and, Nat.testBit_and, Nat.testBit_and]
  rcases Nat.lt_or_ge j 64 with hj | hj
  · rw [bnot64_testBit m j hj]
    cases hmb : m.testBit j <;> simp
  · have hbb : b.testBit j = false :=
      Nat.testBit_lt_two_pow (lt_of_lt_of_le hb (Nat.pow_le_pow_right (by omega) hj))
    simp [hbb]

theorem mi_bfield_iterate_go_append (bfield cycle_mask : Nat)
    (hb2 : bfield &&& bnot64 cycle_mask < 2 ^ 64) :
    ∀ b, b < 2 ^ 64 →
      mi_bfield_iterate_go bfield cycle_mask
          (mi_bfield_popcount b + mi_bfield_popcount (bfield &&& bnot64 cycle_mask)) b =
        (List.range 64).filter (fun j => b.testBit j) ++
          (List.range 64).filter (fun j => (bfield &&& bnot64 cycle_mask).testBit j) := by
  intro b
  induction b using Nat.strong_induction_on with
  | _ b ih =>
    intro hb
    by_cases hb0 : b = 0
    · subst hb0
      rw [(mi_bfield_popcount_eq_zero 0 (by omega)).mpr rfl, Nat.zero_add]
      have hnil : (List.range 64).filter (fun j => Nat.testBit 0 j) = [] := by
        rw [List.filter_eq_nil_iff]; intro a _; simp
      rw [hnil, List.nil_append]
      cases hpc : mi_bfield_popcount (bfield &&& bnot64 cycle_mask) with
      | zero =>
        have hz : bfield &&& bnot64 cycle_mask = 0 :=
          (mi_bfield_popcount_eq_zero _ hb2).mp hpc
        show ([] : List Nat) = _
        symm
        rw [List.filter_eq_nil_iff]; intro a _; simp [hz]
      | succ k =>
        have hne : bfield &&& bnot64 cycle_mask ≠ 0 := by
          intro h
          rw [(mi_bfield_popcount_eq_zero _ hb2).mpr h] at hpc
          exact Nat.noConfusion hpc
        rw [mi_bfield_iterate_go_succ]
        show (mi_bfield_ctz (bfield &&& bnot64 cycle_mask) ::
            mi_bfield_iterate_go bfield cycle_mask k
              (mi_bfield_clear_least_bit (bfield &&& bnot64 cycle_mask))) = _
        have hstep : mi_bfield_ctz (bfield &&& bnot64 cycle_mask) ::
            mi_bfield_iterate_go bfield cycle_mask k
              (mi_bfield_clear_least_bit (bfield &&& bnot64 cycle_mask)) =
            mi_bfield_iterate_go bfield cycle_mask (k + 1) (bfield &&& bnot64 cycle_mask) := by
          rw [mi_bfield_iterate_go_succ]
          simp only [if_neg hne]
        rw [hstep, ← hpc, mi_bfield_iterate_go_run bfield cycle_mask _ hb2]
    · have hcl : mi_bfield_clear_least_bit b < b := mi_clear_least_lt b hb0
      have hclb : mi_bfield_clear_least_bit b < 2 ^ 64 := by omega
      have hsum : mi_bfield_popcount b + mi_bfield_popcount (bfield &&& bnot64 cycle_mask) =
          (mi_bfield_popcount (mi_bfield_clear_least_bit b) +
            mi_bfield_popcount (bfield &&& bnot64 cycle_mask)) + 1 := by
        have := mi_bfield_popcount_clear_least b hb hb0
        omega
      rw [hsum, mi_bfield_iterate_go_succ]
      simp only [if_neg hb0]
      rw [ih (mi_bfield_clear_least_bit b) hcl hclb]
      rw [← List.cons_append]
      congr 1
      symm
      apply filter_range_cons 64 (mi_bfield_ctz b) _ _ (mi_bfield_ctz_lt b hb hb0)
        (mi_bfield_ctz_spec b hb hb0).1
        (fun j hj => (mi_bfield_ctz_spec b hb hb0).2 j hj)
      intro j
      exact mi_clear_least_testBit b hb hb0 j

theorem mi_bfield_iterate_list_eq (b start cycle : Nat) (hb : b < 2 ^ 64)
    (hsc : start ≤ cycle) (hc : cycle ≤ 64) :
    mi_bfield_iterate_list b start cycle =
      ((List.range 64).filter (fun j => decide (start ≤ j) && decide (j < cycle) && b.testBit j)) ++
        ((List.range 64).filter (fun j => decide (j < start) && b.testBit j)) ++
        ((List.range 64).filter (fun j => decide (cycle ≤ j) && b.testBit j)) := by
  unfold mi_bfield_iterate_list
  have hmlt : mi_bfield_mask (cycle - start) start < 2 ^ 64 :=
    mi_bfield_mask_lt (cycle - start) start (by omega)
  have hb1 : b &&& mi_bfield_mask (cycle - start) start < 2 ^ 64 :=
    land_lt_two_pow_left b _ 64 hb
  have hb2 : b &&& bnot64 (mi_bfield_mask (cycle - start) start) < 2 ^ 64 :=
    land_lt_two_pow_left b _ 64 hb
  have hsplit := mi_split_by_mask b (mi_bfield_mask (cycle - start) start) hb
  have hdisj := mi_mask_disjoint b (mi_bfield_mask (cycle - start) start) hb
  have hcount : mi_bfield_popcount b =
      mi_bfield_popcount (b &&& mi_bfield_mask (cycle - start) start) +
        mi_bfield_popcount (b &&& bnot64 (mi_bfield_mask (cycle - start) start)) := by
    conv_lhs => rw [hsplit]
    exact mi_popcount_or_disjoint _ hb1 _ hb2 hdisj
  rw [hcount, mi_bfield_iterate_go_append _ _ hb2 _ hb1, List.append_assoc]
  have hmbit : ∀ j, j < 64 → (mi_bfield_mask (cycle - start) start).testBit j =
      (decide (start ≤ j) && decide (j < cycle)) := by
    intro j hj
    rw [mi_bfield_mask_testBit _ _ _ (by omega)]
    by_cases hs : start ≤ j <;> by_cases hcj : j < cycle <;>
      simp [hs, hcj] <;> omega
  congr 1
  · apply List.filter_congr
    intro j hj
    rw [List.mem_range] at hj
    rw [Nat.testBit_and, hmbit j hj]
    cases hbj : b.testBit j <;> simp
  · rw [filter_range_split 64 start (fun j => (b &&& bnot64 (mi_bfield_mask (cycle - start) start)).testBit j)]
    congr 1
    · apply List.filter_congr
      intro j hj
      rw [List.mem_range] at hj
      rw [Nat.testBit_and, bnot64_testBit _ j hj, hmbit j hj]
      by_cases hjs : j < start
      · have h1 : decide (j < start) = true := by simp [hjs]
        have h2 : decide (start ≤ j) = false := by simp; omega
        rw [h1, h2]
        simp
      · have h1 : decide (j < start) = false := by simp; omega
        rw [h1]
        simp
    · apply List.filter_congr
      intro j hj
      rw [List.mem_range] at hj
      rw [Nat.testBit_and, bnot64_testBit _ j hj, hmbit j hj]
      by_cases hjs : start ≤ j
      · have h1 : decide (start ≤ j) = true := by simp [hjs]
        rw [h1, Bool.true_and]
        by_cases hjc : j < cycle
        · have h2 : decide (j < cycle) = true := by simp [hjc]
          have h3 : decide (cycle ≤ j) = false := by simp; omega
          rw [h2, h3]
          simp
        · have h2 : decide (j < cycle) = false := by simp; omega
          have h3 : decide (cycle ≤ j) = true := by simp; omega
          rw [h2, h3]
          cases hbj : b.testBit j <;> simp
      · have h1 : decide (start ≤ j) = false := by simp; omega
        have h3 : decide (cycle ≤ j) = false := by simp; omega
        rw [h1, h3]
        simp

theorem mi_bfield_iterate_list_mem (b start cycle j : Nat) (hb : b < 2 ^ 64)
    (hsc : start ≤ cycle) (hc : cycle ≤ 64) :
    j ∈ mi_bfield_iterate_list b start cycle ↔ (b.testBit j = true ∧ j < 64) := by
  rw [mi_bfield_iterate_list_eq b start cycle hb hsc hc]
  simp only [List.mem_append, List.mem_filter, List.mem_range, Bool.and_eq_true,
    decide_eq_true_eq]
  constructor
  · rintro ((⟨h1, h2⟩ | ⟨h1, h2⟩) | ⟨h1, h2⟩) <;> exact ⟨by tauto, h1⟩
  · rintro ⟨h1, h2⟩
    by_cases hs : start ≤ j
    · by_cases hcj : j < cycle
      · exact Or.inl (Or.inl ⟨h2, ⟨hs, hcj⟩, h1⟩)
      · exact Or.inr ⟨h2, by omega, h1⟩
    · exact Or.inl (Or.inr ⟨h2, by omega, h1⟩)

theorem mi_bitmap_find_outer_cons (visit : MiVisitFun) (t n ca cab : Nat) (bm : Bitmap)
    (e : Nat) (rest : List Nat) :
    mi_bitmap_find_outer visit t n ca cab bm (e :: rest) =
      (match mi_bitmap_find_inner visit n bm
          ((mi_bfield_cycle_iterate_list (mi_bchunk_bfield bm.chunkmap e) t
            (if e ≠ ca then 64 else cab)).map (fun eidx => e * 64 + eidx)) with
       | (bm', some idx) => (bm', some idx)
       | (bm', none) => mi_bitmap_find_outer visit t n ca cab bm' rest) := rfl

theorem mi_bitmap_find_outer_tseq_congr (visit : MiVisitFun) (t1 t2 n ca cab : Nat) :
    ∀ (lst : List Nat) (bm : Bitmap),
      (∀ e ∈ lst, t1 % 2 ^ 32 % ((if e ≠ ca then 64 else cab) % 2 ^ 32) =
        t2 % 2 ^ 32 % ((if e ≠ ca then 64 else cab) % 2 ^ 32)) →
      mi_bitmap_find_outer visit t1 n ca cab bm lst =
        mi_bitmap_find_outer visit t2 n ca cab bm lst := by
  intro lst
  induction lst with
  | nil => intro bm _; rfl
  | cons e rest ih =>
    intro bm h
    have he := h e (List.mem_cons_self e rest)
    have hlist : mi_bfield_cycle_iterate_list (mi_bchunk_bfield bm.chunkmap e) t1
        (if e ≠ ca then 64 else cab) =
        mi_bfield_cycle_iterate_list (mi_bchunk_bfield bm.chunkmap e) t2
          (if e ≠ ca then 64 else cab) := by
      unfold mi_bfield_cycle_iterate_list mi_bfield_iterate_list
      rw [he]
    rw [mi_bitmap_find_outer_cons, mi_bitmap_find_outer_cons, hlist]
    rcases hmatch : mi_bitmap_find_inner visit n bm
        ((mi_bfield_cycle_iterate_list (mi_bchunk_bfield bm.chunkmap e) t2
          (if e ≠ ca then 64 else cab)).map (fun eidx => e * 64 + eidx)) with ⟨bm', found⟩
    cases found with
    | some idx => rfl
    | none =>
      exact ih bm' (fun e' he' => h e' (List.mem_cons_of_mem e he'))

theorem mi_bitmap_find_tseq_congr (bm : Bitmap) (t1 t2 n : Nat) (visit : MiVisitFun)
    (houter : t1 % 2 ^ 32 % ((bm.chunk_max_accessed / 64 + 1) % 2 ^ 32) =
      t2 % 2 ^ 32 % ((bm.chunk_max_accessed / 64 + 1) % 2 ^ 32))
    (hinner : ∀ e ∈ mi_bfield_cycle_iterate_list
        (mi_bfield_mask (mi_divide_up bm.chunk_count 64) 0) t1 (bm.chunk_max_accessed / 64 + 1),
        t1 % 2 ^ 32 % ((if e ≠ bm.chunk_max_accessed / 64 then 64
          else 1 + bm.chunk_max_accessed % 64) % 2 ^ 32) =
        t2 % 2 ^ 32 % ((if e ≠ bm.chunk_max_accessed / 64 then 64
          else 1 + bm.chunk_max_accessed % 64) % 2 ^ 32)) :
    mi_bitmap_find bm t1 n visit = mi_bitmap_find bm t2 n visit := by
  have hlist : mi_bfield_cycle_iterate_list
      (mi_bfield_mask (mi_divide_up bm.chunk_count 64) 0) t1 (bm.chunk_max_accessed / 64 + 1) =
      mi_bfield_cycle_iterate_list
        (mi_bfield_mask (mi_divide_up bm.chunk_count 64) 0) t2 (bm.chunk_max_accessed / 64 + 1) := by
    unfold mi_bfield_cycle_iterate_list mi_bfield_iterate_list
    rw [houter]
  show mi_bitmap_find_outer visit t1 n (bm.chunk_max_accessed / 64)
      (1 + bm.chunk_max_accessed % 64) bm
      (mi_bfield_cycle_iterate_list (mi_bfield_mask (mi_divide_up bm.chunk_count 64) 0) t1
        (bm.chunk_max_accessed / 64 + 1)) =
    mi_bitmap_find_outer visit t2 n (bm.chunk_max_accessed / 64)
      (1 + bm.chunk_max_accessed % 64) bm
      (mi_bfield_cycle_iterate_list (mi_bfield_mask (mi_divide_up bm.chunk_count 64) 0) t2
        (bm.chunk_max_accessed / 64 + 1))
  rw [hlist]
  apply mi_bitmap_find_outer_tseq_congr
  intro e he
  rw [← hlist] at he
  exact hinner e he

/-! ## Claim theorems -/

/-- C3: the claim says `clear_mask(b, m, *already)` stores the popcount of the
mask bits that were already 0 (`popcount(m & ~old)`).  The code computes
`popcount(~(old & mask))` instead: at `old = 1, mask = 1` it stores 63 while
the claimed value is 0, and in `mi_bchunk_xsetN(CLEAR, {3,0,...}, 0, 2)` the
full transition reports `already = 62`, violating the source's own assertion
`transition → already_xset == 0` (bitmap.c:331). -/
theorem claim_C3_clear_mask_already_bug :
    (mi_bfield_atomic_clear_mask 1 1).2.1 = 63 ∧
    mi_bfield_popcount (1 &&& bnot64 1) = 0 ∧
    (mi_bfield_atomic_clear_mask 1 1).2.2 = true ∧
    (mi_bchunk_xsetN false [3, 0, 0, 0, 0, 0, 0, 0] 0 2).2 = (true, 62) := by
  decide

/-- C4 (counterexample): exactness of the chunkmap fails after a successful
`try_find_and_clear` that clears the last set bit of a chunk: starting from a
zeroed 1-chunk bitmap, `xset(SET, 0)` then `try_find_and_clear` succeeds with
index 0 and leaves chunk 0 all clear while chunkmap bit 0 is still 1. -/
theorem claim_C4_counterexample :
    (mi_bitmap_try_find_and_clear ((mi_bitmap_xset true (mi_bitmap_zeroed 1) 0).1) 0).2 = some 0 ∧
    mi_bchunk_all_are_clear
      (mi_bitmap_chunk ((mi_bitmap_try_find_and_clear ((mi_bitmap_xset true (mi_bitmap_zeroed 1) 0).1) 0).1) 0) = true ∧
    mi_bitmap_cmapBit ((mi_bitmap_try_find_and_clear ((mi_bitmap_xset true (mi_bitmap_zeroed 1) 0).1) 0).1) 0 = true ∧
    ¬ mi_bitmap_cmap_exact ((mi_bitmap_try_find_and_clear ((mi_bitmap_xset true (mi_bitmap_zeroed 1) 0).1) 0).1) := by
  refine ⟨by decide, by decide, by decide, ?_⟩
  intro h
  have := h 0 (by decide)
  revert this
  decide

/-- C6: the cyclic iteration over a bfield with `(start, cycle)`,
`start ≤ cycle ≤ W`, visits exactly the set bits of the bfield, each exactly
once, ascending within `[start, cycle)`, then ascending within `[0, start)`,
then ascending within `[cycle, W)`. -/
theorem claim_C6_cycle_iterate_order (b start cycle : Nat) (hb : b < 2 ^ 64)
    (hsc : start ≤ cycle) (hc : cycle ≤ 64) :
    mi_bfield_iterate_list b start cycle =
      ((List.range 64).filter (fun j => decide (start ≤ j) && decide (j < cycle) && b.testBit j)) ++
        ((List.range 64).filter (fun j => decide (j < start) && b.testBit j)) ++
        ((List.range 64).filter (fun j => decide (cycle ≤ j) && b.testBit j)) ∧
    (∀ j, j ∈ mi_bfield_iterate_list b start cycle ↔ (b.testBit j = true ∧ j < 64)) ∧
    (mi_bfield_iterate_list b start cycle).Nodup := by
  refine ⟨mi_bfield_iterate_list_eq b start cycle hb hsc hc,
    fun j => mi_bfield_iterate_list_mem b start cycle j hb hsc hc, ?_⟩
  rw [mi_bfield_iterate_list_eq b start cycle hb hsc hc]
  have hn1 : ((List.range 64).filter (fun j => decide (start ≤ j) && decide (j < cycle) && b.testBit j)).Nodup :=
    (List.nodup_range 64).filter _
  have hn2 : ((List.range 64).filter (fun j => decide (j < start) && b.testBit j)).Nodup :=
    (List.nodup_range 64).filter _
  have hn3 : ((List.range 64).filter (fun j => decide (cycle ≤ j) && b.testBit j)).Nodup :=
    (List.nodup_range 64).filter _
  apply List.Nodup.append
  · apply List.Nodup.append hn1 hn2
    rw [List.disjoint_left]
    intro a ha1 ha2
    rw [List.mem_filter] at ha1 ha2
    have c1 := ha1.2
    have c2 := ha2.2
    simp only [Bool.and_eq_true, decide_eq_true_eq] at c1 c2
    omega
  · exact hn3
  · rw [List.disjoint_left]
    intro a ha1 ha2
    rw [List.mem_append] at ha1
    rw [List.mem_filter] at ha2
    have c2 := ha2.2
    simp only [Bool.and_eq_true, decide_eq_true_eq] at c2
    rcases ha1 with ha1 | ha1 <;> rw [List.mem_filter] at ha1 <;>
      have c1 := ha1.2 <;> simp only [Bool.and_eq_true, decide_eq_true_eq] at c1 <;> omega

/-- Witness for C6 at `b = 45 = 0b101101`, `start = 2`, `cycle = 5`. -/
theorem claim_C6_witness :
    (45 : Nat) < 2 ^ 64 ∧ (2 : Nat) ≤ 5 ∧ (5 : Nat) ≤ 64 ∧
    (mi_bfield_iterate_list 45 2 5 =
      ((List.range 64).filter (fun j => decide (2 ≤ j) && decide (j < 5) && (45 : Nat).testBit j)) ++
        ((List.range 64).filter (fun j => decide (j < 2) && (45 : Nat).testBit j)) ++
        ((List.range 64).filter (fun j => decide (5 ≤ j) && (45 : Nat).testBit j)) ∧
    (∀ j, j ∈ mi_bfield_iterate_list 45 2 5 ↔ ((45 : Nat).testBit j = true ∧ j < 64)) ∧
    (mi_bfield_iterate_list 45 2 5).Nodup) :=
  ⟨by decide, by decide, by decide,
    claim_C6_cycle_iterate_order 45 2 5 (by decide) (by decide) (by decide)⟩

/-- C7 (counterexample): the claim says `try_find_and_clear8` locates the
least-indexed 0xFF byte of the chunk.  With field 0 all ones and field 1
equal to 0xFF, the least all-set byte starts at bit 0, but the first scan
pass skips all-set fields, so the function clears the byte at bit 64. -/
theorem claim_C7_counterexample :
    (mi_bchunk_try_find_and_clear8 [mi_bfield_all_set, 0xFF, 0, 0, 0, 0, 0, 0]).2 = some 64 ∧
    mi_byte (mi_bchunk_bfield [mi_bfield_all_set, 0xFF, 0, 0, 0, 0, 0, 0] 0) 0 = 255 := by
  decide

/-- C8 (counterexample): the claim says every chunk-level ranged operation
rejects `n = 0` by returning false; `mi_bchunk_try_xsetN` instead returns
true for `n = 0`. -/
theorem claim_C8_counterexample :
    (mi_bchunk_try_xsetN true (List.replicate 8 0) 0 0).2.1 = true := by
  decide

/-- C8 (amended): `try_xsetN` accepts `n = 0` as a trivial success (returning
true, leaving the chunk unchanged and the out-parameter unwritten; `n > B` is
a caller precondition checked only by a debug assertion), while
`try_find_and_clearNX` and `try_find_and_clearN_` reject `n = 0` and `n > B`
by returning false with the chunk unchanged. -/
theorem claim_C8_amended (set : Bool) (c : Bchunk) (cidx n : Nat) (h : n = 0 ∨ 512 < n) :
    mi_bchunk_try_xsetN set c cidx 0 = (c, true, none) ∧
    mi_bchunk_try_find_and_clearNX c n = (c, none) ∧
    mi_bchunk_try_find_and_clearN_ c n = (c, none) := by
  refine ⟨rfl, ?_, ?_⟩
  · have hb : (decide (n = 0) || decide (64 < n)) = true := by
      simp only [Bool.or_eq_true, decide_eq_true_eq]
      omega
    simp [mi_bchunk_try_find_and_clearNX, hb]
  · have hb : (decide (n = 0) || decide (512 < n)) = true := by
      simp only [Bool.or_eq_true, decide_eq_true_eq]
      omega
    simp [mi_bchunk_try_find_and_clearN_, hb]

/-- Witness for C8 at `n = 600` on a zeroed chunk. -/
theorem claim_C8_amended_witness :
    ((600 : Nat) = 0 ∨ 512 < 600) ∧
    (mi_bchunk_try_xsetN true (List.replicate 8 0) 3 0 = (List.replicate 8 0, true, none) ∧
    mi_bchunk_try_find_and_clearNX (List.replicate 8 0) 600 = (List.replicate 8 0, none) ∧
    mi_bchunk_try_find_and_clearN_ (List.replicate 8 0) 600 = (List.replicate 8 0, none)) :=
  ⟨by decide, claim_C8_amended true (List.replicate 8 0) 3 600 (by decide)⟩

/-- C10: the claim says every `mi_bfield_iterate` expansion in
`mi_bitmap_find` satisfies the asserted precondition `cycle < W`, so the
assertion cannot fire.  But for any bitmap with more than one chunkmap entry
(here 128 chunks), the inner expansion over an entry different from the
last-accessed one passes `cmap_entry_cycle = W = 64`, and the assertion
`cycle < 64` fails even on an all-zero bitmap. -/
theorem claim_C10_iterate_assert_fires :
    mi_bfield_iterate_asserts (0 % 2 ^ 32 % (64 % 2 ^ 32)) 64 = false ∧
    mi_bitmap_find_asserts (mi_bitmap_zeroed 128) 0 = false := by
  decide

theorem mi_c5_find_mod2_first (tseq : Nat) :
    mi_bitmap_try_find_and_clear ((mi_bitmap_xset true (mi_bitmap_zeroed 4) 1000).1) tseq =
      mi_bitmap_try_find_and_clear ((mi_bitmap_xset true (mi_bitmap_zeroed 4) 1000).1) (tseq % 2) := by
  apply mi_bitmap_find_tseq_congr
  · have h1 : ((mi_bitmap_xset true (mi_bitmap_zeroed 4) 1000).1.chunk_max_accessed / 64 + 1) % 2 ^ 32 = 1 := by
      decide
    rw [h1, show (2:Nat) ^ 32 = 4294967296 from by norm_num]
    omega
  · intro e he
    have h1 : mi_bfield_mask
        (mi_divide_up (mi_bitmap_xset true (mi_bitmap_zeroed 4) 1000).1.chunk_count 64) 0 = 1 := by
      decide
    have h2 : (mi_bitmap_xset true (mi_bitmap_zeroed 4) 1000).1.chunk_max_accessed / 64 + 1 = 1 := by
      decide
    rw [h1, h2] at he
    unfold mi_bfield_cycle_iterate_list at he
    have h3 : tseq % 2 ^ 32 % (1 % 2 ^ 32) = 0 := by
      rw [show (1:Nat) % 2 ^ 32 = 1 from by norm_num]
      exact Nat.mod_one _
    rw [h3] at he
    have h4 : mi_bfield_iterate_list 1 0 1 = [0] := by decide
    rw [h4] at he
    have he0 : e = 0 := by simpa using he
    subst he0
    have h5 : (if (0 : Nat) ≠ (mi_bitmap_xset true (mi_bitmap_zeroed 4) 1000).1.chunk_max_accessed / 64
        then 64 else 1 + (mi_bitmap_xset true (mi_bitmap_zeroed 4) 1000).1.chunk_max_accessed % 64) = 2 := by
      decide
    rw [h5, show (2:Nat) % 2 ^ 32 = 2 from by norm_num,
      show (2:Nat) ^ 32 = 4294967296 from by norm_num]
    omega

theorem mi_c5_find_mod2_second (tseq : Nat) :
    mi_bitmap_try_find_and_clear
        ((mi_bitmap_try_find_and_clear ((mi_bitmap_xset true (mi_bitmap_zeroed 4) 1000).1) 0).1) tseq =
      mi_bitmap_try_find_and_clear
        ((mi_bitmap_try_find_and_clear ((mi_bitmap_xset true (mi_bitmap_zeroed 4) 1000).1) 0).1) (tseq % 2) := by
  apply mi_bitmap_find_tseq_congr
  · have h1 : (((mi_bitmap_try_find_and_clear ((mi_bitmap_xset true (mi_bitmap_zeroed 4) 1000).1) 0).1).chunk_max_accessed / 64 + 1) % 2 ^ 32 = 1 := by
      decide
    rw [h1, show (2:Nat) ^ 32 = 4294967296 from by norm_num]
    omega
  · intro e he
    have h1 : mi_bfield_mask
        (mi_divide_up ((mi_bitmap_try_find_and_clear ((mi_bitmap_xset true (mi_bitmap_zeroed 4) 1000).1) 0).1).chunk_count 64) 0 = 1 := by
      decide
    have h2 : ((mi_bitmap_try_find_and_clear ((mi_bitmap_xset true (mi_bitmap_zeroed 4) 1000).1) 0).1).chunk_max_accessed / 64 + 1 = 1 := by
      decide
    rw [h1, h2] at he
    unfold mi_bfield_cycle_iterate_list at he
    have h3 : tseq % 2 ^ 32 % (1 % 2 ^ 32) = 0 := by
      rw [show (1:Nat) % 2 ^ 32 = 1 from by norm_num]
      exact Nat.mod_one _
    rw [h3] at he
    have h4 : mi_bfield_iterate_list 1 0 1 = [0] := by decide
    rw [h4] at he
    have he0 : e = 0 := by simpa using he
    subst he0
    have h5 : (if (0 : Nat) ≠ ((mi_bitmap_try_find_and_clear ((mi_bitmap_xset true (mi_bitmap_zeroed 4) 1000).1) 0).1).chunk_max_accessed / 64
        then 64 else 1 + ((mi_bitmap_try_find_and_clear ((mi_bitmap_xset true (mi_bitmap_zeroed 4) 1000).1) 0).1).chunk_max_accessed % 64) = 2 := by
      decide
    rw [h5, show (2:Nat) % 2 ^ 32 = 2 from by norm_num,
      show (2:Nat) ^ 32 = 4294967296 from by norm_num]
    omega

/-- C5: with W = 64, B = 512, chunk_count = 4, starting from a zeroed bitmap,
after `xset(SET, 1000)`: chunkmap bit 1 is 1, `bsr` returns 1000, and for
every `tseq`, `try_find_and_clear(tseq)` returns index 1000 and leaves every
chunk all-zero (the same state for every `tseq`); a subsequent
`try_find_and_clear` with any `tseq` returns false. -/
theorem claim_C5_concrete_scenario (tseq tseq2 : Nat) :
    (mi_bitmap_xset true (mi_bitmap_zeroed 4) 1000).2 = true ∧
    mi_bitmap_cmapBit ((mi_bitmap_xset true (mi_bitmap_zeroed 4) 1000).1) 1 = true ∧
    mi_bitmap_bsr ((mi_bitmap_xset true (mi_bitmap_zeroed 4) 1000).1) = some 1000 ∧
    mi_bitmap_try_find_and_clear ((mi_bitmap_xset true (mi_bitmap_zeroed 4) 1000).1) tseq =
      ((mi_bitmap_try_find_and_clear ((mi_bitmap_xset true (mi_bitmap_zeroed 4) 1000).1) 0).1,
        some 1000) ∧
    (∀ i, i < 4 → mi_bchunk_all_are_clear
      (mi_bitmap_chunk ((mi_bitmap_try_find_and_clear ((mi_bitmap_xset true (mi_bitmap_zeroed 4) 1000).1) 0).1) i) = true) ∧
    (mi_bitmap_try_find_and_clear
      ((mi_bitmap_try_find_and_clear ((mi_bitmap_xset true (mi_bitmap_zeroed 4) 1000).1) 0).1) tseq2).2 = none := by
  refine ⟨by decide, by decide, by decide, ?_, by decide, ?_⟩
  · rw [mi_c5_find_mod2_first tseq]
    rcases Nat.mod_two_eq_zero_or_one tseq with h | h <;> rw [h] <;> decide
  · rw [mi_c5_find_mod2_second tseq2]
    rcases Nat.mod_two_eq_zero_or_one tseq2 with h | h <;> rw [h] <;> decide

/-! ## Chunk field helpers and try-xset lemmas (claim C1 machinery) -/

theorem mi_bchunk_bfield_set_self (c : Bchunk) (v i : Nat) (h : i < c.length) :
    mi_bchunk_bfield (c.set i v) i = v := by
  simp [mi_bchunk_bfield, List.getD_eq_getElem?_getD, List.getElem?_set_self h]

theorem mi_bchunk_bfield_set_ne (c : Bchunk) (v i j : Nat) (h : i ≠ j) :
    mi_bchunk_bfield (c.set i v) j = mi_bchunk_bfield c j := by
  simp [mi_bchunk_bfield, List.getD_eq_getElem?_getD, List.getElem?_set_ne h]

theorem mi_bchunk_eq_of_bfield_eq (c1 c2 : Bchunk) (hlen : c1.length = c2.length)
    (h : ∀ f, mi_bchunk_bfield c1 f = mi_bchunk_bfield c2 f) : c1 = c2 := by
  apply List.ext_getElem?
  intro f
  rcases Nat.lt_or_ge f c1.length with h1 | h1
  · have h2 : f < c2.length := by omega
    have e1 : mi_bchunk_bfield c1 f = c1[f] := by
      simp [mi_bchunk_bfield, List.getD_eq_getElem?_getD, List.getElem?_eq_getElem h1]
    have e2 : mi_bchunk_bfield c2 f = c2[f] := by
      simp [mi_bchunk_bfield, List.getD_eq_getElem?_getD, List.getElem?_eq_getElem h2]
    rw [List.getElem?_eq_getElem h1, List.getElem?_eq_getElem h2]
    rw [← e1, ← e2, h f]
  · rw [List.getElem?_eq_none h1, List.getElem?_eq_none (by omega : c2.length ≤ f)]

theorem mi_try_xset_mask_fail (set : Bool) (b mask : Nat)
    (h : (mi_bfield_atomic_try_xset_mask set b mask).2.1 = false) :
    (mi_bfield_atomic_try_xset_mask set b mask).1 = b := by
  cases set
  · change (mi_bfield_atomic_try_clear_mask b mask).2.1 = false at h
    change (mi_bfield_atomic_try_clear_mask b mask).1 = b
    unfold mi_bfield_atomic_try_clear_mask at h ⊢
    by_cases hc : (b &&& mask != mask) = true
    · rw [if_pos hc]
    · rw [if_neg hc] at h
      simp at h
  · change (mi_bfield_atomic_try_set_mask b mask).2 = false at h
    change (mi_bfield_atomic_try_set_mask b mask).1 = b
    unfold mi_bfield_atomic_try_set_mask at h ⊢
    by_cases hc : (b &&& mask != 0) = true
    · rw [if_pos hc]
    · rw [if_neg hc] at h
      simp at h

theorem mi_try_xset_mask_succ (set : Bool) (b mask : Nat)
    (h : (mi_bfield_atomic_try_xset_mask set b mask).2.1 = true) :
    b &&& mask = (if set then 0 else mask) ∧
    (mi_bfield_atomic_try_xset_mask set b mask).1 =
      (if set then b ||| mask else b &&& bnot64 mask) := by
  cases set
  · change (mi_bfield_atomic_try_clear_mask b mask).2.1 = true at h
    change b &&& mask = mask ∧ (mi_bfield_atomic_try_clear_mask b mask).1 = b &&& bnot64 mask
    unfold mi_bfield_atomic_try_clear_mask at h ⊢
    by_cases hc : (b &&& mask != mask) = true
    · rw [if_pos hc] at h
      simp at h
    · rw [if_neg hc]
      simp at hc
      exact ⟨hc, rfl⟩
  · change (mi_bfield_atomic_try_set_mask b mask).2 = true at h
    change b &&& mask = 0 ∧ (mi_bfield_atomic_try_set_mask b mask).1 = b ||| mask
    unfold mi_bfield_atomic_try_set_mask at h ⊢
    by_cases hc : (b &&& mask != 0) = true
    · rw [if_pos hc] at h
      simp at h
    · rw [if_neg hc]
      simp at hc
      exact ⟨hc, rfl⟩

theorem mi_lor_and_not_cancel (b mask : Nat) (hb : b < 2 ^ 64) (hm : mask < 2 ^ 64)
    (h : b &&& mask = 0) : (b ||| mask) &&& bnot64 mask = b := by
  apply Nat.eq_of_testBit_eq
  intro j
  rcases Nat.lt_or_ge j 64 with hj | hj
  · rw [Nat.testBit_and, Nat.testBit_or, bnot64_testBit _ _ hj]
    have h0 : (b &&& mask).testBit j = false := by rw [h]; simp
    rw [Nat.testBit_and] at h0
    cases hm1 : mask.testBit j
    · simp [hm1]
    · rw [hm1] at h0
      simp at h0
      simp [hm1, h0]
  · have h1 : b.testBit j = false :=
      Nat.testBit_lt_two_pow (lt_of_lt_of_le hb (Nat.pow_le_pow_right (by omega) hj))
    have h2 : (bnot64 mask).testBit j = false := bnot64_testBit_ge mask j hm hj
    have h3 : mask.testBit j = false :=
      Nat.testBit_lt_two_pow (lt_of_lt_of_le hm (Nat.pow_le_pow_right (by omega) hj))
    rw [Nat.testBit_and, Nat.testBit_or, h1, h2, h3]
    rfl

theorem mi_and_not_lor_cancel (b mask : Nat) (hb : b < 2 ^ 64) (hm : mask < 2 ^ 64)
    (h : b &&& mask = mask) : (b &&& bnot64 mask) ||| mask = b := by
  apply Nat.eq_of_testBit_eq
  intro j
  rcases Nat.lt_or_ge j 64 with hj | hj
  · rw [Nat.testBit_or, Nat.testBit_and, bnot64_testBit _ _ hj]
    cases hm1 : mask.testBit j
    · simp [hm1]
    · have h0 : (b &&& mask).testBit j = true := by rw [h]; exact hm1
      rw [Nat.testBit_and, hm1] at h0
      simp at h0
      simp [hm1, h0]
  · have h1 : b.testBit j = false :=
      Nat.testBit_lt_two_pow (lt_of_lt_of_le hb (Nat.pow_le_pow_right (by omega) hj))
    have h3 : mask.testBit j = false :=
      Nat.testBit_lt_two_pow (lt_of_lt_of_le hm (Nat.pow_le_pow_right (by omega) hj))
    rw [Nat.testBit_or, Nat.testBit_and, h1, h3]
    rfl

theorem mi_xset_mask_inverse (set : Bool) (b mask : Nat) (hb : b < 2 ^ 64) (hm : mask < 2 ^ 64)
    (hpre : b &&& mask = (if set then 0 else mask)) :
    (mi_bfield_atomic_xset_mask (!set)
      (if set then b ||| mask else b &&& bnot64 mask) mask).1 = b := by
  cases set
  · have hpre' : b &&& mask = mask := by simpa using hpre
    show (b &&& bnot64 mask) ||| mask = b
    exact mi_and_not_lor_cancel b mask hb hm hpre'
  · have hpre' : b &&& mask = 0 := by simpa using hpre
    show (b ||| mask) &&& bnot64 mask = b
    exact mi_lor_and_not_cancel b mask hb hm hpre'

theorem mi_apply_testBit (set : Bool) (b mask o : Nat)
    (hpre : b &&& mask = (if set then 0 else mask)) (hmo : mask.testBit o = true) (ho : o < 64) :
    b.testBit o = !set ∧
    (if set then b ||| mask else b &&& bnot64 mask).testBit o = set := by
  cases set
  · have hpre' : b &&& mask = mask := by simpa using hpre
    change b.testBit o = true ∧ (b &&& bnot64 mask).testBit o = false
    constructor
    · have h0 : (b &&& mask).testBit o = true := by rw [hpre']; exact hmo
      rw [Nat.testBit_and, hmo] at h0
      simpa using h0
    · rw [Nat.testBit_and, bnot64_testBit _ _ ho, hmo]
      simp
  · have hpre' : b &&& mask = 0 := by simpa using hpre
    change b.testBit o = false ∧ (b ||| mask).testBit o = true
    constructor
    · have h0 : (b &&& mask).testBit o = false := by rw [hpre']; simp
      rw [Nat.testBit_and, hmo] at h0
      simpa using h0
    · rw [Nat.testBit_or, hmo]
      simp

theorem mi_apply_lt (set : Bool) (b mask : Nat) (hb : b < 2 ^ 64) (hm : mask < 2 ^ 64) :
    (if set then b ||| mask else b &&& bnot64 mask) < 2 ^ 64 := by
  cases set
  · show b &&& bnot64 mask < 2 ^ 64
    exact land_lt_two_pow_left b _ 64 hb
  · show b ||| mask < 2 ^ 64
    exact lor_lt_two_pow b mask 64 hb hm

theorem mi_allset_testBit (o : Nat) (ho : o < 64) : mi_bfield_all_set.testBit o = true := by
  unfold mi_bfield_all_set
  rw [Nat.testBit_two_pow_sub_one]
  simp [ho]

theorem mi_allset_lt : mi_bfield_all_set < 2 ^ 64 := by decide

theorem mi_restore_succ_eq (set : Bool) (mask_start mask_mid mask_end start_field end_field : Nat)
    (c : Bchunk) (f : Nat) :
    mi_bchunk_try_xsetN_restore set mask_start mask_mid mask_end start_field end_field c (f + 1) =
      if start_field ≤ f then
        mi_bchunk_try_xsetN_restore set mask_start mask_mid mask_end start_field end_field
          (c.set f (mi_bfield_atomic_xset_mask (!set) (mi_bchunk_bfield c f)
            (if f = start_field then mask_start
             else if f = end_field then mask_end else mask_mid)).1) f
      else c := rfl

theorem mi_restore_spec (set : Bool) (c : Bchunk)
    (mask_start mask_mid mask_end start_field end_field : Nat) :
    ∀ f0 (c' : Bchunk),
      c'.length = c.length →
      f0 ≤ c.length →
      (∀ f, f < start_field ∨ f0 ≤ f → mi_bchunk_bfield c' f = mi_bchunk_bfield c f) →
      (∀ f, start_field ≤ f → f < f0 →
        (mi_bchunk_bfield c f &&&
            (if f = start_field then mask_start else if f = end_field then mask_end else mask_mid) =
          (if set then 0
           else (if f = start_field then mask_start else if f = end_field then mask_end else mask_mid))) ∧
        mi_bchunk_bfield c' f =
          (if set then mi_bchunk_bfield c f |||
              (if f = start_field then mask_start else if f = end_field then mask_end else mask_mid)
           else mi_bchunk_bfield c f &&&
              bnot64 (if f = start_field then mask_start else if f = end_field then mask_end else mask_mid)) ∧
        mi_bchunk_bfield c f < 2 ^ 64 ∧
        (if f = start_field then mask_start else if f = end_field then mask_end else mask_mid) < 2 ^ 64) →
      mi_bchunk_try_xsetN_restore set mask_start mask_mid mask_end start_field end_field c' f0 = c := by
  intro f0
  induction f0 with
  | zero =>
    intro c' hlen _ hout _
    show c' = c
    exact mi_bchunk_eq_of_bfield_eq c' c hlen (fun f => hout f (Or.inr (Nat.zero_le f)))
  | succ f ih =>
    intro c' hlen hle hout hcommit
    rw [mi_restore_succ_eq]
    by_cases hsf : start_field ≤ f
    · rw [if_pos hsf]
      obtain ⟨hpre, happ, hblt, hmlt⟩ := hcommit f hsf (Nat.lt_succ_self f)
      have hflt : f < c'.length := by omega
      have hr : (mi_bfield_atomic_xset_mask (!set) (mi_bchunk_bfield c' f)
          (if f = start_field then mask_start
           else if f = end_field then mask_end else mask_mid)).1 = mi_bchunk_bfield c f := by
        rw [happ]
        exact mi_xset_mask_inverse set _ _ hblt hmlt hpre
      apply ih
      · rw [List.length_set, hlen]
      · omega
      · intro f' hf'
        by_cases hf'f : f' = f
        · subst hf'f
          rw [mi_bchunk_bfield_set_self _ _ _ hflt, hr]
        · rw [mi_bchunk_bfield_set_ne _ _ _ _ (fun h => hf'f h.symm)]
          apply hout
          omega
      · intro f' h1 h2
        rw [mi_bchunk_bfield_set_ne _ _ _ _ (by omega : f ≠ f')]
        exact hcommit f' h1 (by omega)
    · rw [if_neg hsf]
      apply mi_bchunk_eq_of_bfield_eq c' c hlen
      intro f'
      apply hout
      omega

theorem mi_commit_bits (set : Bool) (c c' : Bchunk) (cidx n0 field : Nat)
    (hstart : mi_bchunk_bfield c (cidx / 64) &&&
        mi_bfield_mask (min (64 - cidx % 64) n0) (cidx % 64) =
        (if set then 0 else mi_bfield_mask (min (64 - cidx % 64) n0) (cidx % 64)) ∧
      mi_bchunk_bfield c' (cidx / 64) =
        (if set then mi_bchunk_bfield c (cidx / 64) |||
            mi_bfield_mask (min (64 - cidx % 64) n0) (cidx % 64)
         else mi_bchunk_bfield c (cidx / 64) &&&
            bnot64 (mi_bfield_mask (min (64 - cidx % 64) n0) (cidx % 64))))
    (hmid : ∀ f, cidx / 64 < f → f ≤ field →
      mi_bchunk_bfield c f &&& mi_bfield_all_set = (if set then 0 else mi_bfield_all_set) ∧
      mi_bchunk_bfield c' f =
        (if set then mi_bchunk_bfield c f ||| mi_bfield_all_set
         else mi_bchunk_bfield c f &&& bnot64 mi_bfield_all_set)) :
    ∀ j, cidx ≤ j → j < cidx + n0 → j < (field + 1) * 64 →
      mi_bchunk_testBit c j = !set ∧ mi_bchunk_testBit c' j = set := by
  intro j h1 h2 h3
  have hdecomp : j = 64 * (j / 64) + j % 64 := (Nat.div_add_mod j 64).symm
  have hcdecomp : cidx = 64 * (cidx / 64) + cidx % 64 := (Nat.div_add_mod cidx 64).symm
  have homod : j % 64 < 64 := Nat.mod_lt j (by omega)
  have hcmod : cidx % 64 < 64 := Nat.mod_lt cidx (by omega)
  have hfge : cidx / 64 ≤ j / 64 := Nat.div_le_div_right h1
  unfold mi_bchunk_testBit
  by_cases hf : j / 64 = cidx / 64
  · rw [hf]
    have hoge : cidx % 64 ≤ j % 64 := by omega
    have holt : j % 64 < cidx % 64 + min (64 - cidx % 64) n0 := by
      rcases Nat.le_total (64 - cidx % 64) n0 with hm | hm
      · rw [Nat.min_eq_left hm]
        omega
      · rw [Nat.min_eq_right hm]
        omega
    have hmask : (mi_bfield_mask (min (64 - cidx % 64) n0) (cidx % 64)).testBit (j % 64) = true := by
      rw [mi_bfield_mask_testBit _ _ _ (by omega)]
      simp only [Bool.and_eq_true, decide_eq_true_eq]
      exact ⟨hoge, holt⟩
    have := mi_apply_testBit set (mi_bchunk_bfield c (cidx / 64)) _ (j % 64) hstart.1 hmask homod
    rw [hstart.2]
    exact this
  · have hflt : j / 64 ≤ field := by omega
    have hfgt : cidx / 64 < j / 64 := by omega
    have hmask : mi_bfield_all_set.testBit (j % 64) = true := mi_allset_testBit _ homod
    obtain ⟨hpre, happ⟩ := hmid (j / 64) hfgt hflt
    have := mi_apply_testBit set (mi_bchunk_bfield c (j / 64)) _ (j % 64) hpre hmask homod
    rw [happ]
    exact this

theorem mi_try_xsetN_go_zero (set : Bool) (ms sf : Nat) (c' : Bchunk) (field n mask_mid : Nat)
    (maybe : Bool) :
    mi_bchunk_try_xsetN_go set ms sf 0 c' field n mask_mid maybe = (c', true, some maybe) := rfl

theorem mi_try_xsetN_go_succ_eq (set : Bool) (ms sf fuel : Nat) (c' : Bchunk)
    (field n mask_mid : Nat) (maybe : Bool) :
    mi_bchunk_try_xsetN_go set ms sf (fuel + 1) c' field n mask_mid maybe =
      (if 64 ≤ n then
        (if (mi_bfield_atomic_try_xset_mask set (mi_bchunk_bfield c' (field + 1))
            mi_bfield_all_set).2.1 then
          mi_bchunk_try_xsetN_go set ms sf fuel
            (c'.set (field + 1)
              (mi_bfield_atomic_try_xset_mask set (mi_bchunk_bfield c' (field + 1))
                mi_bfield_all_set).1)
            (field + 1) (n - 64) mi_bfield_all_set
            (maybe && (mi_bfield_atomic_try_xset_mask set (mi_bchunk_bfield c' (field + 1))
              mi_bfield_all_set).2.2)
        else
          (mi_bchunk_try_xsetN_restore set ms mi_bfield_all_set 0 sf MI_BCHUNK_FIELDS c'
            (field + 1), false, some false))
      else if n = 0 then (c', true, some maybe)
      else
        (if (mi_bfield_atomic_try_xset_mask set (mi_bchunk_bfield c' (field + 1))
            (mi_bfield_mask n 0)).2.1 then
          (c'.set (field + 1)
            (mi_bfield_atomic_try_xset_mask set (mi_bchunk_bfield c' (field + 1))
              (mi_bfield_mask n 0)).1, true,
            some (maybe && (mi_bfield_atomic_try_xset_mask set (mi_bchunk_bfield c' (field + 1))
              (mi_bfield_mask n 0)).2.2))
        else
          (mi_bchunk_try_xsetN_restore set ms mask_mid (mi_bfield_mask n 0) sf (field + 1) c'
            (field + 1), false, some false))) := rfl

theorem mi_try_xsetN_go_spec (set : Bool) (c : Bchunk) (cidx n0 : Nat)
    (hlen : c.length = 8) (hbnd : ∀ f, mi_bchunk_bfield c f < 2 ^ 64)
    (hn : cidx + n0 ≤ 512) :
    ∀ fuel (c' : Bchunk) (field n mask_mid : Nat) (maybe : Bool),
      n ≤ fuel →
      c'.length = c.length →
      (∀ f, f < cidx / 64 ∨ field + 1 ≤ f → mi_bchunk_bfield c' f = mi_bchunk_bfield c f) →
      (mi_bchunk_bfield c (cidx / 64) &&&
          mi_bfield_mask (min (64 - cidx % 64) n0) (cidx % 64) =
          (if set then 0 else mi_bfield_mask (min (64 - cidx % 64) n0) (cidx % 64)) ∧
        mi_bchunk_bfield c' (cidx / 64) =
          (if set then mi_bchunk_bfield c (cidx / 64) |||
              mi_bfield_mask (min (64 - cidx % 64) n0) (cidx % 64)
           else mi_bchunk_bfield c (cidx / 64) &&&
              bnot64 (mi_bfield_mask (min (64 - cidx % 64) n0) (cidx % 64)))) →
      (∀ f, cidx / 64 < f → f ≤ field →
        mi_bchunk_bfield c f &&& mi_bfield_all_set = (if set then 0 else mi_bfield_all_set) ∧
        mi_bchunk_bfield c' f =
          (if set then mi_bchunk_bfield c f ||| mi_bfield_all_set
           else mi_bchunk_bfield c f &&& bnot64 mi_bfield_all_set)) →
      (cidx / 64 < field → mask_mid = mi_bfield_all_set) →
      cidx / 64 ≤ field →
      cidx + n0 = (if field = cidx / 64 then cidx + min (64 - cidx % 64) n0
        else (field + 1) * 64) + n →
      ((mi_bchunk_try_xsetN_go set (mi_bfield_mask (min (64 - cidx % 64) n0) (cidx % 64))
          (cidx / 64) fuel c' field n mask_mid maybe).2.1 = false →
        (mi_bchunk_try_xsetN_go set (mi_bfield_mask (min (64 - cidx % 64) n0) (cidx % 64))
          (cidx / 64) fuel c' field n mask_mid maybe).1 = c) ∧
      ((mi_bchunk_try_xsetN_go set (mi_bfield_mask (min (64 - cidx % 64) n0) (cidx % 64))
          (cidx / 64) fuel c' field n mask_mid maybe).2.1 = true →
        ∀ j, cidx ≤ j → j < cidx + n0 →
          mi_bchunk_testBit c j = !set ∧
          mi_bchunk_testBit ((mi_bchunk_try_xsetN_go set
            (mi_bfield_mask (min (64 - cidx % 64) n0) (cidx % 64))
            (cidx / 64) fuel c' field n mask_mid maybe).1) j = set) := by
  have hcd : cidx = 64 * (cidx / 64) + cidx % 64 := (Nat.div_add_mod cidx 64).symm
  have hcmod : cidx % 64 < 64 := Nat.mod_lt cidx (by omega)
  have hmslt : mi_bfield_mask (min (64 - cidx % 64) n0) (cidx % 64) < 2 ^ 64 := by
    apply mi_bfield_mask_lt
    have := Nat.min_le_left (64 - cidx % 64) n0
    omega
  intro fuel
  induction fuel with
  | zero =>
    intro c' field n mask_mid maybe hfuel hlen' hout hstart hmid hmm hfield hgeom
    rw [mi_try_xsetN_go_zero]
    refine ⟨fun h => absurd h (by simp), fun _ j h1 h2 => ?_⟩
    apply mi_commit_bits set c c' cidx n0 field hstart hmid j h1 h2
    have hn0eq : n = 0 := by omega
    subst hn0eq
    by_cases hfs : field = cidx / 64
    · rw [if_pos hfs] at hgeom
      have hm0 := Nat.min_le_left (64 - cidx % 64) n0
      omega
    · rw [if_neg hfs] at hgeom
      omega
  | succ fuel ih =>
    intro c' field n mask_mid maybe hfuel hlen' hout hstart hmid hmm hfield hgeom
    rw [mi_try_xsetN_go_succ_eq]
    have hXeq : 0 < n → cidx + n0 = (field + 1) * 64 + n := by
      intro hpos
      by_cases hfs : field = cidx / 64
      · rw [if_pos hfs] at hgeom
        have hmin : min (64 - cidx % 64) n0 = 64 - cidx % 64 := by
          rcases Nat.le_total (64 - cidx % 64) n0 with hm | hm
          · exact Nat.min_eq_left hm
          · rw [Nat.min_eq_right hm] at hgeom
            omega
        rw [hmin] at hgeom
        omega
      · rw [if_neg hfs] at hgeom
        exact hgeom
    by_cases h64 : 64 ≤ n
    · rw [if_pos h64]
      have hX := hXeq (by omega)
      have hf8 : field + 1 < 8 := by omega
      have hb'f : mi_bchunk_bfield c' (field + 1) = mi_bchunk_bfield c (field + 1) :=
        hout (field + 1) (Or.inr le_rfl)
      rw [hb'f]
      by_cases hres : (mi_bfield_atomic_try_xset_mask set (mi_bchunk_bfield c (field + 1))
          mi_bfield_all_set).2.1 = true
      · rw [if_pos hres]
        obtain ⟨hpre, happ⟩ := mi_try_xset_mask_succ set _ _ hres
        refine ih (c'.set (field + 1) _) (field + 1) (n - 64) mi_bfield_all_set _
          (by omega) (by rw [List.length_set]; exact hlen') ?_ ?_ ?_ ?_ (by omega) ?_
        · intro f hf
          rw [mi_bchunk_bfield_set_ne _ _ _ _ (by omega : field + 1 ≠ f)]
          apply hout
          omega
        · rw [mi_bchunk_bfield_set_ne _ _ _ _ (by omega : field + 1 ≠ cidx / 64)]
          exact hstart
        · intro f hf1 hf2
          by_cases hff : f = field + 1
          · subst hff
            rw [mi_bchunk_bfield_set_self _ _ _ (by omega)]
            exact ⟨hpre, happ⟩
          · rw [mi_bchunk_bfield_set_ne _ _ _ _ (fun h => hff h.symm)]
            exact hmid f hf1 (by omega)
        · intro _
          rfl
        · rw [if_neg (by omega : ¬field + 1 = cidx / 64)]
          omega
      · rw [if_neg hres]
        refine ⟨fun _ => ?_, fun h => absurd h (by simp)⟩
        apply mi_restore_spec set c _ _ _ _ _ _ c' hlen' (by omega) hout
        intro f hf1 hf2
        by_cases hfs : f = cidx / 64
        · subst hfs
          rw [if_pos rfl]
          exact ⟨hstart.1, hstart.2, hbnd _, hmslt⟩
        · rw [if_neg hfs, if_neg (by unfold MI_BCHUNK_FIELDS; omega)]
          exact ⟨(hmid f (by omega) (by omega)).1, (hmid f (by omega) (by omega)).2,
            hbnd _, mi_allset_lt⟩
    · rw [if_neg h64]
      by_cases hzero : n = 0
      · rw [if_pos hzero]
        refine ⟨fun h => absurd h (by simp), fun _ j h1 h2 => ?_⟩
        apply mi_commit_bits set c c' cidx n0 field hstart hmid j h1 h2
        subst hzero
        by_cases hfs : field = cidx / 64
        · rw [if_pos hfs] at hgeom
          have hm0 := Nat.min_le_left (64 - cidx % 64) n0
          omega
        · rw [if_neg hfs] at hgeom
          omega
      · rw [if_neg hzero]
        have hX := hXeq (by omega)
        have hf8 : field + 1 < 8 := by omega
        have hb'f : mi_bchunk_bfield c' (field + 1) = mi_bchunk_bfield c (field + 1) :=
          hout (field + 1) (Or.inr le_rfl)
        rw [hb'f]
        by_cases hres : (mi_bfield_atomic_try_xset_mask set (mi_bchunk_bfield c (field + 1))
            (mi_bfield_mask n 0)).2.1 = true
        · rw [if_pos hres]
          obtain ⟨hpre, happ⟩ := mi_try_xset_mask_succ set _ _ hres
          refine ⟨fun h => absurd h (by simp), fun _ j h1 h2 => ?_⟩
          by_cases hj : j < (field + 1) * 64
          · have hcb := mi_commit_bits set c
              (c'.set (field + 1)
                ((mi_bfield_atomic_try_xset_mask set (mi_bchunk_bfield c (field + 1))
                  (mi_bfield_mask n 0)).1)) cidx n0 field ?_ ?_ j h1 h2 hj
            · exact hcb
            · rw [mi_bchunk_bfield_set_ne _ _ _ _ (by omega : field + 1 ≠ cidx / 64)]
              exact hstart
            · intro f hf1 hf2
              rw [mi_bchunk_bfield_set_ne _ _ _ _ (by omega : field + 1 ≠ f)]
              exact hmid f hf1 hf2
          · have hjf : j / 64 = field + 1 := by omega
            have ho : j % 64 < n := by omega
            have hmaskbit : (mi_bfield_mask n 0).testBit (j % 64) = true := by
              rw [mi_bfield_mask_testBit _ _ _ (by omega)]
              have h0 : decide (0 ≤ j % 64) = true := by simp
              have h1' : decide (j % 64 < 0 + n) = true := by simp; omega
              rw [h0, h1', Bool.and_self]
            have hbits := mi_apply_testBit set (mi_bchunk_bfield c (field + 1))
              (mi_bfield_mask n 0) (j % 64) hpre hmaskbit (by omega)
            unfold mi_bchunk_testBit
            rw [hjf]
            refine ⟨hbits.1, ?_⟩
            rw [mi_bchunk_bfield_set_self _ _ _ (by omega), happ]
            exact hbits.2
        · rw [if_neg hres]
          refine ⟨fun _ => ?_, fun h => absurd h (by simp)⟩
          apply mi_restore_spec set c _ _ _ _ _ _ c' hlen' (by omega) hout
          intro f hf1 hf2
          by_cases hfs : f = cidx / 64
          · subst hfs
            rw [if_pos rfl]
            exact ⟨hstart.1, hstart.2, hbnd _, hmslt⟩
          · rw [if_neg hfs, if_neg (by omega : ¬f = field + 1)]
            have hmmv : mask_mid = mi_bfield_all_set := hmm (by omega)
            rw [hmmv]
            exact ⟨(hmid f (by omega) (by omega)).1, (hmid f (by omega) (by omega)).2,
              hbnd _, mi_allset_lt⟩

/-- All-or-nothing behaviour of `mi_bchunk_try_xsetN` (the underlying fact
for claim C1, shared with the chunkmap-invariant development). -/
theorem mi_try_xsetN_all_or_nothing (set : Bool) (c : Bchunk) (cidx n : Nat)
    (hlen : c.length = 8) (hbnd : ∀ b ∈ c, b < 2 ^ 64) (hn : cidx + n ≤ 512) :
    ((mi_bchunk_try_xsetN set c cidx n).2.1 = false →
      (mi_bchunk_try_xsetN set c cidx n).1 = c) ∧
    ((mi_bchunk_try_xsetN set c cidx n).2.1 = true →
      ∀ j, cidx ≤ j → j < cidx + n →
        mi_bchunk_testBit c j = !set ∧
        mi_bchunk_testBit (mi_bchunk_try_xsetN set c cidx n).1 j = set) := by
  have hbnd' : ∀ f, mi_bchunk_bfield c f < 2 ^ 64 := by
    intro f
    unfold mi_bchunk_bfield
    rcases Nat.lt_or_ge f c.length with hf | hf
    · rw [List.getD_eq_getElem?_getD, List.getElem?_eq_getElem hf]
      exact hbnd _ (List.getElem_mem hf)
    · rw [List.getD_eq_getElem?_getD, List.getElem?_eq_none hf]
      simp
  by_cases hn0 : n = 0
  · subst hn0
    have heq : mi_bchunk_try_xsetN set c cidx 0 = (c, true, none) := rfl
    rw [heq]
    exact ⟨fun h => absurd h (by simp), fun _ j h1 h2 => absurd h1 (by omega)⟩
  · have heq : mi_bchunk_try_xsetN set c cidx n =
        (if (mi_bfield_atomic_try_xset_mask set (mi_bchunk_bfield c (cidx / 64))
            (mi_bfield_mask (min (64 - cidx % 64) n) (cidx % 64))).2.1 then
          mi_bchunk_try_xsetN_go set (mi_bfield_mask (min (64 - cidx % 64) n) (cidx % 64))
            (cidx / 64) n
            (c.set (cidx / 64)
              (mi_bfield_atomic_try_xset_mask set (mi_bchunk_bfield c (cidx / 64))
                (mi_bfield_mask (min (64 - cidx % 64) n) (cidx % 64))).1)
            (cidx / 64) (n - min (64 - cidx % 64) n) 0
            (mi_bfield_atomic_try_xset_mask set (mi_bchunk_bfield c (cidx / 64))
              (mi_bfield_mask (min (64 - cidx % 64) n) (cidx % 64))).2.2
        else (c, false, some false)) := by
      unfold mi_bchunk_try_xsetN
      rw [if_neg hn0]
    rw [heq]
    have hsf8 : cidx / 64 < 8 := by omega
    by_cases hres : (mi_bfield_atomic_try_xset_mask set (mi_bchunk_bfield c (cidx / 64))
        (mi_bfield_mask (min (64 - cidx % 64) n) (cidx % 64))).2.1 = true
    · rw [if_pos hres]
      obtain ⟨hpre, happ⟩ := mi_try_xset_mask_succ set _ _ hres
      apply mi_try_xsetN_go_spec set c cidx n hlen hbnd' hn n _ _ _ _ _
        (by omega) (by rw [List.length_set]) ?_ ?_ ?_ ?_ le_rfl ?_
      · intro f hf
        rw [mi_bchunk_bfield_set_ne _ _ _ _ (by omega : cidx / 64 ≠ f)]
      · rw [mi_bchunk_bfield_set_self _ _ _ (by omega), happ]
        exact ⟨hpre, rfl⟩
      · intro f hf1 hf2
        omega
      · intro hlt
        omega
      · rw [if_pos rfl]
        have := Nat.min_le_right (64 - cidx % 64) n
        omega
    · rw [if_neg hres]
      exact ⟨fun _ => rfl, fun h => absurd h (by simp)⟩

/-- C1: `mi_bchunk_try_xsetN` is all-or-nothing: if it returns false the
chunk is exactly as before the call (any committed fields having been rolled
back with the inverse operation), and if it returns true every bit in
`[cidx, cidx + n)` transitioned (it was `!set` before and is `set` after). -/
theorem claim_C1_try_xsetN_all_or_nothing (set : Bool) (c : Bchunk) (cidx n : Nat)
    (hlen : c.length = 8) (hbnd : ∀ b ∈ c, b < 2 ^ 64) (hn : cidx + n ≤ 512) :
    ((mi_bchunk_try_xsetN set c cidx n).2.1 = false →
      (mi_bchunk_try_xsetN set c cidx n).1 = c) ∧
    ((mi_bchunk_try_xsetN set c cidx n).2.1 = true →
      ∀ j, cidx ≤ j → j < cidx + n →
        mi_bchunk_testBit c j = !set ∧
        mi_bchunk_testBit (mi_bchunk_try_xsetN set c cidx n).1 j = set) :=
  mi_try_xsetN_all_or_nothing set c cidx n hlen hbnd hn

/-- Witness for C1: a 68-bit set straddling the field boundary at bit 64 on
a zeroed chunk. -/
theorem claim_C1_witness :
    (List.replicate 8 0 : Bchunk).length = 8 ∧ (∀ b ∈ (List.replicate 8 0 : Bchunk), b < 2 ^ 64) ∧
      (60 : Nat) + 68 ≤ 512 ∧
    (((mi_bchunk_try_xsetN true (List.replicate 8 0) 60 68).2.1 = false →
      (mi_bchunk_try_xsetN true (List.replicate 8 0) 60 68).1 = List.replicate 8 0) ∧
    ((mi_bchunk_try_xsetN true (List.replicate 8 0) 60 68).2.1 = true →
      ∀ j, 60 ≤ j → j < 60 + 68 →
        mi_bchunk_testBit (List.replicate 8 0) j = !true ∧
        mi_bchunk_testBit (mi_bchunk_try_xsetN true (List.replicate 8 0) 60 68).1 j = true)) :=
  ⟨by decide, by decide, by decide,
    claim_C1_try_xsetN_all_or_nothing true (List.replicate 8 0) 60 68 (by decide) (by decide)
      (by decide)⟩

/-! ## Generic properties of the find fold -/

theorem mi_bitmap_find_inner_cons (visit : MiVisitFun) (n : Nat) (bm : Bitmap) (e : Nat)
    (rest : List Nat) :
    mi_bitmap_find_inner visit n bm (e :: rest) =
      match visit bm e n with
      | (bm', some idx) => (bm', some idx)
      | (bm', none) => mi_bitmap_find_inner visit n bm' rest := rfl

theorem mi_bitmap_find_inner_preserve (visit : MiVisitFun) (n : Nat) (Q : Bitmap → Prop)
    (hv : ∀ bm ci, Q bm → Q (visit bm ci n).1) :
    ∀ (lst : List Nat) (bm : Bitmap), Q bm → Q (mi_bitmap_find_inner visit n bm lst).1 := by
  intro lst
  induction lst with
  | nil => intro bm h; exact h
  | cons e rest ih =>
    intro bm h
    rw [mi_bitmap_find_inner_cons]
    rcases hv' : visit bm e n with ⟨bm', found⟩
    have hq : Q bm' := by
      have := hv bm e h
      rw [hv'] at this
      exact this
    cases found with
    | some idx => exact hq
    | none => exact ih bm' hq

theorem mi_bitmap_find_outer_preserve (visit : MiVisitFun) (tseq n ca cab : Nat)
    (Q : Bitmap → Prop) (hv : ∀ bm' ci, Q bm' → Q (visit bm' ci n).1) :
    ∀ (lst : List Nat) (bm : Bitmap), Q bm →
      Q (mi_bitmap_find_outer visit tseq n ca cab bm lst).1 := by
  intro lst
  induction lst with
  | nil => intro bm hq; exact hq
  | cons e rest ih =>
    intro bm hq
    rw [mi_bitmap_find_outer_cons]
    rcases hm : mi_bitmap_find_inner visit n bm
        ((mi_bfield_cycle_iterate_list (mi_bchunk_bfield bm.chunkmap e) tseq
          (if e ≠ ca then 64 else cab)).map (fun eidx => e * 64 + eidx)) with ⟨bm', found⟩
    have hq' : Q bm' := by
      have := mi_bitmap_find_inner_preserve visit n Q hv
        ((mi_bfield_cycle_iterate_list (mi_bchunk_bfield bm.chunkmap e) tseq
          (if e ≠ ca then 64 else cab)).map (fun eidx => e * 64 + eidx)) bm hq
      rw [hm] at this
      exact this
    cases found with
    | some idx => exact hq'
    | none => exact ih bm' hq'

theorem mi_bitmap_find_preserve (bm : Bitmap) (tseq n : Nat) (visit : MiVisitFun)
    (Q : Bitmap → Prop) (hv : ∀ bm' ci, Q bm' → Q (visit bm' ci n).1) (hq : Q bm) :
    Q (mi_bitmap_find bm tseq n visit).1 :=
  mi_bitmap_find_outer_preserve visit tseq n _ _ Q hv _ bm hq

theorem mi_bitmap_find_inner_some_prop (visit : MiVisitFun) (n : Nat) (P : Nat → Prop)
    (hv : ∀ bm ci idx bm'', visit bm ci n = (bm'', some idx) → P idx) :
    ∀ (lst : List Nat) (bm : Bitmap) (idx : Nat) (bm'' : Bitmap),
      mi_bitmap_find_inner visit n bm lst = (bm'', some idx) → P idx := by
  intro lst
  induction lst with
  | nil =>
    intro bm idx bm'' h
    exact absurd h (by simp [mi_bitmap_find_inner])
  | cons e rest ih =>
    intro bm idx bm'' h
    rw [mi_bitmap_find_inner_cons] at h
    rcases hv' : visit bm e n with ⟨bm', found⟩
    rw [hv'] at h
    cases found with
    | some idx1 =>
      have h2 : idx1 = idx := by
        have := congrArg Prod.snd h
        simpa using this
      subst h2
      exact hv bm e idx1 bm' hv'
    | none => exact ih bm' idx bm'' h

theorem mi_bitmap_find_outer_some_prop (visit : MiVisitFun) (tseq n ca cab : Nat)
    (P : Nat → Prop) (hv : ∀ bm' ci idx bm'', visit bm' ci n = (bm'', some idx) → P idx) :
    ∀ (lst : List Nat) (bm : Bitmap) (idx : Nat) (bm'' : Bitmap),
      mi_bitmap_find_outer visit tseq n ca cab bm lst = (bm'', some idx) → P idx := by
  intro lst
  induction lst with
  | nil =>
    intro bm idx bm'' h
    exact absurd h (by simp [mi_bitmap_find_outer])
  | cons e rest ih =>
    intro bm idx bm'' h
    rw [mi_bitmap_find_outer_cons] at h
    rcases hm : mi_bitmap_find_inner visit n bm
        ((mi_bfield_cycle_iterate_list (mi_bchunk_bfield bm.chunkmap e) tseq
          (if e ≠ ca then 64 else cab)).map (fun eidx => e * 64 + eidx)) with ⟨bm', found⟩
    rw [hm] at h
    cases found with
    | some idx1 =>
      have h2 : idx1 = idx := by
        have := congrArg Prod.snd h
        simpa using this
      subst h2
      exact mi_bitmap_find_inner_some_prop visit n P hv _ bm idx1 bm' hm
    | none => exact ih bm' idx bm'' h

theorem mi_bitmap_find_some_prop (bm : Bitmap) (tseq n : Nat) (visit : MiVisitFun)
    (P : Nat → Prop) (hv : ∀ bm' ci idx bm'', visit bm' ci n = (bm'', some idx) → P idx) :
    ∀ idx bm'', mi_bitmap_find bm tseq n visit = (bm'', some idx) → P idx := by
  intro idx bm'' h
  exact mi_bitmap_find_outer_some_prop visit tseq n _ _ P hv _ bm idx bm'' h

theorem mi_bitmap_find_none_of_visit_none (bm : Bitmap) (tseq n : Nat) (visit : MiVisitFun)
    (hv : ∀ bm' ci, (visit bm' ci n).2 = none) :
    (mi_bitmap_find bm tseq n visit).2 = none := by
  rcases hfind : mi_bitmap_find bm tseq n visit with ⟨bm'', found⟩
  cases found with
  | none => rfl
  | some idx =>
    exfalso
    have := mi_bitmap_find_some_prop bm tseq n visit (fun _ => False) ?_ idx bm'' hfind
    · exact this
    · intro bm' ci idx1 bm2 h
      have := hv bm' ci
      rw [h] at this
      simp at this

/-! ## Characterizing mi_bchunk_try_find_and_clear -/

theorem mi_bchunk_bfield_lt (c : Bchunk) (hbnd : ∀ b ∈ c, b < 2 ^ 64) (f : Nat) :
    mi_bchunk_bfield c f < 2 ^ 64 := by
  unfold mi_bchunk_bfield
  by_cases hf : f < c.length
  · have h1 : c.getD f 0 ∈ c := by
      rw [List.getD_eq_getElem?_getD, List.getElem?_eq_getElem hf]
      simp only [Option.getD_some]
      exact List.getElem_mem hf
    exact hbnd _ h1
  · rw [List.getD_eq_getElem?_getD, List.getElem?_eq_none (Nat.le_of_not_lt hf)]
    simp only [Option.getD_none]
    exact Nat.two_pow_pos 64

theorem mi_try_clear_succ (b idx : Nat)
    (h : (mi_bfield_atomic_try_clear b idx).2.1 = true) :
    b &&& 1 <<< idx = 1 <<< idx ∧
    (mi_bfield_atomic_try_clear b idx).1 = b &&& bnot64 (1 <<< idx) := by
  unfold mi_bfield_atomic_try_clear mi_bfield_atomic_try_clear_mask at h ⊢
  by_cases hc : (b &&& 1 <<< idx != 1 <<< idx) = true
  · rw [if_pos hc] at h
    simp at h
  · rw [if_neg hc] at h
    rw [if_neg hc]
    constructor
    · simpa [bne_iff_ne] using hc
    · rfl

theorem mi_tfac_at_none (c : Bchunk) (i : Nat) (allow : Bool) (c'' : Bchunk)
    (h : mi_bchunk_try_find_and_clear_at c i allow = (c'', none)) : c'' = c := by
  simp only [mi_bchunk_try_find_and_clear_at] at h
  split at h
  · injection h with h1 _
    exact h1.symm
  · split at h
    next cidx heq =>
      split at h
      · exact absurd (congrArg Prod.snd h) (by simp)
      · injection h with h1 _
        exact h1.symm
    next x heq =>
      injection h with h1 _
      exact h1.symm

theorem mi_tfac_at_some (c : Bchunk) (i : Nat) (allow : Bool) (c' : Bchunk) (idx : Nat)
    (hbf : mi_bchunk_bfield c i < 2 ^ 64)
    (h : mi_bchunk_try_find_and_clear_at c i allow = (c', some idx)) :
    idx = i * 64 + mi_bfield_ctz (mi_bchunk_bfield c i) ∧
    mi_bfield_ctz (mi_bchunk_bfield c i) < 64 ∧
    mi_bchunk_bfield c i &&& 1 <<< mi_bfield_ctz (mi_bchunk_bfield c i) =
      1 <<< mi_bfield_ctz (mi_bchunk_bfield c i) ∧
    c' = c.set i (mi_bchunk_bfield c i &&&
      bnot64 (1 <<< mi_bfield_ctz (mi_bchunk_bfield c i))) := by
  simp only [mi_bchunk_try_find_and_clear_at] at h
  split at h
  · exact absurd (congrArg Prod.snd h) (by simp)
  · split at h
    next cidx heq =>
      have hb0 : mi_bchunk_bfield c i ≠ 0 := by
        have h1 := congrArg Prod.fst heq
        simp only [mi_bfield_find_least_bit] at h1
        simpa [bne_iff_ne] using h1
      have hcidx : cidx = mi_bfield_ctz (mi_bchunk_bfield c i) := by
        have h1 := congrArg Prod.snd heq
        simp only [mi_bfield_find_least_bit] at h1
        exact h1.symm
      subst hcidx
      split at h
      next hsucc =>
        obtain ⟨hm1, hm2⟩ := mi_try_clear_succ (mi_bchunk_bfield c i)
          (mi_bfield_ctz (mi_bchunk_bfield c i)) hsucc
        injection h with h1 h2
        injection h2 with h2
        refine ⟨h2.symm, mi_bfield_ctz_lt _ hbf hb0, hm1, ?_⟩
        rw [← h1, hm2]
      next => exact absurd (congrArg Prod.snd h) (by simp)
    next x heq => exact absurd (congrArg Prod.snd h) (by simp)

theorem mi_tfac_pass_cons (allow : Bool) (c : Bchunk) (i : Nat) (rest : List Nat) :
    mi_bchunk_tfac_pass allow c (i :: rest) =
      match mi_bchunk_try_find_and_clear_at c i allow with
      | (c', some idx) => (c', some idx)
      | (_, none) => mi_bchunk_tfac_pass allow c rest := rfl

theorem mi_tfac_pass_none (allow : Bool) :
    ∀ (lst : List Nat) (c c'' : Bchunk),
      mi_bchunk_tfac_pass allow c lst = (c'', none) → c'' = c := by
  intro lst
  induction lst with
  | nil =>
    intro c c'' h
    injection h with h1 _
    exact h1.symm
  | cons i rest ih =>
    intro c c'' h
    rw [mi_tfac_pass_cons] at h
    split at h
    · injection h with h1 h2
      exact Option.noConfusion h2
    · exact ih c c'' h

theorem mi_tfac_pass_some (allow : Bool) :
    ∀ (lst : List Nat) (c c' : Bchunk) (idx : Nat),
      (∀ i ∈ lst, mi_bchunk_bfield c i < 2 ^ 64) →
      mi_bchunk_tfac_pass allow c lst = (c', some idx) →
      ∃ i ∈ lst,
        idx = i * 64 + mi_bfield_ctz (mi_bchunk_bfield c i) ∧
        mi_bfield_ctz (mi_bchunk_bfield c i) < 64 ∧
        mi_bchunk_bfield c i &&& 1 <<< mi_bfield_ctz (mi_bchunk_bfield c i) =
          1 <<< mi_bfield_ctz (mi_bchunk_bfield c i) ∧
        c' = c.set i (mi_bchunk_bfield c i &&&
          bnot64 (1 <<< mi_bfield_ctz (mi_bchunk_bfield c i))) := by
  intro lst
  induction lst with
  | nil =>
    intro c c' idx _ h
    exact absurd (congrArg Prod.snd h) (by simp [mi_bchunk_tfac_pass])
  | cons i rest ih =>
    intro c c' idx hbnd h
    rw [mi_tfac_pass_cons] at h
    split at h
    next ca ja heq =>
      injection h with h1 h2
      injection h2 with h2
      rw [h1, h2] at heq
      obtain ⟨ha, hb, hc, hd⟩ :=
        mi_tfac_at_some c i allow c' idx (hbnd i (List.mem_cons_self i rest)) heq
      exact ⟨i, List.mem_cons_self i rest, ha, hb, hc, hd⟩
    next =>
      obtain ⟨i1, hmem, rest'⟩ := ih c c' idx (fun j hj => hbnd j (List.mem_cons_of_mem i hj)) h
      exact ⟨i1, List.mem_cons_of_mem i hmem, rest'⟩

theorem mi_tfac_none (c c'' : Bchunk)
    (h : mi_bchunk_try_find_and_clear c = (c'', none)) : c'' = c := by
  unfold mi_bchunk_try_find_and_clear at h
  split at h
  · injection h with h1 h2
    exact Option.noConfusion h2
  · exact mi_tfac_pass_none true (List.range 8) c c'' h

theorem mi_tfac_spec (c : Bchunk) (hlen : c.length = 8) (hbnd : ∀ b ∈ c, b < 2 ^ 64)
    (c' : Bchunk) (k : Nat) (h : mi_bchunk_try_find_and_clear c = (c', some k)) :
    k / 64 < 8 ∧
    mi_bchunk_bfield c (k / 64) &&& 1 <<< (k % 64) = 1 <<< (k % 64) ∧
    c' = c.set (k / 64) (mi_bchunk_bfield c (k / 64) &&& bnot64 (1 <<< (k % 64))) := by
  have hbf : ∀ i ∈ List.range 8, mi_bchunk_bfield c i < 2 ^ 64 :=
    fun i _ => mi_bchunk_bfield_lt c hbnd i
  unfold mi_bchunk_try_find_and_clear at h
  have hmain : ∃ i ∈ List.range 8,
      k = i * 64 + mi_bfield_ctz (mi_bchunk_bfield c i) ∧
      mi_bfield_ctz (mi_bchunk_bfield c i) < 64 ∧
      mi_bchunk_bfield c i &&& 1 <<< mi_bfield_ctz (mi_bchunk_bfield c i) =
        1 <<< mi_bfield_ctz (mi_bchunk_bfield c i) ∧
      c' = c.set i (mi_bchunk_bfield c i &&&
        bnot64 (1 <<< mi_bfield_ctz (mi_bchunk_bfield c i))) := by
    split at h
    next ca ja heq =>
      injection h with h1 h2
      injection h2 with h2
      rw [h1, h2] at heq
      exact mi_tfac_pass_some false (List.range 8) c c' k hbf heq
    next => exact mi_tfac_pass_some true (List.range 8) c c' k hbf h
  obtain ⟨i, hmem, hidx, hlt, hmask, hc'⟩ := hmain
  have hdiv : k / 64 = i := by omega
  have hmod : k % 64 = mi_bfield_ctz (mi_bchunk_bfield c i) := by omega
  rw [hdiv, hmod]
  exact ⟨by simpa using List.mem_range.mp hmem, hmask, hc'⟩

/-! ## Helpers for the claim visitor -/

theorem mi_clear_bit_false (b o : Nat) (ho : o < 64) :
    ((b &&& bnot64 (1 <<< o)).testBit o) = false := by
  rw [Nat.testBit_and, bnot64_testBit _ _ ho]
  have h1 : (1 <<< o).testBit o = true := by
    rw [Nat.testBit_shiftLeft]
    simp
  rw [h1]
  simp

theorem mi_one_shiftl_lt (o : Nat) (ho : o < 64) : 1 <<< o < 2 ^ 64 := by
  rw [Nat.shiftLeft_eq, Nat.one_mul]
  exact Nat.pow_lt_pow_right (by omega) ho

theorem mi_bchunk_set_bfield_self (c : Bchunk) (f : Nat) :
    c.set f (mi_bchunk_bfield c f) = c := by
  by_cases hf : f < c.length
  · apply mi_bchunk_eq_of_bfield_eq
    · simp
    · intro g
      by_cases hg : f = g
      · subst hg
        exact mi_bchunk_bfield_set_self c _ f hf
      · exact mi_bchunk_bfield_set_ne c _ f g hg
  · exact List.set_eq_of_length_le (Nat.le_of_not_lt hf)

theorem mi_chunks_getD_set_self (cs : List Bchunk) (v : Bchunk) (i : Nat)
    (h : i < cs.length) : (cs.set i v).getD i [] = v := by
  simp [List.getD_eq_getElem?_getD, List.getElem?_set_self h]

theorem mi_chunks_set_getD_self (cs : List Bchunk) (i : Nat) (h : i < cs.length) :
    cs.set i (cs.getD i []) = cs := by
  apply List.ext_getElem?
  intro j
  by_cases hj : i = j
  · subst hj
    rw [List.getElem?_set_self h, List.getD_eq_getElem?_getD,
      List.getElem?_eq_getElem h]
    simp
  · rw [List.getElem?_set_ne hj]

theorem mi_bitmap_chunk_idx_lt (bm : Bitmap) (ci : Nat)
    (hlen : (mi_bitmap_chunk bm ci).length = 8) : ci < bm.chunks.length := by
  by_contra hge
  unfold mi_bitmap_chunk at hlen
  rw [List.getD_eq_getElem?_getD, List.getElem?_eq_none (Nat.le_of_not_lt hge)] at hlen
  simp at hlen

/-- **C9.** In `mi_bitmap_try_find_and_claim`, once the chunk-level
find-and-clear succeeds at chunk-relative bit `k`: if the claim callback
returns `true` the visit returns the global index with the bit still
cleared; if it returns `false` with `keep_set = true` the bit is set back
(the bitmap is restored exactly to its pre-clear value) and the search
continues; if it returns `false` with `keep_set = false` the cleared state
stands and the search continues.  The top-level call yields an index only
when the claim callback approved it, and yields none when the callback
never approves. -/
theorem claim_C9_try_find_and_claim (bm : Bitmap) (chunk_idx n tseq : Nat)
    (claimFn : Nat → Bool × Bool) (c' : Bchunk) (k : Nat)
    (hlen : (mi_bitmap_chunk bm chunk_idx).length = 8)
    (hbnd : ∀ b ∈ mi_bitmap_chunk bm chunk_idx, b < 2 ^ 64)
    (htf : mi_bchunk_try_find_and_clear (mi_bitmap_chunk bm chunk_idx) = (c', some k)) :
    ((claimFn (chunk_idx * 512 + k)).1 = true →
      mi_bitmap_try_find_and_claim_visit claimFn bm chunk_idx n =
        ({ bm with chunks := bm.chunks.set chunk_idx c' }, some (chunk_idx * 512 + k)) ∧
      mi_bchunk_testBit c' k = false) ∧
    ((claimFn (chunk_idx * 512 + k)).1 = false →
      (claimFn (chunk_idx * 512 + k)).2 = true →
      mi_bitmap_try_find_and_claim_visit claimFn bm chunk_idx n = (bm, none)) ∧
    ((claimFn (chunk_idx * 512 + k)).1 = false →
      (claimFn (chunk_idx * 512 + k)).2 = false →
      mi_bitmap_try_find_and_claim_visit claimFn bm chunk_idx n =
        ({ bm with chunks := bm.chunks.set chunk_idx c' }, none) ∧
      mi_bchunk_testBit c' k = false) ∧
    (∀ idx bm'', mi_bitmap_try_find_and_claim bm tseq claimFn = (bm'', some idx) →
      (claimFn idx).1 = true) ∧
    ((∀ s, (claimFn s).1 = false) →
      (mi_bitmap_try_find_and_claim bm tseq claimFn).2 = none) := by
  obtain ⟨hdiv, hmask, hc'⟩ := mi_tfac_spec _ hlen hbnd c' k htf
  have hklen : k / 64 < (mi_bitmap_chunk bm chunk_idx).length := by
    rw [hlen]; exact hdiv
  have hbf' : mi_bchunk_bfield c' (k / 64) =
      mi_bchunk_bfield (mi_bitmap_chunk bm chunk_idx) (k / 64) &&&
        bnot64 (1 <<< (k % 64)) := by
    rw [hc']
    exact mi_bchunk_bfield_set_self _ _ _ hklen
  have hbit : mi_bchunk_testBit c' k = false := by
    unfold mi_bchunk_testBit
    rw [hbf']
    exact mi_clear_bit_false _ _ (Nat.mod_lt _ (by omega))
  have hv : mi_bitmap_try_find_and_claim_visit claimFn bm chunk_idx n =
      (if (claimFn (chunk_idx * 512 + k)).1 = true then
        ({ bm with chunks := bm.chunks.set chunk_idx c' }, some (chunk_idx * 512 + k))
      else if (claimFn (chunk_idx * 512 + k)).2 = true then
        ({ bm with
            chunks := (bm.chunks.set chunk_idx c').set chunk_idx
              (mi_bchunk_set
                (mi_bitmap_chunk { bm with chunks := bm.chunks.set chunk_idx c' }
                  chunk_idx) k).1 },
          none)
      else ({ bm with chunks := bm.chunks.set chunk_idx c' }, none)) := by
    unfold mi_bitmap_try_find_and_claim_visit
    rw [htf]
  have hvis : ∀ (bm' : Bitmap) (ci idx : Nat) (bm'' : Bitmap),
      mi_bitmap_try_find_and_claim_visit claimFn bm' ci 1 = (bm'', some idx) →
      (claimFn idx).1 = true := by
    intro bm' ci idx bm'' hvv
    simp only [mi_bitmap_try_find_and_claim_visit] at hvv
    split at hvv
    next c1 cidx heq =>
      by_cases hcl : (claimFn (ci * 512 + cidx)).1 = true
      · rw [if_pos hcl] at hvv
        injection hvv with h1 h2
        injection h2 with h2
        rw [← h2]
        exact hcl
      · rw [if_neg hcl] at hvv
        by_cases hcl2 : (claimFn (ci * 512 + cidx)).2 = true
        · rw [if_pos hcl2] at hvv
          injection hvv with h1 h2
          exact Option.noConfusion h2
        · rw [if_neg hcl2] at hvv
          injection hvv with h1 h2
          exact Option.noConfusion h2
    next =>
      injection hvv with h1 h2
      exact Option.noConfusion h2
  refine ⟨?_, ?_, ?_, ?_, ?_⟩
  · intro hcl
    exact ⟨by rw [hv, if_pos hcl], hbit⟩
  · intro hcl1 hcl2
    have hne1 : ¬((claimFn (chunk_idx * 512 + k)).1 = true) := by simp [hcl1]
    rw [hv, if_neg hne1, if_pos hcl2]
    have hci : chunk_idx < bm.chunks.length := mi_bitmap_chunk_idx_lt bm chunk_idx hlen
    have hchunk1 : mi_bitmap_chunk { bm with chunks := bm.chunks.set chunk_idx c' }
        chunk_idx = c' := by
      unfold mi_bitmap_chunk
      exact mi_chunks_getD_set_self bm.chunks c' chunk_idx hci
    rw [hchunk1]
    have hset1 : (mi_bchunk_set c' k).1 = c'.set (k / 64)
        (mi_bchunk_bfield c' (k / 64) ||| 1 <<< (k % 64)) := rfl
    have hrestore : mi_bchunk_bfield c' (k / 64) ||| 1 <<< (k % 64) =
        mi_bchunk_bfield (mi_bitmap_chunk bm chunk_idx) (k / 64) := by
      rw [hbf']
      exact mi_and_not_lor_cancel _ _ (mi_bchunk_bfield_lt _ hbnd _)
        (mi_one_shiftl_lt _ (Nat.mod_lt _ (by omega))) hmask
    have hsetc : (mi_bchunk_set c' k).1 = mi_bitmap_chunk bm chunk_idx := by
      rw [hset1, hrestore, hc', List.set_set]
      exact mi_bchunk_set_bfield_self _ _
    rw [hsetc, List.set_set]
    have hsame : bm.chunks.set chunk_idx (mi_bitmap_chunk bm chunk_idx) = bm.chunks :=
      mi_chunks_set_getD_self bm.chunks chunk_idx hci
    rw [hsame]
  · intro hcl1 hcl2
    have hne1 : ¬((claimFn (chunk_idx * 512 + k)).1 = true) := by simp [hcl1]
    have hne2 : ¬((claimFn (chunk_idx * 512 + k)).2 = true) := by simp [hcl2]
    exact ⟨by rw [hv, if_neg hne1, if_neg hne2], hbit⟩
  · intro idx bm'' h
    unfold mi_bitmap_try_find_and_claim at h
    exact mi_bitmap_find_some_prop bm tseq 1 _ (fun i => (claimFn i).1 = true)
      hvis idx bm'' h
  · intro hall
    unfold mi_bitmap_try_find_and_claim
    apply mi_bitmap_find_none_of_visit_none
    intro bm' ci
    rcases hres : mi_bitmap_try_find_and_claim_visit claimFn bm' ci 1 with ⟨bmr, o⟩
    cases o with
    | none => rfl
    | some idx =>
      have := hvis bm' ci idx bmr hres
      rw [hall idx] at this
      exact Bool.noConfusion this

theorem claim_C9_witness :
    (mi_bitmap_chunk (Bitmap.mk 1 0 [1,0,0,0,0,0,0,0] [[2,0,0,0,0,0,0,0]]) 0).length = 8 ∧
    (∀ b ∈ mi_bitmap_chunk (Bitmap.mk 1 0 [1,0,0,0,0,0,0,0] [[2,0,0,0,0,0,0,0]]) 0,
      b < 2 ^ 64) ∧
    mi_bchunk_try_find_and_clear
        (mi_bitmap_chunk (Bitmap.mk 1 0 [1,0,0,0,0,0,0,0] [[2,0,0,0,0,0,0,0]]) 0) =
      ([0,0,0,0,0,0,0,0], some 1) ∧
    ((((fun s => (s == 1, false)) (0 * 512 + 1) : Bool × Bool).1 = true →
      mi_bitmap_try_find_and_claim_visit (fun s => (s == 1, false))
          (Bitmap.mk 1 0 [1,0,0,0,0,0,0,0] [[2,0,0,0,0,0,0,0]]) 0 1 =
        ({ Bitmap.mk 1 0 [1,0,0,0,0,0,0,0] [[2,0,0,0,0,0,0,0]] with
            chunks := (Bitmap.mk 1 0 [1,0,0,0,0,0,0,0]
              [[2,0,0,0,0,0,0,0]]).chunks.set 0 [0,0,0,0,0,0,0,0] },
          some (0 * 512 + 1)) ∧
      mi_bchunk_testBit [0,0,0,0,0,0,0,0] 1 = false) ∧
    (((fun s => (s == 1, false)) (0 * 512 + 1) : Bool × Bool).1 = false →
      (((fun s => (s == 1, false)) (0 * 512 + 1) : Bool × Bool)).2 = true →
      mi_bitmap_try_find_and_claim_visit (fun s => (s == 1, false))
          (Bitmap.mk 1 0 [1,0,0,0,0,0,0,0] [[2,0,0,0,0,0,0,0]]) 0 1 =
        (Bitmap.mk 1 0 [1,0,0,0,0,0,0,0] [[2,0,0,0,0,0,0,0]], none)) ∧
    (((fun s => (s == 1, false)) (0 * 512 + 1) : Bool × Bool).1 = false →
      (((fun s => (s == 1, false)) (0 * 512 + 1) : Bool × Bool)).2 = false →
      mi_bitmap_try_find_and_claim_visit (fun s => (s == 1, false))
          (Bitmap.mk 1 0 [1,0,0,0,0,0,0,0] [[2,0,0,0,0,0,0,0]]) 0 1 =
        ({ Bitmap.mk 1 0 [1,0,0,0,0,0,0,0] [[2,0,0,0,0,0,0,0]] with
            chunks := (Bitmap.mk 1 0 [1,0,0,0,0,0,0,0]
              [[2,0,0,0,0,0,0,0]]).chunks.set 0 [0,0,0,0,0,0,0,0] },
          none) ∧
      mi_bchunk_testBit [0,0,0,0,0,0,0,0] 1 = false) ∧
    (∀ idx bm'', mi_bitmap_try_find_and_claim
        (Bitmap.mk 1 0 [1,0,0,0,0,0,0,0] [[2,0,0,0,0,0,0,0]]) 0
        (fun s => (s == 1, false)) = (bm'', some idx) →
      (((fun s => (s == 1, false)) idx : Bool × Bool)).1 = true) ∧
    ((∀ s, (((fun s => (s == 1, false)) s : Bool × Bool)).1 = false) →
      (mi_bitmap_try_find_and_claim
        (Bitmap.mk 1 0 [1,0,0,0,0,0,0,0] [[2,0,0,0,0,0,0,0]]) 0
        (fun s => (s == 1, false))).2 = none)) :=
  ⟨by decide, by decide, by decide,
    claim_C9_try_find_and_claim (Bitmap.mk 1 0 [1,0,0,0,0,0,0,0] [[2,0,0,0,0,0,0,0]])
      0 1 0 (fun s => (s == 1, false)) [0,0,0,0,0,0,0,0] 1
      (by decide) (by decide) (by decide)⟩

/-! ## Shrinking chunks and chunkmap bits -/

theorem mi_allclear_iff (c : Bchunk) :
    mi_bchunk_all_are_clear c = true ↔ ∀ i < 8, mi_bchunk_bfield c i = 0 := by
  unfold mi_bchunk_all_are_clear
  rw [List.all_eq_true]
  constructor
  · intro h i hi
    have := h i (List.mem_range.mpr hi)
    simpa using this
  · intro h i hi
    simpa using h i (List.mem_range.mp hi)

theorem mi_chunk_shrinks_refl (c : Bchunk) : mi_chunk_shrinks c c :=
  ⟨rfl, fun _ => Or.inl rfl⟩

theorem mi_chunk_shrinks_trans (a b c : Bchunk) (h1 : mi_chunk_shrinks a b)
    (h2 : mi_chunk_shrinks b c) : mi_chunk_shrinks a c := by
  obtain ⟨l1, f1⟩ := h1
  obtain ⟨l2, f2⟩ := h2
  refine ⟨l2.trans l1, fun g => ?_⟩
  rcases f2 g with h | ⟨m, hm⟩
  · rw [h]
    exact f1 g
  · rcases f1 g with h' | ⟨m', hm'⟩
    · rw [hm, h']
      exact Or.inr ⟨m, rfl⟩
    · rw [hm, hm', Nat.and_assoc]
      exact Or.inr ⟨m' &&& m, rfl⟩

theorem mi_chunk_shrinks_set_and (c : Bchunk) (f m : Nat) :
    mi_chunk_shrinks c (c.set f (mi_bchunk_bfield c f &&& m)) := by
  refine ⟨List.length_set c f _, fun g => ?_⟩
  by_cases hf : f < c.length
  · by_cases hg : f = g
    · subst hg
      rw [mi_bchunk_bfield_set_self c _ f hf]
      exact Or.inr ⟨m, rfl⟩
    · rw [mi_bchunk_bfield_set_ne c _ f g hg]
      exact Or.inl rfl
  · rw [List.set_eq_of_length_le (Nat.le_of_not_lt hf)]
    exact Or.inl rfl

theorem mi_chunk_shrinks_allclear (c c1 : Bchunk) (h : mi_chunk_shrinks c c1)
    (hc1 : mi_bchunk_all_are_clear c1 = false) :
    mi_bchunk_all_are_clear c = false := by
  by_contra hc
  have hc' : mi_bchunk_all_are_clear c = true := by
    cases hx : mi_bchunk_all_are_clear c
    · exact absurd hx hc
    · rfl
  have hall := (mi_allclear_iff c).mp hc'
  have hone : mi_bchunk_all_are_clear c1 = true := by
    rw [mi_allclear_iff]
    intro i hi
    rcases h.2 i with he | ⟨m, hm⟩
    · rw [he]
      exact hall i hi
    · rw [hm, hall i hi]
      exact Nat.zero_and m
  rw [hone] at hc1
  exact Bool.noConfusion hc1

theorem mi_mem_bfield (c : Bchunk) (b : Nat) (hb : b ∈ c) :
    ∃ g, g < c.length ∧ b = mi_bchunk_bfield c g := by
  obtain ⟨n, hn, he⟩ := List.getElem_of_mem hb
  refine ⟨n, hn, ?_⟩
  rw [← he]
  unfold mi_bchunk_bfield
  rw [List.getD_eq_getElem?_getD, List.getElem?_eq_getElem hn]
  rfl

theorem mi_chunk_shrinks_bounds (c c1 : Bchunk) (h : mi_chunk_shrinks c c1)
    (hbnd : ∀ b ∈ c, b < 2 ^ 64) : ∀ b ∈ c1, b < 2 ^ 64 := by
  intro b hb
  obtain ⟨g, hg, he⟩ := mi_mem_bfield c1 b hb
  rw [he]
  rcases h.2 g with h' | ⟨m, hm⟩
  · rw [h']
    exact mi_bchunk_bfield_lt c hbnd g
  · rw [hm]
    exact Nat.lt_of_le_of_lt (Nat.and_le_left) (mi_bchunk_bfield_lt c hbnd g)

theorem mi_lor_bit_true (b o : Nat) : (b ||| 1 <<< o).testBit o = true := by
  rw [Nat.testBit_or]
  have h1 : (1 <<< o).testBit o = true := by
    rw [Nat.testBit_shiftLeft]
    simp
  rw [h1]
  simp

theorem mi_shift_bit_ne (o j : Nat) (hne : j ≠ o) : (1 <<< o).testBit j = false := by
  rw [Nat.shiftLeft_eq, Nat.one_mul]
  exact Nat.testBit_two_pow_of_ne (fun h => hne h.symm)

theorem mi_cmapbit_set_true (cm : Bchunk) (ci : Nat) (hlt : ci / 64 < cm.length) :
    (mi_bchunk_bfield (mi_bchunk_set cm ci).1 (ci / 64)).testBit (ci % 64) = true := by
  show (mi_bchunk_bfield (cm.set (ci / 64)
    (mi_bchunk_bfield cm (ci / 64) ||| 1 <<< (ci % 64))) (ci / 64)).testBit (ci % 64) = true
  rw [mi_bchunk_bfield_set_self cm _ _ hlt]
  exact mi_lor_bit_true _ _

theorem mi_cmapbit_set_mono (cm : Bchunk) (ci i : Nat)
    (h : (mi_bchunk_bfield cm (i / 64)).testBit (i % 64) = true) :
    (mi_bchunk_bfield (mi_bchunk_set cm ci).1 (i / 64)).testBit (i % 64) = true := by
  show (mi_bchunk_bfield (cm.set (ci / 64)
    (mi_bchunk_bfield cm (ci / 64) ||| 1 <<< (ci % 64))) (i / 64)).testBit (i % 64) = true
  by_cases hlt : ci / 64 < cm.length
  · by_cases hf : ci / 64 = i / 64
    · rw [← hf] at h ⊢
      rw [mi_bchunk_bfield_set_self cm _ _ hlt, Nat.testBit_or, h]
      simp
    · rw [mi_bchunk_bfield_set_ne cm _ _ _ hf]
      exact h
  · rw [List.set_eq_of_length_le (Nat.le_of_not_lt hlt)]
    exact h

theorem mi_cmapbit_clear_ne (cm : Bchunk) (ci i : Nat) (hne : i ≠ ci) :
    (mi_bchunk_bfield (mi_bchunk_clear cm ci).1 (i / 64)).testBit (i % 64) =
      (mi_bchunk_bfield cm (i / 64)).testBit (i % 64) := by
  show (mi_bchunk_bfield (cm.set (ci / 64)
      (mi_bchunk_bfield cm (ci / 64) &&& bnot64 (1 <<< (ci % 64)))) (i / 64)).testBit (i % 64) =
    (mi_bchunk_bfield cm (i / 64)).testBit (i % 64)
  by_cases hlt : ci / 64 < cm.length
  · by_cases hf : ci / 64 = i / 64
    · rw [← hf]
      rw [mi_bchunk_bfield_set_self cm _ _ hlt]
      rw [Nat.testBit_and, bnot64_testBit _ _ (Nat.mod_lt _ (by omega))]
      have hmod : i % 64 ≠ ci % 64 := by omega
      rw [mi_shift_bit_ne _ _ hmod]
      simp
    · rw [mi_bchunk_bfield_set_ne cm _ _ _ hf]
  · rw [List.set_eq_of_length_le (Nat.le_of_not_lt hlt)]

theorem mi_set_max_chunks (bm : Bitmap) (ci : Nat) :
    (mi_bitmap_chunkmap_set_max bm ci).chunks = bm.chunks := by
  unfold mi_bitmap_chunkmap_set_max
  split <;> rfl

theorem mi_set_max_chunkmap (bm : Bitmap) (ci : Nat) :
    (mi_bitmap_chunkmap_set_max bm ci).chunkmap = bm.chunkmap := by
  unfold mi_bitmap_chunkmap_set_max
  split <;> rfl

theorem mi_set_max_count (bm : Bitmap) (ci : Nat) :
    (mi_bitmap_chunkmap_set_max bm ci).chunk_count = bm.chunk_count := by
  unfold mi_bitmap_chunkmap_set_max
  split <;> rfl

theorem mi_try_clear_mask_succ (b mask : Nat)
    (h : (mi_bfield_atomic_try_clear_mask b mask).2.1 = true) :
    b &&& mask = mask ∧
    (mi_bfield_atomic_try_clear_mask b mask).1 = b &&& bnot64 mask := by
  unfold mi_bfield_atomic_try_clear_mask at h ⊢
  by_cases hc : (b &&& mask != mask) = true
  · rw [if_pos hc] at h
    simp at h
  · rw [if_neg hc] at h
    rw [if_neg hc]
    constructor
    · simpa [bne_iff_ne] using hc
    · rfl

theorem mi_tfac_at_shrink (c : Bchunk) (i : Nat) (allow : Bool) (c' : Bchunk)
    (o : Option Nat) (h : mi_bchunk_try_find_and_clear_at c i allow = (c', o)) :
    mi_chunk_shrinks c c' := by
  cases o with
  | none =>
    rw [mi_tfac_at_none c i allow c' h]
    exact mi_chunk_shrinks_refl c
  | some idx =>
    simp only [mi_bchunk_try_find_and_clear_at] at h
    split at h
    · injection h with h1 h2
      exact Option.noConfusion h2
    · split at h
      next cidx heq =>
        split at h
        next hsucc =>
          injection h with h1 h2
          obtain ⟨hm1, hm2⟩ := mi_try_clear_succ (mi_bchunk_bfield c i) cidx hsucc
          rw [← h1, hm2]
          exact mi_chunk_shrinks_set_and c i (bnot64 (1 <<< cidx))
        next =>
          injection h with h1 h2
          exact Option.noConfusion h2
      next x heq =>
        injection h with h1 h2
        exact Option.noConfusion h2

theorem mi_tfac_pass_shrink (allow : Bool) :
    ∀ (lst : List Nat) (c c' : Bchunk) (o : Option Nat),
      mi_bchunk_tfac_pass allow c lst = (c', o) → mi_chunk_shrinks c c' := by
  intro lst
  induction lst with
  | nil =>
    intro c c' o h
    injection h with h1 _
    rw [← h1]
    exact mi_chunk_shrinks_refl c
  | cons i rest ih =>
    intro c c' o h
    rw [mi_tfac_pass_cons] at h
    split at h
    next ca ja heq =>
      injection h with h1 h2
      rw [← h1]
      exact mi_tfac_at_shrink c i allow ca (some ja) heq
    next => exact ih c c' o h

theorem mi_tfac_shrink (c c' : Bchunk) (o : Option Nat)
    (h : mi_bchunk_try_find_and_clear c = (c', o)) : mi_chunk_shrinks c c' := by
  unfold mi_bchunk_try_find_and_clear at h
  split at h
  next ca ja heq =>
    injection h with h1 h2
    rw [← h1]
    exact mi_tfac_pass_shrink false (List.range 8) c ca (some ja) heq
  next => exact mi_tfac_pass_shrink true (List.range 8) c c' o h

theorem mi_tfac8_at_shrink (c : Bchunk) (i : Nat) (allow : Bool) (c' : Bchunk)
    (o : Option Nat) (h : mi_bchunk_try_find_and_clear8_at c i allow = (c', o)) :
    mi_chunk_shrinks c c' := by
  rcases hfl : mi_bfield_find_least_bit (mi_has_set8 (mi_bchunk_bfield c i))
    with ⟨found, idx⟩
  have h2 : (if !allow && bnot64 (mi_bchunk_bfield c i) == 0 then
        ((c, none) : Bchunk × Option Nat)
      else
        match (found, idx) with
        | (true, j) =>
          let byte_idx := j / 8
          let r := mi_bfield_atomic_try_clear8 (mi_bchunk_bfield c i) byte_idx
          if r.2.1 then (c.set i r.1, some (i * 64 + j)) else (c, none)
        | (false, _) => (c, none)) = (c', o) := by
    rw [← hfl]
    exact h
  clear h hfl
  cases found with
  | false =>
    split at h2
    · injection h2 with h1 _
      rw [← h1]
      exact mi_chunk_shrinks_refl c
    · injection h2 with h1 _
      rw [← h1]
      exact mi_chunk_shrinks_refl c
  | true =>
    split at h2
    · injection h2 with h1 _
      rw [← h1]
      exact mi_chunk_shrinks_refl c
    · have h3 : (if (mi_bfield_atomic_try_clear8 (mi_bchunk_bfield c i) (idx / 8)).2.1 then
          ((c.set i (mi_bfield_atomic_try_clear8 (mi_bchunk_bfield c i) (idx / 8)).1,
            some (i * 64 + idx)) : Bchunk × Option Nat)
          else (c, none)) = (c', o) := h2
      clear h2
      split at h3
      next hsucc =>
        injection h3 with h1 _
        obtain ⟨hm1, hm2⟩ :=
          mi_try_clear_mask_succ (mi_bchunk_bfield c i) (0xFF <<< (idx / 8 * 8)) hsucc
        have hm2' : (mi_bfield_atomic_try_clear8 (mi_bchunk_bfield c i) (idx / 8)).1 =
            mi_bchunk_bfield c i &&& bnot64 (0xFF <<< (idx / 8 * 8)) := hm2
        rw [← h1, hm2']
        exact mi_chunk_shrinks_set_and c i (bnot64 (0xFF <<< (idx / 8 * 8)))
      next =>
        injection h3 with h1 _
        rw [← h1]
        exact mi_chunk_shrinks_refl c

theorem mi_tfac8_pass_shrink (allow : Bool) :
    ∀ (lst : List Nat) (c c' : Bchunk) (o : Option Nat),
      mi_bchunk_tfac8_pass allow c lst = (c', o) → mi_chunk_shrinks c c' := by
  intro lst
  induction lst with
  | nil =>
    intro c c' o h
    injection h with h1 _
    rw [← h1]
    exact mi_chunk_shrinks_refl c
  | cons i rest ih =>
    intro c c' o h
    have hcons : mi_bchunk_tfac8_pass allow c (i :: rest) =
        match mi_bchunk_try_find_and_clear8_at c i allow with
        | (c', some idx) => (c', some idx)
        | (_, none) => mi_bchunk_tfac8_pass allow c rest := rfl
    rw [hcons] at h
    split at h
    next ca ja heq =>
      injection h with h1 h2
      rw [← h1]
      exact mi_tfac8_at_shrink c i allow ca (some ja) heq
    next => exact ih c c' o h

theorem mi_tfac8_shrink (c c' : Bchunk) (o : Option Nat)
    (h : mi_bchunk_try_find_and_clear8 c = (c', o)) : mi_chunk_shrinks c c' := by
  unfold mi_bchunk_try_find_and_clear8 at h
  split at h
  next ca ja heq =>
    injection h with h1 h2
    rw [← h1]
    exact mi_tfac8_pass_shrink false (List.range 8) c ca (some ja) heq
  next => exact mi_tfac8_pass_shrink true (List.range 8) c c' o h

theorem mi_try_clearX_succ (b : Nat) (h : (mi_bfield_atomic_try_clearX b).2 = true) :
    (mi_bfield_atomic_try_clearX b).1 = 0 := by
  unfold mi_bfield_atomic_try_clearX at h ⊢
  by_cases hc : (b == mi_bfield_all_set) = true
  · rw [if_pos hc]
  · rw [if_neg hc] at h
    simp at h

theorem mi_tfacX_go_shrink :
    ∀ (lst : List Nat) (c c' : Bchunk) (o : Option Nat),
      mi_bchunk_tfacX_go c lst = (c', o) → mi_chunk_shrinks c c' := by
  intro lst
  induction lst with
  | nil =>
    intro c c' o h
    injection h with h1 _
    rw [← h1]
    exact mi_chunk_shrinks_refl c
  | cons i rest ih =>
    intro c c' o h
    simp only [mi_bchunk_tfacX_go] at h
    split at h
    · split at h
      next hsucc =>
        injection h with h1 h2
        rw [← h1, mi_try_clearX_succ _ hsucc,
          show (0 : Nat) = mi_bchunk_bfield c i &&& 0 from (Nat.and_zero _).symm]
        exact mi_chunk_shrinks_set_and c i 0
      next => exact ih c c' o h
    · exact ih c c' o h

theorem mi_tfacX_shrink (c c' : Bchunk) (o : Option Nat)
    (h : mi_bchunk_try_find_and_clearX c = (c', o)) : mi_chunk_shrinks c c' :=
  mi_tfacX_go_shrink (List.range 8) c c' o h

theorem mi_tfacNX_inner_shrink (i n mask : Nat) :
    ∀ (fuel : Nat) (c : Bchunk) (b bshift : Nat) (c' : Bchunk) (o : Option Nat),
      mi_bchunk_tfacNX_inner i n mask fuel c b bshift = (c', o) →
      mi_chunk_shrinks c c' := by
  intro fuel
  induction fuel with
  | zero =>
    intro c b bshift c' o h
    injection h with h1 _
    rw [← h1]
    exact mi_chunk_shrinks_refl c
  | succ f ih =>
    intro c b bshift c' o h
    rcases hfl : mi_bfield_find_least_bit b with ⟨found, idx⟩
    have h2 : (match (found, idx) with
        | (false, _) => ((c, none) : Bchunk × Option Nat)
        | (true, idx) =>
          let b1 := b >>> idx
          let bshift1 := bshift + idx
          if 64 < bshift1 + n then (c, none)
          else if b1 &&& mask == mask then
            let r := mi_bfield_atomic_try_clear_mask (mi_bchunk_bfield c i) (mask <<< bshift1)
            if r.2.1 then (c.set i r.1, some (i * 64 + bshift1))
            else mi_bchunk_tfacNX_inner i n mask f c (mi_bchunk_bfield c i >>> bshift) bshift
          else
            let ones := mi_bfield_ctz (bnot64 b1)
            mi_bchunk_tfacNX_inner i n mask f c (b1 >>> ones) (bshift1 + ones)) = (c', o) := by
      rw [← hfl]
      exact h
    clear h hfl
    cases found with
    | false =>
      injection h2 with h1 _
      rw [← h1]
      exact mi_chunk_shrinks_refl c
    | true =>
      have h3 : (if 64 < bshift + idx + n then ((c, none) : Bchunk × Option Nat)
          else if (b >>> idx) &&& mask == mask then
            (if (mi_bfield_atomic_try_clear_mask (mi_bchunk_bfield c i)
                (mask <<< (bshift + idx))).2.1 then
              (c.set i (mi_bfield_atomic_try_clear_mask (mi_bchunk_bfield c i)
                (mask <<< (bshift + idx))).1, some (i * 64 + (bshift + idx)))
            else mi_bchunk_tfacNX_inner i n mask f c (mi_bchunk_bfield c i >>> bshift) bshift)
          else
            mi_bchunk_tfacNX_inner i n mask f c
              ((b >>> idx) >>> mi_bfield_ctz (bnot64 (b >>> idx)))
              (bshift + idx + mi_bfield_ctz (bnot64 (b >>> idx)))) = (c', o) := h2
      clear h2
      split at h3
      · injection h3 with h1 _
        rw [← h1]
        exact mi_chunk_shrinks_refl c
      · split at h3
        · split at h3
          next hsucc =>
            injection h3 with h1 _
            obtain ⟨hm1, hm2⟩ := mi_try_clear_mask_succ (mi_bchunk_bfield c i)
              (mask <<< (bshift + idx)) hsucc
            rw [← h1, hm2]
            exact mi_chunk_shrinks_set_and c i (bnot64 (mask <<< (bshift + idx)))
          next => exact ih c _ _ c' o h3
        · exact ih c _ _ c' o h3

theorem mi_tfacNX_go_shrink (n mask : Nat) :
    ∀ (lst : List Nat) (c c' : Bchunk) (o : Option Nat),
      mi_bchunk_tfacNX_go n mask c lst = (c', o) → mi_chunk_shrinks c c' := by
  intro lst
  induction lst with
  | nil =>
    intro c c' o h
    injection h with h1 _
    rw [← h1]
    exact mi_chunk_shrinks_refl c
  | cons i rest ih =>
    intro c c' o h
    have hcons : mi_bchunk_tfacNX_go n mask c (i :: rest) =
        match mi_bchunk_tfacNX_inner i n mask 200 c (mi_bchunk_bfield c i) 0 with
        | (c', some idx) => (c', some idx)
        | (_, none) => mi_bchunk_tfacNX_go n mask c rest := rfl
    rw [hcons] at h
    split at h
    next ca ja heq =>
      injection h with h1 h2
      rw [← h1]
      exact mi_tfacNX_inner_shrink i n mask 200 c _ _ ca (some ja) heq
    next => exact ih c c' o h

theorem mi_tfacNX_shrink (c : Bchunk) (n : Nat) (c' : Bchunk) (o : Option Nat)
    (h : mi_bchunk_try_find_and_clearNX c n = (c', o)) : mi_chunk_shrinks c c' := by
  unfold mi_bchunk_try_find_and_clearNX at h
  split at h
  · injection h with h1 _
    rw [← h1]
    exact mi_chunk_shrinks_refl c
  · exact mi_tfacNX_go_shrink n (mi_bfield_mask n 0) (List.range 8) c c' o h

theorem mi_xsetN_go_clear_shrink :
    ∀ (fuel : Nat) (c : Bchunk) (idx field n acc : Nat) (all : Bool),
      mi_chunk_shrinks c (mi_bchunk_xsetN_go false fuel c idx field n acc all).1 := by
  intro fuel
  induction fuel with
  | zero =>
    intro c idx field n acc all
    exact mi_chunk_shrinks_refl c
  | succ f ih =>
    intro c idx field n acc all
    by_cases hn : n = 0
    · have he : mi_bchunk_xsetN_go false (f + 1) c idx field n acc all = (c, all, acc) := by
        simp only [mi_bchunk_xsetN_go]
        rw [if_pos hn]
      rw [he]
      exact mi_chunk_shrinks_refl c
    · have he : mi_bchunk_xsetN_go false (f + 1) c idx field n acc all =
          mi_bchunk_xsetN_go false f
            (c.set field (mi_bchunk_bfield c field &&&
              bnot64 (mi_bfield_mask (min (64 - idx) n) idx)))
            0 (field + 1) (n - min (64 - idx) n)
            (acc + mi_bfield_popcount (bnot64 (mi_bchunk_bfield c field &&&
              mi_bfield_mask (min (64 - idx) n) idx)))
            (all && (mi_bchunk_bfield c field &&& mi_bfield_mask (min (64 - idx) n) idx ==
              mi_bfield_mask (min (64 - idx) n) idx)) := by
        simp only [mi_bchunk_xsetN_go]
        rw [if_neg hn]
        rfl
      rw [he]
      exact mi_chunk_shrinks_trans _ _ _
        (mi_chunk_shrinks_set_and c field (bnot64 (mi_bfield_mask (min (64 - idx) n) idx)))
        (ih _ 0 (field + 1) (n - min (64 - idx) n) _ _)

theorem mi_try_xsetN_go_clear_shrink (ms sf : Nat) :
    ∀ (fuel : Nat) (c : Bchunk) (field n mask_mid : Nat) (maybe : Bool),
      (mi_bchunk_try_xsetN_go false ms sf fuel c field n mask_mid maybe).2.1 = true →
      mi_chunk_shrinks c (mi_bchunk_try_xsetN_go false ms sf fuel c field n mask_mid maybe).1 := by
  intro fuel
  induction fuel with
  | zero =>
    intro c field n mask_mid maybe _
    exact mi_chunk_shrinks_refl c
  | succ f ih =>
    intro c field n mask_mid maybe hs
    rw [mi_try_xsetN_go_succ_eq] at hs ⊢
    by_cases h64 : 64 ≤ n
    · rw [if_pos h64] at hs ⊢
      by_cases hr : (mi_bfield_atomic_try_xset_mask false (mi_bchunk_bfield c (field + 1))
          mi_bfield_all_set).2.1 = true
      · rw [if_pos hr] at hs ⊢
        obtain ⟨hm1, hm2⟩ := mi_try_xset_mask_succ false _ _ hr
        have hm2' : (mi_bfield_atomic_try_xset_mask false (mi_bchunk_bfield c (field + 1))
            mi_bfield_all_set).1 =
            mi_bchunk_bfield c (field + 1) &&& bnot64 mi_bfield_all_set := hm2
        refine mi_chunk_shrinks_trans _ _ _ ?_ (ih _ (field + 1) (n - 64) _ _ hs)
        rw [hm2']
        exact mi_chunk_shrinks_set_and c (field + 1) (bnot64 mi_bfield_all_set)
      · rw [if_neg hr] at hs
        exact Bool.noConfusion hs
    · rw [if_neg h64] at hs ⊢
      by_cases hn0 : n = 0
      · rw [if_pos hn0] at hs ⊢
        exact mi_chunk_shrinks_refl c
      · rw [if_neg hn0] at hs ⊢
        by_cases hr : (mi_bfield_atomic_try_xset_mask false (mi_bchunk_bfield c (field + 1))
            (mi_bfield_mask n 0)).2.1 = true
        · rw [if_pos hr] at hs ⊢
          obtain ⟨hm1, hm2⟩ := mi_try_xset_mask_succ false _ _ hr
          have hm2' : (mi_bfield_atomic_try_xset_mask false (mi_bchunk_bfield c (field + 1))
              (mi_bfield_mask n 0)).1 =
              mi_bchunk_bfield c (field + 1) &&& bnot64 (mi_bfield_mask n 0) := hm2
          show mi_chunk_shrinks c (c.set (field + 1)
            (mi_bfield_atomic_try_xset_mask false (mi_bchunk_bfield c (field + 1))
              (mi_bfield_mask n 0)).1)
          rw [hm2']
          exact mi_chunk_shrinks_set_and c (field + 1) (bnot64 (mi_bfield_mask n 0))
        · rw [if_neg hr] at hs
          exact Bool.noConfusion hs

theorem mi_try_clearN_succ_shrink (c : Bchunk) (cidx n : Nat)
    (h : (mi_bchunk_try_clearN c cidx n).2.1 = true) :
    mi_chunk_shrinks c (mi_bchunk_try_clearN c cidx n).1 := by
  by_cases hn0 : n = 0
  · subst hn0
    exact mi_chunk_shrinks_refl c
  · have heq : mi_bchunk_try_clearN c cidx n =
        (if (mi_bfield_atomic_try_xset_mask false (mi_bchunk_bfield c (cidx / 64))
            (mi_bfield_mask (min (64 - cidx % 64) n) (cidx % 64))).2.1 then
          mi_bchunk_try_xsetN_go false
            (mi_bfield_mask (min (64 - cidx % 64) n) (cidx % 64)) (cidx / 64) n
            (c.set (cidx / 64)
              (mi_bfield_atomic_try_xset_mask false (mi_bchunk_bfield c (cidx / 64))
                (mi_bfield_mask (min (64 - cidx % 64) n) (cidx % 64))).1)
            (cidx / 64) (n - min (64 - cidx % 64) n) 0
            (mi_bfield_atomic_try_xset_mask false (mi_bchunk_bfield c (cidx / 64))
              (mi_bfield_mask (min (64 - cidx % 64) n) (cidx % 64))).2.2
        else (c, false, some false)) := by
      unfold mi_bchunk_try_clearN mi_bchunk_try_xsetN
      rw [if_neg hn0]
    rw [heq] at h ⊢
    by_cases hr : (mi_bfield_atomic_try_xset_mask false (mi_bchunk_bfield c (cidx / 64))
        (mi_bfield_mask (min (64 - cidx % 64) n) (cidx % 64))).2.1 = true
    · rw [if_pos hr] at h ⊢
      obtain ⟨hm1, hm2⟩ := mi_try_xset_mask_succ false _ _ hr
      have hm2' : (mi_bfield_atomic_try_xset_mask false (mi_bchunk_bfield c (cidx / 64))
          (mi_bfield_mask (min (64 - cidx % 64) n) (cidx % 64))).1 =
          mi_bchunk_bfield c (cidx / 64) &&&
            bnot64 (mi_bfield_mask (min (64 - cidx % 64) n) (cidx % 64)) := hm2
      refine mi_chunk_shrinks_trans _ _ _ ?_
        (mi_try_xsetN_go_clear_shrink _ _ n _ _ _ _ _ h)
      rw [hm2']
      exact mi_chunk_shrinks_set_and c (cidx / 64)
        (bnot64 (mi_bfield_mask (min (64 - cidx % 64) n) (cidx % 64)))
    · rw [if_neg hr] at h
      exact Bool.noConfusion h

theorem mi_tfacN_go_shrink (n field_count : Nat) (hn : n ≠ 0)
    (hle : n ≤ field_count * 64) :
    ∀ (fuel : Nat) (c : Bchunk), c.length = 8 → (∀ b ∈ c, b < 2 ^ 64) →
      ∀ (i : Nat) (c' : Bchunk) (o : Option Nat),
        mi_bchunk_tfacN_go n field_count fuel c i = (c', o) → mi_chunk_shrinks c c' := by
  intro fuel
  induction fuel with
  | zero =>
    intro c hlen hbnd i c' o h
    injection h with h1 _
    rw [← h1]
    exact mi_chunk_shrinks_refl c
  | succ f ih =>
    intro c hlen hbnd i c' o h
    rcases hps : mi_bchunk_tfacN_prescan c i field_count (field_count + 1) 0 n
      with ⟨allset, j⟩
    have h2 : (if 8 < i + field_count then ((c, none) : Bchunk × Option Nat)
        else
          match (allset, j) with
          | (true, _) =>
            let cidx := i * 64
            let r := mi_bchunk_try_clearN c cidx n
            if r.2.1 then (r.1, some cidx)
            else mi_bchunk_tfacN_go n field_count f r.1 (i + 1)
          | (false, j) => mi_bchunk_tfacN_go n field_count f c (i + j + 1)) = (c', o) := by
      rw [← hps]
      exact h
    clear h hps
    split at h2
    · injection h2 with h1 _
      rw [← h1]
      exact mi_chunk_shrinks_refl c
    next hge =>
      cases allset with
      | false => exact ih c hlen hbnd (i + j + 1) c' o h2
      | true =>
        have h3 : (if (mi_bchunk_try_clearN c (i * 64) n).2.1 then
            (((mi_bchunk_try_clearN c (i * 64) n).1, some (i * 64)) : Bchunk × Option Nat)
            else mi_bchunk_tfacN_go n field_count f
              (mi_bchunk_try_clearN c (i * 64) n).1 (i + 1)) = (c', o) := h2
        clear h2
        split at h3
        next hr =>
          injection h3 with h1 _
          rw [← h1]
          exact mi_try_clearN_succ_shrink c (i * 64) n hr
        next hr =>
          have hfail : (mi_bchunk_try_clearN c (i * 64) n).2.1 = false := by
            cases hx : (mi_bchunk_try_clearN c (i * 64) n).2.1
            · rfl
            · exact absurd hx hr
          have hbound : i * 64 + n ≤ 512 := by
            have : i + field_count ≤ 8 := Nat.le_of_not_lt hge
            omega
          have hunch : (mi_bchunk_try_clearN c (i * 64) n).1 = c :=
            (mi_try_xsetN_all_or_nothing false c (i * 64) n hlen hbnd hbound).1 hfail
          rw [hunch] at h3
          exact ih c hlen hbnd (i + 1) c' o h3

theorem mi_tfacN_shrink (c : Bchunk) (n : Nat) (hlen : c.length = 8)
    (hbnd : ∀ b ∈ c, b < 2 ^ 64) (c' : Bchunk) (o : Option Nat)
    (h : mi_bchunk_try_find_and_clearN_ c n = (c', o)) : mi_chunk_shrinks c c' := by
  unfold mi_bchunk_try_find_and_clearN_ at h
  split at h
  · injection h with h1 _
    rw [← h1]
    exact mi_chunk_shrinks_refl c
  next hguard =>
    have hn0 : n ≠ 0 := by
      intro hx
      exact hguard (by simp [hx])
    have hle : n ≤ mi_divide_up n 64 * 64 := by
      unfold mi_divide_up
      omega
    exact mi_tfacN_go_shrink n (mi_divide_up n 64) hn0 hle 16 c hlen hbnd 0 c' o h

theorem mi_chunks_getD_set_ne (cs : List Bchunk) (v : Bchunk) (i j : Nat) (h : i ≠ j) :
    (cs.set i v).getD j [] = cs.getD j [] := by
  simp [List.getD_eq_getElem?_getD, List.getElem?_set_ne h]

theorem mi_set_max_I2 (bm : Bitmap) (ci : Nat) (h : mi_bitmap_I2 bm) :
    mi_bitmap_I2 (mi_bitmap_chunkmap_set_max bm ci) := by
  intro i hi hclear
  have hi' : i < bm.chunk_count := by
    rw [mi_set_max_count] at hi
    exact hi
  have hclear' : mi_bchunk_all_are_clear (mi_bitmap_chunk bm i) = false := by
    unfold mi_bitmap_chunk at hclear ⊢
    rw [mi_set_max_chunks] at hclear
    exact hclear
  have hres := h i hi' hclear'
  unfold mi_bitmap_cmapBit at hres ⊢
  rw [mi_set_max_chunkmap]
  exact hres

theorem mi_chunk_replace_I2 (bm : Bitmap) (ci : Nat) (c1 : Bchunk)
    (hI2 : mi_bitmap_I2 bm)
    (hsub : mi_bchunk_all_are_clear c1 = false →
      mi_bchunk_all_are_clear (mi_bitmap_chunk bm ci) = false) :
    mi_bitmap_I2 { bm with chunks := bm.chunks.set ci c1 } := by
  intro i hi hclear
  have hi' : i < bm.chunk_count := hi
  show mi_bitmap_cmapBit bm i = true
  by_cases hci : i = ci
  · subst hci
    by_cases hlt : i < bm.chunks.length
    · have hch : mi_bitmap_chunk { bm with chunks := bm.chunks.set i c1 } i = c1 := by
        unfold mi_bitmap_chunk
        exact mi_chunks_getD_set_self bm.chunks c1 i hlt
      rw [hch] at hclear
      exact hI2 i hi' (hsub hclear)
    · have hch : mi_bitmap_chunk { bm with chunks := bm.chunks.set i c1 } i =
          mi_bitmap_chunk bm i := by
        unfold mi_bitmap_chunk
        show (bm.chunks.set i c1).getD i [] = bm.chunks.getD i []
        rw [List.set_eq_of_length_le (Nat.le_of_not_lt hlt)]
      rw [hch] at hclear
      exact hI2 i hi' hclear
  · have hch : mi_bitmap_chunk { bm with chunks := bm.chunks.set ci c1 } i =
        mi_bitmap_chunk bm i := by
      unfold mi_bitmap_chunk
      exact mi_chunks_getD_set_ne bm.chunks c1 ci i (fun h => hci h.symm)
    rw [hch] at hclear
    exact hI2 i hi' hclear

theorem mi_cmap_clear_I2 (bm : Bitmap) (ci : Nat) (hI2 : mi_bitmap_I2 bm)
    (hcA : mi_bchunk_all_are_clear (mi_bitmap_chunk bm ci) = true) :
    mi_bitmap_I2 { bm with chunkmap := (mi_bchunk_clear bm.chunkmap ci).1 } := by
  intro i hi hclear
  have hi' : i < bm.chunk_count := hi
  have hclear' : mi_bchunk_all_are_clear (mi_bitmap_chunk bm i) = false := hclear
  show (mi_bchunk_bfield (mi_bchunk_clear bm.chunkmap ci).1 (i / 64)).testBit (i % 64) = true
  by_cases hci : i = ci
  · subst hci
    rw [hcA] at hclear'
    exact Bool.noConfusion hclear'
  · rw [mi_cmapbit_clear_ne bm.chunkmap ci i hci]
    exact hI2 i hi' hclear'

theorem mi_cmap_try_clear_I2 (bm : Bitmap) (ci : Nat) (hI2 : mi_bitmap_I2 bm) :
    mi_bitmap_I2 (mi_bitmap_chunkmap_try_clear bm ci).1 := by
  unfold mi_bitmap_chunkmap_try_clear
  by_cases hc : (!mi_bchunk_all_are_clear_relaxed (mi_bitmap_chunk bm ci)) = true
  · rw [if_pos hc]
    exact hI2
  · rw [if_neg hc]
    have hcA : mi_bchunk_all_are_clear (mi_bitmap_chunk bm ci) = true := by
      cases hx : mi_bchunk_all_are_clear (mi_bitmap_chunk bm ci)
      · exfalso
        apply hc
        show (!mi_bchunk_all_are_clear_relaxed (mi_bitmap_chunk bm ci)) = true
        unfold mi_bchunk_all_are_clear_relaxed
        rw [hx]
        rfl
      · rfl
    have hc2 : ¬((!mi_bchunk_all_are_clear_relaxed
        (mi_bitmap_chunk { bm with chunkmap := (mi_bchunk_clear bm.chunkmap ci).1 } ci))
          = true) := hc
    rw [if_neg hc2]
    exact mi_set_max_I2 _ ci (mi_cmap_clear_I2 bm ci hI2 hcA)

theorem mi_chunkmap_set_I2 (bm : Bitmap) (ci : Nat) (c1 : Bchunk)
    (hwf : bm.chunkmap.length = 8) (hcnt : bm.chunk_count ≤ 512) (hI2 : mi_bitmap_I2 bm) :
    mi_bitmap_I2 (mi_bitmap_chunkmap_set { bm with chunks := bm.chunks.set ci c1 } ci) := by
  unfold mi_bitmap_chunkmap_set
  apply mi_set_max_I2
  intro i hi hclear
  have hi' : i < bm.chunk_count := hi
  show (mi_bchunk_bfield (mi_bchunk_set bm.chunkmap ci).1 (i / 64)).testBit (i % 64) = true
  by_cases hci : i = ci
  · subst hci
    apply mi_cmapbit_set_true
    rw [hwf]
    omega
  · apply mi_cmapbit_set_mono
    have hclear' : mi_bchunk_all_are_clear (mi_bitmap_chunk bm i) = false := by
      have hch : (bm.chunks.set ci c1).getD i [] = bm.chunks.getD i [] :=
        mi_chunks_getD_set_ne bm.chunks c1 ci i (fun h => hci h.symm)
      have hclear0 : mi_bchunk_all_are_clear ((bm.chunks.set ci c1).getD i []) = false :=
        hclear
      rw [hch] at hclear0
      exact hclear0
    exact hI2 i hi' hclear'

theorem mi_cmap_try_clear_chunks (bm : Bitmap) (ci : Nat) :
    (mi_bitmap_chunkmap_try_clear bm ci).1.chunks = bm.chunks := by
  unfold mi_bitmap_chunkmap_try_clear
  by_cases hc : (!mi_bchunk_all_are_clear_relaxed (mi_bitmap_chunk bm ci)) = true
  · rw [if_pos hc]
  · rw [if_neg hc]
    show (if (!mi_bchunk_all_are_clear_relaxed
          (mi_bitmap_chunk { bm with chunkmap := (mi_bchunk_clear bm.chunkmap ci).1 }
            ci)) = true then
        (({ bm with chunkmap :=
            (mi_bchunk_set (mi_bchunk_clear bm.chunkmap ci).1 ci).1 } : Bitmap), false)
      else
        (mi_bitmap_chunkmap_set_max
          { bm with chunkmap := (mi_bchunk_clear bm.chunkmap ci).1 } ci, true)).1.chunks =
      bm.chunks
    by_cases hc2 : (!mi_bchunk_all_are_clear_relaxed
        (mi_bitmap_chunk { bm with chunkmap := (mi_bchunk_clear bm.chunkmap ci).1 }
          ci)) = true
    · rw [if_pos hc2]
    · rw [if_neg hc2]
      rw [mi_set_max_chunks]

theorem mi_cmap_try_clear_count (bm : Bitmap) (ci : Nat) :
    (mi_bitmap_chunkmap_try_clear bm ci).1.chunk_count = bm.chunk_count := by
  unfold mi_bitmap_chunkmap_try_clear
  by_cases hc : (!mi_bchunk_all_are_clear_relaxed (mi_bitmap_chunk bm ci)) = true
  · rw [if_pos hc]
  · rw [if_neg hc]
    show (if (!mi_bchunk_all_are_clear_relaxed
          (mi_bitmap_chunk { bm with chunkmap := (mi_bchunk_clear bm.chunkmap ci).1 }
            ci)) = true then
        (({ bm with chunkmap :=
            (mi_bchunk_set (mi_bchunk_clear bm.chunkmap ci).1 ci).1 } : Bitmap), false)
      else
        (mi_bitmap_chunkmap_set_max
          { bm with chunkmap := (mi_bchunk_clear bm.chunkmap ci).1 } ci,
          true)).1.chunk_count =
      bm.chunk_count
    by_cases hc2 : (!mi_bchunk_all_are_clear_relaxed
        (mi_bitmap_chunk { bm with chunkmap := (mi_bchunk_clear bm.chunkmap ci).1 }
          ci)) = true
    · rw [if_pos hc2]
    · rw [if_neg hc2]
      rw [mi_set_max_count]

theorem mi_cmap_try_clear_cmaplen (bm : Bitmap) (ci : Nat) :
    (mi_bitmap_chunkmap_try_clear bm ci).1.chunkmap.length = bm.chunkmap.length := by
  unfold mi_bitmap_chunkmap_try_clear
  by_cases hc : (!mi_bchunk_all_are_clear_relaxed (mi_bitmap_chunk bm ci)) = true
  · rw [if_pos hc]
  · rw [if_neg hc]
    show (if (!mi_bchunk_all_are_clear_relaxed
          (mi_bitmap_chunk { bm with chunkmap := (mi_bchunk_clear bm.chunkmap ci).1 }
            ci)) = true then
        (({ bm with chunkmap :=
            (mi_bchunk_set (mi_bchunk_clear bm.chunkmap ci).1 ci).1 } : Bitmap), false)
      else
        (mi_bitmap_chunkmap_set_max
          { bm with chunkmap := (mi_bchunk_clear bm.chunkmap ci).1 } ci,
          true)).1.chunkmap.length =
      bm.chunkmap.length
    by_cases hc2 : (!mi_bchunk_all_are_clear_relaxed
        (mi_bitmap_chunk { bm with chunkmap := (mi_bchunk_clear bm.chunkmap ci).1 }
          ci)) = true
    · rw [if_pos hc2]
      show ((mi_bchunk_clear bm.chunkmap ci).1.set (ci / 64) _).length = _
      rw [List.length_set]
      show ((bm.chunkmap.set (ci / 64) _).length : Nat) = _
      rw [List.length_set]
    · rw [if_neg hc2]
      rw [mi_set_max_chunkmap]
      show ((bm.chunkmap.set (ci / 64) _).length : Nat) = _
      rw [List.length_set]

theorem mi_cmap_try_clear_wf (bm : Bitmap) (ci : Nat) (h : mi_bitmap_wf bm) :
    mi_bitmap_wf (mi_bitmap_chunkmap_try_clear bm ci).1 := by
  constructor
  · rw [mi_cmap_try_clear_cmaplen]
    exact h.1
  · rw [mi_cmap_try_clear_count]
    exact h.2

theorem mi_chunks_wf_set (bm : Bitmap) (ci : Nat) (c1 : Bchunk)
    (hcwf : mi_bitmap_chunks_wf bm) (hlen1 : c1.length = 8)
    (hbnd1 : ∀ b ∈ c1, b < 2 ^ 64) :
    mi_bitmap_chunks_wf { bm with chunks := bm.chunks.set ci c1 } := by
  intro c hc
  rcases List.mem_or_eq_of_mem_set hc with h1 | h1
  · exact hcwf c h1
  · subst h1
    exact ⟨hlen1, hbnd1⟩

theorem mi_tfac_visit_preserve (try_fn : Bchunk → Nat → Bchunk × Option Nat)
    (hfn : ∀ (c : Bchunk) (n : Nat) (c' : Bchunk) (o : Option Nat),
      c.length = 8 → (∀ b ∈ c, b < 2 ^ 64) → try_fn c n = (c', o) → mi_chunk_shrinks c c')
    (n : Nat) (bm : Bitmap) (ci : Nat)
    (hQ : mi_bitmap_I2 bm ∧ mi_bitmap_wf bm ∧ mi_bitmap_chunks_wf bm) :
    mi_bitmap_I2 (mi_bitmap_try_find_and_clear_visit try_fn bm ci n).1 ∧
    mi_bitmap_wf (mi_bitmap_try_find_and_clear_visit try_fn bm ci n).1 ∧
    mi_bitmap_chunks_wf (mi_bitmap_try_find_and_clear_visit try_fn bm ci n).1 := by
  obtain ⟨hI2, hwf, hcwf⟩ := hQ
  rcases htf : try_fn (mi_bitmap_chunk bm ci) n with ⟨c', o⟩
  cases o with
  | some cidx =>
    have hv : mi_bitmap_try_find_and_clear_visit try_fn bm ci n =
        ({ bm with chunks := bm.chunks.set ci c' }, some (ci * 512 + cidx)) := by
      unfold mi_bitmap_try_find_and_clear_visit
      rw [htf]
    rw [hv]
    by_cases hci : ci < bm.chunks.length
    · have hmem : mi_bitmap_chunk bm ci ∈ bm.chunks := by
        unfold mi_bitmap_chunk
        rw [List.getD_eq_getElem?_getD, List.getElem?_eq_getElem hci]
        simp only [Option.getD_some]
        exact List.getElem_mem hci
      obtain ⟨hlen8, hbnd8⟩ := hcwf _ hmem
      have hshr := hfn _ n c' (some cidx) hlen8 hbnd8 htf
      refine ⟨?_, hwf, ?_⟩
      · exact mi_chunk_replace_I2 bm ci c' hI2 (mi_chunk_shrinks_allclear _ _ hshr)
      · exact mi_chunks_wf_set bm ci c' hcwf (hshr.1.trans hlen8)
          (mi_chunk_shrinks_bounds _ _ hshr hbnd8)
    · have hset : bm.chunks.set ci c' = bm.chunks :=
        List.set_eq_of_length_le (Nat.le_of_not_lt hci)
      rw [hset]
      exact ⟨hI2, hwf, hcwf⟩
  | none =>
    have hv : mi_bitmap_try_find_and_clear_visit try_fn bm ci n =
        ((mi_bitmap_chunkmap_try_clear bm ci).1, none) := by
      unfold mi_bitmap_try_find_and_clear_visit
      rw [htf]
    rw [hv]
    refine ⟨mi_cmap_try_clear_I2 bm ci hI2, mi_cmap_try_clear_wf bm ci hwf, ?_⟩
    intro c hc
    rw [mi_cmap_try_clear_chunks] at hc
    exact hcwf c hc

theorem mi_claim_restore_chunks_eq (bm : Bitmap) (ci : Nat) (c' : Bchunk) (k : Nat)
    (hlen : (mi_bitmap_chunk bm ci).length = 8)
    (hbnd : ∀ b ∈ mi_bitmap_chunk bm ci, b < 2 ^ 64)
    (htf : mi_bchunk_try_find_and_clear (mi_bitmap_chunk bm ci) = (c', some k)) :
    (bm.chunks.set ci c').set ci
      (mi_bchunk_set (mi_bitmap_chunk { bm with chunks := bm.chunks.set ci c' } ci) k).1 =
    bm.chunks := by
  obtain ⟨hdiv, hmask, hc'⟩ := mi_tfac_spec _ hlen hbnd c' k htf
  have hci : ci < bm.chunks.length := mi_bitmap_chunk_idx_lt bm ci hlen
  have hchunk1 : mi_bitmap_chunk { bm with chunks := bm.chunks.set ci c' } ci = c' := by
    unfold mi_bitmap_chunk
    exact mi_chunks_getD_set_self bm.chunks c' ci hci
  rw [hchunk1]
  have hklen : k / 64 < (mi_bitmap_chunk bm ci).length := by
    rw [hlen]
    exact hdiv
  have hbf' : mi_bchunk_bfield c' (k / 64) =
      mi_bchunk_bfield (mi_bitmap_chunk bm ci) (k / 64) &&& bnot64 (1 <<< (k % 64)) := by
    rw [hc']
    exact mi_bchunk_bfield_set_self _ _ _ hklen
  have hset1 : (mi_bchunk_set c' k).1 = c'.set (k / 64)
      (mi_bchunk_bfield c' (k / 64) ||| 1 <<< (k % 64)) := rfl
  have hrestore : mi_bchunk_bfield c' (k / 64) ||| 1 <<< (k % 64) =
      mi_bchunk_bfield (mi_bitmap_chunk bm ci) (k / 64) := by
    rw [hbf']
    exact mi_and_not_lor_cancel _ _ (mi_bchunk_bfield_lt _ hbnd _)
      (mi_one_shiftl_lt _ (Nat.mod_lt _ (by omega))) hmask
  have hsetc : (mi_bchunk_set c' k).1 = mi_bitmap_chunk bm ci := by
    rw [hset1, hrestore, hc', List.set_set]
    exact mi_bchunk_set_bfield_self _ _
  rw [hsetc, List.set_set]
  exact mi_chunks_set_getD_self bm.chunks ci hci

theorem mi_claim_visit_preserve (claimFn : Nat → Bool × Bool) (n : Nat)
    (bm : Bitmap) (ci : Nat)
    (hQ : mi_bitmap_I2 bm ∧ mi_bitmap_wf bm ∧ mi_bitmap_chunks_wf bm) :
    mi_bitmap_I2 (mi_bitmap_try_find_and_claim_visit claimFn bm ci n).1 ∧
    mi_bitmap_wf (mi_bitmap_try_find_and_claim_visit claimFn bm ci n).1 ∧
    mi_bitmap_chunks_wf (mi_bitmap_try_find_and_claim_visit claimFn bm ci n).1 := by
  obtain ⟨hI2, hwf, hcwf⟩ := hQ
  rcases htf : mi_bchunk_try_find_and_clear (mi_bitmap_chunk bm ci) with ⟨c', o⟩
  cases o with
  | none =>
    have hv : mi_bitmap_try_find_and_claim_visit claimFn bm ci n =
        ((mi_bitmap_chunkmap_try_clear bm ci).1, none) := by
      unfold mi_bitmap_try_find_and_claim_visit
      rw [htf]
    rw [hv]
    refine ⟨mi_cmap_try_clear_I2 bm ci hI2, mi_cmap_try_clear_wf bm ci hwf, ?_⟩
    intro c hc
    rw [mi_cmap_try_clear_chunks] at hc
    exact hcwf c hc
  | some cidx =>
    have hshr := mi_tfac_shrink _ c' (some cidx) htf
    have hv : mi_bitmap_try_find_and_claim_visit claimFn bm ci n =
        (if (claimFn (ci * 512 + cidx)).1 = true then
          ({ bm with chunks := bm.chunks.set ci c' }, some (ci * 512 + cidx))
        else if (claimFn (ci * 512 + cidx)).2 = true then
          ({ bm with
              chunks := (bm.chunks.set ci c').set ci
                (mi_bchunk_set
                  (mi_bitmap_chunk { bm with chunks := bm.chunks.set ci c' } ci) cidx).1 },
            none)
        else ({ bm with chunks := bm.chunks.set ci c' }, none)) := by
      unfold mi_bitmap_try_find_and_claim_visit
      rw [htf]
    have hrep : mi_bitmap_I2 { bm with chunks := bm.chunks.set ci c' } ∧
        mi_bitmap_wf { bm with chunks := bm.chunks.set ci c' } ∧
        mi_bitmap_chunks_wf { bm with chunks := bm.chunks.set ci c' } := by
      by_cases hci : ci < bm.chunks.length
      · have hmem : mi_bitmap_chunk bm ci ∈ bm.chunks := by
          unfold mi_bitmap_chunk
          rw [List.getD_eq_getElem?_getD, List.getElem?_eq_getElem hci]
          simp only [Option.getD_some]
          exact List.getElem_mem hci
        obtain ⟨hlen8, hbnd8⟩ := hcwf _ hmem
        refine ⟨?_, hwf, ?_⟩
        · exact mi_chunk_replace_I2 bm ci c' hI2 (mi_chunk_shrinks_allclear _ _ hshr)
        · exact mi_chunks_wf_set bm ci c' hcwf (hshr.1.trans hlen8)
            (mi_chunk_shrinks_bounds _ _ hshr hbnd8)
      · have hset : bm.chunks.set ci c' = bm.chunks :=
          List.set_eq_of_length_le (Nat.le_of_not_lt hci)
        rw [hset]
        exact ⟨hI2, hwf, hcwf⟩
    by_cases hcl1 : (claimFn (ci * 512 + cidx)).1 = true
    · rw [hv, if_pos hcl1]
      exact hrep
    · by_cases hcl2 : (claimFn (ci * 512 + cidx)).2 = true
      · rw [hv, if_neg hcl1, if_pos hcl2]
        by_cases hci : ci < bm.chunks.length
        · have hmem : mi_bitmap_chunk bm ci ∈ bm.chunks := by
            unfold mi_bitmap_chunk
            rw [List.getD_eq_getElem?_getD, List.getElem?_eq_getElem hci]
            simp only [Option.getD_some]
            exact List.getElem_mem hci
          obtain ⟨hlen8, hbnd8⟩ := hcwf _ hmem
          rw [mi_claim_restore_chunks_eq bm ci c' cidx hlen8 hbnd8 htf]
          exact ⟨hI2, hwf, hcwf⟩
        · have hset : bm.chunks.set ci c' = bm.chunks :=
            List.set_eq_of_length_le (Nat.le_of_not_lt hci)
          rw [hset]
          have hset2 : bm.chunks.set ci
              (mi_bchunk_set (mi_bitmap_chunk { bm with chunks := bm.chunks } ci) cidx).1 =
              bm.chunks :=
            List.set_eq_of_length_le (Nat.le_of_not_lt hci)
          rw [hset2]
          exact ⟨hI2, hwf, hcwf⟩
      · rw [hv, if_neg hcl1, if_neg hcl2]
        exact hrep

theorem mi_xset_I2 (set : Bool) (bm : Bitmap) (idx : Nat)
    (hwf : mi_bitmap_wf bm) (hI2 : mi_bitmap_I2 bm) :
    mi_bitmap_I2 (mi_bitmap_xset set bm idx).1 := by
  cases set
  · have he : mi_bitmap_xset false bm idx =
        (if (mi_bchunk_clear (mi_bitmap_chunk bm (idx / 512)) (idx % 512)).2.2 = true then
          ((mi_bitmap_chunkmap_try_clear
            { bm with
                chunks := bm.chunks.set (idx / 512)
                  (mi_bchunk_clear (mi_bitmap_chunk bm (idx / 512)) (idx % 512)).1 }
            (idx / 512)).1,
            (mi_bchunk_clear (mi_bitmap_chunk bm (idx / 512)) (idx % 512)).2.1)
        else ({ bm with
                  chunks := bm.chunks.set (idx / 512)
                    (mi_bchunk_clear (mi_bitmap_chunk bm (idx / 512)) (idx % 512)).1 },
          (mi_bchunk_clear (mi_bitmap_chunk bm (idx / 512)) (idx % 512)).2.1)) := rfl
    rw [he]
    have hsub : mi_bchunk_all_are_clear
        (mi_bchunk_clear (mi_bitmap_chunk bm (idx / 512)) (idx % 512)).1 = false →
        mi_bchunk_all_are_clear (mi_bitmap_chunk bm (idx / 512)) = false := by
      intro h
      refine mi_chunk_shrinks_allclear _ _ ?_ h
      show mi_chunk_shrinks (mi_bitmap_chunk bm (idx / 512))
        ((mi_bitmap_chunk bm (idx / 512)).set (idx % 512 / 64)
          (mi_bchunk_bfield (mi_bitmap_chunk bm (idx / 512)) (idx % 512 / 64) &&&
            bnot64 (1 <<< (idx % 512 % 64))))
      exact mi_chunk_shrinks_set_and _ _ _
    have hrep := mi_chunk_replace_I2 bm (idx / 512) _ hI2 hsub
    by_cases hb : (mi_bchunk_clear (mi_bitmap_chunk bm (idx / 512)) (idx % 512)).2.2 = true
    · rw [if_pos hb]
      exact mi_cmap_try_clear_I2 _ _ hrep
    · rw [if_neg hb]
      exact hrep
  · have he : mi_bitmap_xset true bm idx =
        (mi_bitmap_chunkmap_set { bm with
            chunks := bm.chunks.set (idx / 512)
              (mi_bchunk_set (mi_bitmap_chunk bm (idx / 512)) (idx % 512)).1 } (idx / 512),
          (mi_bchunk_set (mi_bitmap_chunk bm (idx / 512)) (idx % 512)).2) := rfl
    rw [he]
    exact mi_chunkmap_set_I2 bm (idx / 512) _ hwf.1 hwf.2 hI2

theorem mi_xset8_I2 (set : Bool) (bm : Bitmap) (idx : Nat)
    (hwf : mi_bitmap_wf bm) (hI2 : mi_bitmap_I2 bm) :
    mi_bitmap_I2 (mi_bitmap_xset8 set bm idx).1 := by
  cases set
  · have he : mi_bitmap_xset8 false bm idx =
        (if (mi_bchunk_clear8 (mi_bitmap_chunk bm (idx / 512)) (idx % 512 / 8)).2.2 = true then
          ((mi_bitmap_chunkmap_try_clear
            { bm with
                chunks := bm.chunks.set (idx / 512)
                  (mi_bchunk_clear8 (mi_bitmap_chunk bm (idx / 512)) (idx % 512 / 8)).1 }
            (idx / 512)).1,
            (mi_bchunk_clear8 (mi_bitmap_chunk bm (idx / 512)) (idx % 512 / 8)).2.1)
        else ({ bm with
                  chunks := bm.chunks.set (idx / 512)
                    (mi_bchunk_clear8 (mi_bitmap_chunk bm (idx / 512)) (idx % 512 / 8)).1 },
          (mi_bchunk_clear8 (mi_bitmap_chunk bm (idx / 512)) (idx % 512 / 8)).2.1)) := rfl
    rw [he]
    have hsub : mi_bchunk_all_are_clear
        (mi_bchunk_clear8 (mi_bitmap_chunk bm (idx / 512)) (idx % 512 / 8)).1 = false →
        mi_bchunk_all_are_clear (mi_bitmap_chunk bm (idx / 512)) = false := by
      intro h
      refine mi_chunk_shrinks_allclear _ _ ?_ h
      show mi_chunk_shrinks (mi_bitmap_chunk bm (idx / 512))
        ((mi_bitmap_chunk bm (idx / 512)).set (idx % 512 / 8 / 8)
          (mi_bchunk_bfield (mi_bitmap_chunk bm (idx / 512)) (idx % 512 / 8 / 8) &&&
            bnot64 (0xFF <<< (idx % 512 / 8 % 8 * 8))))
      exact mi_chunk_shrinks_set_and _ _ _
    have hrep := mi_chunk_replace_I2 bm (idx / 512) _ hI2 hsub
    by_cases hb : (mi_bchunk_clear8 (mi_bitmap_chunk bm (idx / 512)) (idx % 512 / 8)).2.2 = true
    · rw [if_pos hb]
      exact mi_cmap_try_clear_I2 _ _ hrep
    · rw [if_neg hb]
      exact hrep
  · have he : mi_bitmap_xset8 true bm idx =
        (mi_bitmap_chunkmap_set { bm with
            chunks := bm.chunks.set (idx / 512)
              (mi_bchunk_set8 (mi_bitmap_chunk bm (idx / 512)) (idx % 512 / 8)).1 }
            (idx / 512),
          (mi_bchunk_set8 (mi_bitmap_chunk bm (idx / 512)) (idx % 512 / 8)).2) := rfl
    rw [he]
    exact mi_chunkmap_set_I2 bm (idx / 512) _ hwf.1 hwf.2 hI2

theorem mi_xsetX_I2 (set : Bool) (bm : Bitmap) (idx : Nat)
    (hwf : mi_bitmap_wf bm) (hI2 : mi_bitmap_I2 bm) :
    mi_bitmap_I2 (mi_bitmap_xsetX set bm idx).1 := by
  cases set
  · have he : mi_bitmap_xsetX false bm idx =
        (if (mi_bchunk_clearX (mi_bitmap_chunk bm (idx / 512)) (idx % 512 / 64)).2.2 = true then
          ((mi_bitmap_chunkmap_try_clear
            { bm with
                chunks := bm.chunks.set (idx / 512)
                  (mi_bchunk_clearX (mi_bitmap_chunk bm (idx / 512)) (idx % 512 / 64)).1 }
            (idx / 512)).1,
            (mi_bchunk_clearX (mi_bitmap_chunk bm (idx / 512)) (idx % 512 / 64)).2.1)
        else ({ bm with
                  chunks := bm.chunks.set (idx / 512)
                    (mi_bchunk_clearX (mi_bitmap_chunk bm (idx / 512)) (idx % 512 / 64)).1 },
          (mi_bchunk_clearX (mi_bitmap_chunk bm (idx / 512)) (idx % 512 / 64)).2.1)) := rfl
    rw [he]
    have hsub : mi_bchunk_all_are_clear
        (mi_bchunk_clearX (mi_bitmap_chunk bm (idx / 512)) (idx % 512 / 64)).1 = false →
        mi_bchunk_all_are_clear (mi_bitmap_chunk bm (idx / 512)) = false := by
      intro h
      refine mi_chunk_shrinks_allclear _ _ ?_ h
      show mi_chunk_shrinks (mi_bitmap_chunk bm (idx / 512))
        ((mi_bitmap_chunk bm (idx / 512)).set (idx % 512 / 64) 0)
      rw [show (0 : Nat) = mi_bchunk_bfield (mi_bitmap_chunk bm (idx / 512))
        (idx % 512 / 64) &&& 0 from (Nat.and_zero _).symm]
      exact mi_chunk_shrinks_set_and _ _ _
    have hrep := mi_chunk_replace_I2 bm (idx / 512) _ hI2 hsub
    by_cases hb : (mi_bchunk_clearX (mi_bitmap_chunk bm (idx / 512)) (idx % 512 / 64)).2.2 = true
    · rw [if_pos hb]
      exact mi_cmap_try_clear_I2 _ _ hrep
    · rw [if_neg hb]
      exact hrep
  · have he : mi_bitmap_xsetX true bm idx =
        (mi_bitmap_chunkmap_set { bm with
            chunks := bm.chunks.set (idx / 512)
              (mi_bchunk_setX (mi_bitmap_chunk bm (idx / 512)) (idx % 512 / 64)).1 }
            (idx / 512),
          (mi_bchunk_setX (mi_bitmap_chunk bm (idx / 512)) (idx % 512 / 64)).2) := rfl
    rw [he]
    exact mi_chunkmap_set_I2 bm (idx / 512) _ hwf.1 hwf.2 hI2

theorem mi_xsetN_go_I2 (set : Bool) (bm : Bitmap) (idx n : Nat)
    (hwf : mi_bitmap_wf bm) (hI2 : mi_bitmap_I2 bm) :
    mi_bitmap_I2 (mi_bitmap_xsetN_go set bm idx n).1 := by
  cases set
  · have he : mi_bitmap_xsetN_go false bm idx n =
        ((if (mi_bchunk_clearN (mi_bitmap_chunk bm (idx / 512)) (idx % 512)
            (if 512 < idx % 512 + n then 512 - idx % 512 else n)).2.2 <
            (if 512 < idx % 512 + n then 512 - idx % 512 else n) then
          (mi_bitmap_chunkmap_try_clear
            { bm with
                chunks := bm.chunks.set (idx / 512)
                  (mi_bchunk_clearN (mi_bitmap_chunk bm (idx / 512)) (idx % 512)
                    (if 512 < idx % 512 + n then 512 - idx % 512 else n)).1 }
            (idx / 512)).1
        else { bm with
                chunks := bm.chunks.set (idx / 512)
                  (mi_bchunk_clearN (mi_bitmap_chunk bm (idx / 512)) (idx % 512)
                    (if 512 < idx % 512 + n then 512 - idx % 512 else n)).1 }),
          (mi_bchunk_clearN (mi_bitmap_chunk bm (idx / 512)) (idx % 512)
            (if 512 < idx % 512 + n then 512 - idx % 512 else n)).2.1,
          (mi_bchunk_clearN (mi_bitmap_chunk bm (idx / 512)) (idx % 512)
            (if 512 < idx % 512 + n then 512 - idx % 512 else n)).2.2) := rfl
    rw [he]
    have hsub : mi_bchunk_all_are_clear
        (mi_bchunk_clearN (mi_bitmap_chunk bm (idx / 512)) (idx % 512)
          (if 512 < idx % 512 + n then 512 - idx % 512 else n)).1 = false →
        mi_bchunk_all_are_clear (mi_bitmap_chunk bm (idx / 512)) = false := by
      intro h
      refine mi_chunk_shrinks_allclear _ _ ?_ h
      exact mi_xsetN_go_clear_shrink _ _ _ _ _ _ _
    have hrep := mi_chunk_replace_I2 bm (idx / 512) _ hI2 hsub
    by_cases hb : (mi_bchunk_clearN (mi_bitmap_chunk bm (idx / 512)) (idx % 512)
        (if 512 < idx % 512 + n then 512 - idx % 512 else n)).2.2 <
        (if 512 < idx % 512 + n then 512 - idx % 512 else n)
    · rw [if_pos hb]
      exact mi_cmap_try_clear_I2 _ _ hrep
    · rw [if_neg hb]
      exact hrep
  · have he : mi_bitmap_xsetN_go true bm idx n =
        (mi_bitmap_chunkmap_set { bm with
            chunks := bm.chunks.set (idx / 512)
              (mi_bchunk_setN (mi_bitmap_chunk bm (idx / 512)) (idx % 512)
                (if 512 < idx % 512 + n then 512 - idx % 512 else n)).1 } (idx / 512),
          (mi_bchunk_setN (mi_bitmap_chunk bm (idx / 512)) (idx % 512)
            (if 512 < idx % 512 + n then 512 - idx % 512 else n)).2.1,
          (mi_bchunk_setN (mi_bitmap_chunk bm (idx / 512)) (idx % 512)
            (if 512 < idx % 512 + n then 512 - idx % 512 else n)).2.2) := rfl
    rw [he]
    exact mi_chunkmap_set_I2 bm (idx / 512) _ hwf.1 hwf.2 hI2

theorem mi_xsetN_I2 (set : Bool) (bm : Bitmap) (idx n : Nat)
    (hwf : mi_bitmap_wf bm) (hI2 : mi_bitmap_I2 bm) :
    mi_bitmap_I2 (mi_bitmap_xsetN set bm idx n).1 := by
  unfold mi_bitmap_xsetN
  by_cases h1 : n = 1
  · rw [if_pos h1]
    exact mi_xset_I2 set bm idx hwf hI2
  · rw [if_neg h1]
    by_cases h8 : n = 8
    · rw [if_pos h8]
      exact mi_xset8_I2 set bm idx hwf hI2
    · rw [if_neg h8]
      by_cases h64 : n = 64
      · rw [if_pos h64]
        exact mi_xsetX_I2 set bm idx hwf hI2
      · rw [if_neg h64]
        exact mi_xsetN_go_I2 set bm idx n hwf hI2

theorem mi_tfac_find_I2 (try_fn : Bchunk → Nat → Bchunk × Option Nat)
    (hfn : ∀ (c : Bchunk) (n : Nat) (c' : Bchunk) (o : Option Nat),
      c.length = 8 → (∀ b ∈ c, b < 2 ^ 64) → try_fn c n = (c', o) → mi_chunk_shrinks c c')
    (bm : Bitmap) (tseq n : Nat) (hI2 : mi_bitmap_I2 bm) (hwf : mi_bitmap_wf bm)
    (hcwf : mi_bitmap_chunks_wf bm) :
    mi_bitmap_I2 (mi_bitmap_find bm tseq n (mi_bitmap_try_find_and_clear_visit try_fn)).1 := by
  have h := mi_bitmap_find_preserve bm tseq n (mi_bitmap_try_find_and_clear_visit try_fn)
    (fun b => mi_bitmap_I2 b ∧ mi_bitmap_wf b ∧ mi_bitmap_chunks_wf b)
    (fun bm' ci hq => mi_tfac_visit_preserve try_fn hfn n bm' ci hq) ⟨hI2, hwf, hcwf⟩
  exact h.1

theorem mi_claim_find_I2 (claimFn : Nat → Bool × Bool) (bm : Bitmap) (tseq : Nat)
    (hI2 : mi_bitmap_I2 bm) (hwf : mi_bitmap_wf bm) (hcwf : mi_bitmap_chunks_wf bm) :
    mi_bitmap_I2 (mi_bitmap_try_find_and_claim bm tseq claimFn).1 := by
  unfold mi_bitmap_try_find_and_claim
  have h := mi_bitmap_find_preserve bm tseq 1 (mi_bitmap_try_find_and_claim_visit claimFn)
    (fun b => mi_bitmap_I2 b ∧ mi_bitmap_wf b ∧ mi_bitmap_chunks_wf b)
    (fun bm' ci hq => mi_claim_visit_preserve claimFn 1 bm' ci hq) ⟨hI2, hwf, hcwf⟩
  exact h.1

theorem mi_cmap_set_chunks (bm : Bitmap) (ci : Nat) :
    (mi_bitmap_chunkmap_set bm ci).chunks = bm.chunks := by
  unfold mi_bitmap_chunkmap_set
  rw [mi_set_max_chunks]

theorem mi_cmap_set_count (bm : Bitmap) (ci : Nat) :
    (mi_bitmap_chunkmap_set bm ci).chunk_count = bm.chunk_count := by
  unfold mi_bitmap_chunkmap_set
  rw [mi_set_max_count]

theorem mi_cmap_set_cmaplen (bm : Bitmap) (ci : Nat) :
    (mi_bitmap_chunkmap_set bm ci).chunkmap.length = bm.chunkmap.length := by
  unfold mi_bitmap_chunkmap_set
  rw [mi_set_max_chunkmap]
  show ((bm.chunkmap.set (ci / 64) _).length : Nat) = _
  rw [List.length_set]

theorem mi_set_max_cmapBit (bm : Bitmap) (ci i : Nat) :
    mi_bitmap_cmapBit (mi_bitmap_chunkmap_set_max bm ci) i = mi_bitmap_cmapBit bm i := by
  unfold mi_bitmap_cmapBit
  rw [mi_set_max_chunkmap]

theorem mi_cmap_set_cmapBit_mono (bm : Bitmap) (ci i : Nat)
    (h : mi_bitmap_cmapBit bm i = true) :
    mi_bitmap_cmapBit (mi_bitmap_chunkmap_set bm ci) i = true := by
  unfold mi_bitmap_chunkmap_set
  rw [mi_set_max_cmapBit]
  exact mi_cmapbit_set_mono bm.chunkmap ci i h

theorem mi_cmap_set_cmapBit_self (bm : Bitmap) (ci : Nat)
    (hlt : ci / 64 < bm.chunkmap.length) :
    mi_bitmap_cmapBit (mi_bitmap_chunkmap_set bm ci) ci = true := by
  unfold mi_bitmap_chunkmap_set
  rw [mi_set_max_cmapBit]
  exact mi_cmapbit_set_true bm.chunkmap ci hlt

theorem mi_allset_bit (j : Nat) (hj : j < 64) : mi_bfield_all_set.testBit j = true := by
  show ((2 ^ 64 - 1 : Nat).testBit j) = true
  rw [Nat.testBit_two_pow_sub_one]
  simp [hj]

theorem mi_cmapbit_setallset_mono (cm : Bchunk) (f i : Nat)
    (h : (mi_bchunk_bfield cm (i / 64)).testBit (i % 64) = true) :
    (mi_bchunk_bfield (cm.set f mi_bfield_all_set) (i / 64)).testBit (i % 64) = true := by
  by_cases hf : f < cm.length
  · by_cases hfe : f = i / 64
    · subst hfe
      rw [mi_bchunk_bfield_set_self cm _ _ hf]
      exact mi_allset_bit _ (Nat.mod_lt _ (by omega))
    · rw [mi_bchunk_bfield_set_ne cm _ _ _ hfe]
      exact h
  · rw [List.set_eq_of_length_le (Nat.le_of_not_lt hf)]
    exact h

theorem mi_cmap_go_chunks :
    ∀ (fuel : Nat) (bm : Bitmap) (ci endc : Nat),
      (mi_bitmap_unsafe_setN_cmap_go fuel bm ci endc).chunks = bm.chunks := by
  intro fuel
  induction fuel with
  | zero => intro bm ci endc; rfl
  | succ f ih =>
    intro bm ci endc
    simp only [mi_bitmap_unsafe_setN_cmap_go]
    by_cases h1 : ci < endc
    · rw [if_pos h1]
      by_cases h2 : (ci % 64 = 0 && ci + 64 ≤ endc) = true
      · rw [if_pos h2, ih]
        rw [mi_cmap_set_chunks]
      · rw [if_neg h2, ih]
        rw [mi_cmap_set_chunks]
    · rw [if_neg h1]

theorem mi_cmap_go_count :
    ∀ (fuel : Nat) (bm : Bitmap) (ci endc : Nat),
      (mi_bitmap_unsafe_setN_cmap_go fuel bm ci endc).chunk_count = bm.chunk_count := by
  intro fuel
  induction fuel with
  | zero => intro bm ci endc; rfl
  | succ f ih =>
    intro bm ci endc
    simp only [mi_bitmap_unsafe_setN_cmap_go]
    by_cases h1 : ci < endc
    · rw [if_pos h1]
      by_cases h2 : (ci % 64 = 0 && ci + 64 ≤ endc) = true
      · rw [if_pos h2, ih]
        rw [mi_cmap_set_count]
      · rw [if_neg h2, ih]
        rw [mi_cmap_set_count]
    · rw [if_neg h1]

theorem mi_cmap_go_cmaplen :
    ∀ (fuel : Nat) (bm : Bitmap) (ci endc : Nat),
      (mi_bitmap_unsafe_setN_cmap_go fuel bm ci endc).chunkmap.length =
        bm.chunkmap.length := by
  intro fuel
  induction fuel with
  | zero => intro bm ci endc; rfl
  | succ f ih =>
    intro bm ci endc
    simp only [mi_bitmap_unsafe_setN_cmap_go]
    by_cases h1 : ci < endc
    · rw [if_pos h1]
      by_cases h2 : (ci % 64 = 0 && ci + 64 ≤ endc) = true
      · rw [if_pos h2, ih]
        rw [mi_cmap_set_cmaplen]
        show ((bm.chunkmap.set (ci / 64) _).length : Nat) = _
        rw [List.length_set]
      · rw [if_neg h2, ih]
        rw [mi_cmap_set_cmaplen]
    · rw [if_neg h1]

theorem mi_cmap_go_cmapBit_mono :
    ∀ (fuel : Nat) (bm : Bitmap) (ci endc i : Nat),
      mi_bitmap_cmapBit bm i = true →
      mi_bitmap_cmapBit (mi_bitmap_unsafe_setN_cmap_go fuel bm ci endc) i = true := by
  intro fuel
  induction fuel with
  | zero => intro bm ci endc i h; exact h
  | succ f ih =>
    intro bm ci endc i h
    simp only [mi_bitmap_unsafe_setN_cmap_go]
    by_cases h1 : ci < endc
    · rw [if_pos h1]
      by_cases h2 : (ci % 64 = 0 && ci + 64 ≤ endc) = true
      · rw [if_pos h2]
        apply ih
        apply mi_cmap_set_cmapBit_mono
        show (mi_bchunk_bfield (bm.chunkmap.set (ci / 64) mi_bfield_all_set)
          (i / 64)).testBit (i % 64) = true
        exact mi_cmapbit_setallset_mono bm.chunkmap (ci / 64) i h
      · rw [if_neg h2]
        exact ih _ _ _ i (mi_cmap_set_cmapBit_mono bm ci i h)
    · rw [if_neg h1]
      exact h

theorem mi_cmap_go_sets :
    ∀ (fuel : Nat) (bm : Bitmap) (ci endc j : Nat),
      bm.chunkmap.length = 8 → endc ≤ 512 → endc ≤ ci + fuel → ci ≤ j → j < endc →
      mi_bitmap_cmapBit (mi_bitmap_unsafe_setN_cmap_go fuel bm ci endc) j = true := by
  intro fuel
  induction fuel with
  | zero =>
    intro bm ci endc j _ _ hf hcj hje
    omega
  | succ f ih =>
    intro bm ci endc j hlen hendb hf hcj hje
    simp only [mi_bitmap_unsafe_setN_cmap_go]
    rw [if_pos (by omega : ci < endc)]
    by_cases h2 : (ci % 64 = 0 && ci + 64 ≤ endc) = true
    · rw [if_pos h2]
      have hc : ci % 64 = 0 ∧ ci + 64 ≤ endc := by
        simpa using h2
      by_cases hj : j < ci + 64
      · apply mi_cmap_go_cmapBit_mono
        apply mi_cmap_set_cmapBit_mono
        show (mi_bchunk_bfield (bm.chunkmap.set (ci / 64) mi_bfield_all_set)
          (j / 64)).testBit (j % 64) = true
        have hfe : j / 64 = ci / 64 := by omega
        rw [hfe, mi_bchunk_bfield_set_self _ _ _ (by rw [hlen]; omega)]
        exact mi_allset_bit _ (Nat.mod_lt _ (by omega))
      · apply ih
        · rw [mi_cmap_set_cmaplen]
          show ((bm.chunkmap.set (ci / 64) _).length : Nat) = 8
          rw [List.length_set]
          exact hlen
        · exact hendb
        · omega
        · omega
        · exact hje
    · rw [if_neg h2]
      by_cases hj : j = ci
      · subst hj
        apply mi_cmap_go_cmapBit_mono
        apply mi_cmap_set_cmapBit_self
        rw [hlen]
        omega
      · apply ih
        · rw [mi_cmap_set_cmaplen]
          exact hlen
        · exact hendb
        · omega
        · omega
        · exact hje

theorem mi_set_chunks_go_getD_out :
    ∀ (k : Nat) (cs : List Bchunk) (i j : Nat), j < i ∨ i + k ≤ j →
      (mi_set_chunks_go k cs i).getD j [] = cs.getD j [] := by
  intro k
  induction k with
  | zero => intro cs i j _; rfl
  | succ k ih =>
    intro cs i j hout
    show (mi_set_chunks_go k (cs.set i (List.replicate 8 mi_bfield_all_set)) (i + 1)).getD
      j [] = cs.getD j []
    rw [ih _ (i + 1) j (by omega)]
    exact mi_chunks_getD_set_ne cs _ i j (by omega)

theorem mi_unsafe_mid_I2 (bm2 : Bitmap) (ci1 mid : Nat) (hI2 : mi_bitmap_I2 bm2)
    (hlen : bm2.chunkmap.length = 8) (hend : 0 < mid → ci1 + mid ≤ 512) :
    mi_bitmap_I2 (mi_bitmap_unsafe_setN_mid bm2 ci1 mid) := by
  unfold mi_bitmap_unsafe_setN_mid
  by_cases hmid : 0 < mid
  · rw [if_pos hmid]
    intro i hi hclear
    have hi' : i < bm2.chunk_count := by
      rw [mi_cmap_go_count] at hi
      exact hi
    by_cases hrange : ci1 ≤ i ∧ i < ci1 + mid
    · exact mi_cmap_go_sets (ci1 + mid) _ ci1 (ci1 + mid) i hlen (hend hmid)
        (by omega) hrange.1 hrange.2
    · have hout : i < ci1 ∨ ci1 + mid ≤ i := by omega
      have hch : mi_bitmap_chunk (mi_bitmap_unsafe_setN_cmap_go (ci1 + mid)
          { bm2 with chunks := mi_set_chunks_go mid bm2.chunks ci1 } ci1 (ci1 + mid)) i =
          mi_bitmap_chunk bm2 i := by
        unfold mi_bitmap_chunk
        rw [mi_cmap_go_chunks]
        show (mi_set_chunks_go mid bm2.chunks ci1).getD i [] = bm2.chunks.getD i []
        exact mi_set_chunks_go_getD_out mid bm2.chunks ci1 i hout
      rw [hch] at hclear
      exact mi_cmap_go_cmapBit_mono _ _ _ _ i (hI2 i hi' hclear)
  · rw [if_neg hmid]
    exact hI2

theorem mi_unsafe_mid_count (bm2 : Bitmap) (ci1 mid : Nat) :
    (mi_bitmap_unsafe_setN_mid bm2 ci1 mid).chunk_count = bm2.chunk_count := by
  unfold mi_bitmap_unsafe_setN_mid
  by_cases hmid : 0 < mid
  · rw [if_pos hmid]
    rw [mi_cmap_go_count]
  · rw [if_neg hmid]

theorem mi_unsafe_mid_cmaplen (bm2 : Bitmap) (ci1 mid : Nat) :
    (mi_bitmap_unsafe_setN_mid bm2 ci1 mid).chunkmap.length = bm2.chunkmap.length := by
  unfold mi_bitmap_unsafe_setN_mid
  by_cases hmid : 0 < mid
  · rw [if_pos hmid]
    rw [mi_cmap_go_cmaplen]
  · rw [if_neg hmid]

theorem mi_unsafe_last_I2 (bm3 : Bitmap) (ci2 n2 : Nat)
    (hlen : bm3.chunkmap.length = 8) (hcnt : bm3.chunk_count ≤ 512)
    (hI2 : mi_bitmap_I2 bm3) :
    mi_bitmap_I2 (mi_bitmap_unsafe_setN_last bm3 ci2 n2) := by
  unfold mi_bitmap_unsafe_setN_last
  by_cases h : 0 < n2
  · rw [if_pos h]
    exact mi_chunkmap_set_I2 bm3 ci2 _ hlen hcnt hI2
  · rw [if_neg h]
    exact hI2

theorem mi_unsafe_setN_I2 (bm : Bitmap) (idx n : Nat) (hwf : mi_bitmap_wf bm)
    (hI2 : mi_bitmap_I2 bm) (hrange : idx + n ≤ mi_bitmap_max_bits bm) :
    mi_bitmap_I2 (mi_bitmap_unsafe_setN bm idx n) := by
  have he : mi_bitmap_unsafe_setN bm idx n =
      { mi_bitmap_unsafe_setN_last
          (mi_bitmap_unsafe_setN_mid
            (mi_bitmap_chunkmap_set
              { bm with
                  chunks := bm.chunks.set (idx / 512)
                    (mi_bchunk_setN (mi_bitmap_chunk bm (idx / 512)) (idx % 512)
                      (min (512 - idx % 512) n)).1 } (idx / 512))
            (idx / 512 + 1) ((n - min (512 - idx % 512) n) / 512))
          (idx / 512 + 1 + (n - min (512 - idx % 512) n) / 512)
          ((n - min (512 - idx % 512) n) - (n - min (512 - idx % 512) n) / 512 * 512)
        with chunk_max_accessed := 0 } := rfl
  rw [he]
  have hfin : ∀ bmz : Bitmap, mi_bitmap_I2 bmz →
      mi_bitmap_I2 { bmz with chunk_max_accessed := 0 } :=
    fun bmz h i hi hc => h i hi hc
  apply hfin
  have hI2b2 := mi_chunkmap_set_I2 bm (idx / 512)
    (mi_bchunk_setN (mi_bitmap_chunk bm (idx / 512)) (idx % 512)
      (min (512 - idx % 512) n)).1 hwf.1 hwf.2 hI2
  have hlen2 : (mi_bitmap_chunkmap_set
      { bm with
          chunks := bm.chunks.set (idx / 512)
            (mi_bchunk_setN (mi_bitmap_chunk bm (idx / 512)) (idx % 512)
              (min (512 - idx % 512) n)).1 } (idx / 512)).chunkmap.length = 8 := by
    rw [mi_cmap_set_cmaplen]
    exact hwf.1
  have hcnt2 : (mi_bitmap_chunkmap_set
      { bm with
          chunks := bm.chunks.set (idx / 512)
            (mi_bchunk_setN (mi_bitmap_chunk bm (idx / 512)) (idx % 512)
              (min (512 - idx % 512) n)).1 } (idx / 512)).chunk_count = bm.chunk_count := by
    rw [mi_cmap_set_count]
  have hend : 0 < (n - min (512 - idx % 512) n) / 512 →
      idx / 512 + 1 + (n - min (512 - idx % 512) n) / 512 ≤ 512 := by
    intro hmid
    unfold mi_bitmap_max_bits at hrange
    have hc := hwf.2
    omega
  have hI2b3 := mi_unsafe_mid_I2 _ _ _ hI2b2 hlen2 hend
  apply mi_unsafe_last_I2
  · rw [mi_unsafe_mid_cmaplen]
    exact hlen2
  · rw [mi_unsafe_mid_count, hcnt2]
    exact hwf.2
  · exact hI2b3

/-- **C2.** The chunkmap over-approximation invariant I2 (a chunk with a set
bit has its chunkmap bit set; the converse may fail) is preserved by every
completed bitmap operation: `mi_bitmap_xset`, the `mi_bitmap_xsetN`
dispatcher (hence `xset8`/`xsetX`/the general ranged path), all five
`mi_bitmap_try_find_and_clear*` variants, `mi_bitmap_try_find_and_claim`,
`mi_bitmap_unsafe_setN` (within the bitmap bounds, as the source asserts),
and `mi_bitmap_chunkmap_try_clear`. -/
theorem claim_C2_chunkmap_overapprox (bm : Bitmap)
    (hwf : mi_bitmap_wf bm) (hcwf : mi_bitmap_chunks_wf bm) (hI2 : mi_bitmap_I2 bm) :
    (∀ set idx, mi_bitmap_I2 (mi_bitmap_xset set bm idx).1) ∧
    (∀ set idx n, mi_bitmap_I2 (mi_bitmap_xsetN set bm idx n).1) ∧
    (∀ tseq, mi_bitmap_I2 (mi_bitmap_try_find_and_clear bm tseq).1) ∧
    (∀ tseq, mi_bitmap_I2 (mi_bitmap_try_find_and_clear8 bm tseq).1) ∧
    (∀ tseq, mi_bitmap_I2 (mi_bitmap_try_find_and_clearX bm tseq).1) ∧
    (∀ tseq n, mi_bitmap_I2 (mi_bitmap_try_find_and_clearNX bm tseq n).1) ∧
    (∀ tseq n, mi_bitmap_I2 (mi_bitmap_try_find_and_clearN_ bm tseq n).1) ∧
    (∀ tseq claimFn, mi_bitmap_I2 (mi_bitmap_try_find_and_claim bm tseq claimFn).1) ∧
    (∀ idx n, idx + n ≤ mi_bitmap_max_bits bm →
      mi_bitmap_I2 (mi_bitmap_unsafe_setN bm idx n)) ∧
    (∀ ci, mi_bitmap_I2 (mi_bitmap_chunkmap_try_clear bm ci).1) := by
  refine ⟨?_, ?_, ?_, ?_, ?_, ?_, ?_, ?_, ?_, ?_⟩
  · intro set idx
    exact mi_xset_I2 set bm idx hwf hI2
  · intro set idx n
    exact mi_xsetN_I2 set bm idx n hwf hI2
  · intro tseq
    exact mi_tfac_find_I2 mi_bchunk_try_find_and_clear_1
      (fun c n c' o _ _ h => mi_tfac_shrink c c' o h) bm tseq 1 hI2 hwf hcwf
  · intro tseq
    exact mi_tfac_find_I2 mi_bchunk_try_find_and_clear_8
      (fun c n c' o _ _ h => mi_tfac8_shrink c c' o h) bm tseq 8 hI2 hwf hcwf
  · intro tseq
    exact mi_tfac_find_I2 mi_bchunk_try_find_and_clear_X
      (fun c n c' o _ _ h => mi_tfacX_shrink c c' o h) bm tseq 64 hI2 hwf hcwf
  · intro tseq n
    exact mi_tfac_find_I2 mi_bchunk_try_find_and_clearNX_fn
      (fun c n c' o _ _ h => mi_tfacNX_shrink c n c' o h) bm tseq n hI2 hwf hcwf
  · intro tseq n
    exact mi_tfac_find_I2 mi_bchunk_try_find_and_clearN_fn
      (fun c n c' o hl hb h => mi_tfacN_shrink c n hl hb c' o h) bm tseq n hI2 hwf hcwf
  · intro tseq claimFn
    exact mi_claim_find_I2 claimFn bm tseq hI2 hwf hcwf
  · intro idx n hrange
    exact mi_unsafe_setN_I2 bm idx n hwf hI2 hrange
  · intro ci
    exact mi_cmap_try_clear_I2 bm ci hI2

theorem claim_C2_witness :
    mi_bitmap_wf (Bitmap.mk 1 0 [1,0,0,0,0,0,0,0] [[2,0,0,0,0,0,0,0]]) ∧
    mi_bitmap_chunks_wf (Bitmap.mk 1 0 [1,0,0,0,0,0,0,0] [[2,0,0,0,0,0,0,0]]) ∧
    mi_bitmap_I2 (Bitmap.mk 1 0 [1,0,0,0,0,0,0,0] [[2,0,0,0,0,0,0,0]]) ∧
    ((∀ set idx, mi_bitmap_I2
        (mi_bitmap_xset set (Bitmap.mk 1 0 [1,0,0,0,0,0,0,0] [[2,0,0,0,0,0,0,0]]) idx).1) ∧
    (∀ set idx n, mi_bitmap_I2
      (mi_bitmap_xsetN set (Bitmap.mk 1 0 [1,0,0,0,0,0,0,0] [[2,0,0,0,0,0,0,0]]) idx n).1) ∧
    (∀ tseq, mi_bitmap_I2
      (mi_bitmap_try_find_and_clear
        (Bitmap.mk 1 0 [1,0,0,0,0,0,0,0] [[2,0,0,0,0,0,0,0]]) tseq).1) ∧
    (∀ tseq, mi_bitmap_I2
      (mi_bitmap_try_find_and_clear8
        (Bitmap.mk 1 0 [1,0,0,0,0,0,0,0] [[2,0,0,0,0,0,0,0]]) tseq).1) ∧
    (∀ tseq, mi_bitmap_I2
      (mi_bitmap_try_find_and_clearX
        (Bitmap.mk 1 0 [1,0,0,0,0,0,0,0] [[2,0,0,0,0,0,0,0]]) tseq).1) ∧
    (∀ tseq n, mi_bitmap_I2
      (mi_bitmap_try_find_and_clearNX
        (Bitmap.mk 1 0 [1,0,0,0,0,0,0,0] [[2,0,0,0,0,0,0,0]]) tseq n).1) ∧
    (∀ tseq n, mi_bitmap_I2
      (mi_bitmap_try_find_and_clearN_
        (Bitmap.mk 1 0 [1,0,0,0,0,0,0,0] [[2,0,0,0,0,0,0,0]]) tseq n).1) ∧
    (∀ tseq claimFn, mi_bitmap_I2
      (mi_bitmap_try_find_and_claim
        (Bitmap.mk 1 0 [1,0,0,0,0,0,0,0] [[2,0,0,0,0,0,0,0]]) tseq claimFn).1) ∧
    (∀ idx n, idx + n ≤ mi_bitmap_max_bits
        (Bitmap.mk 1 0 [1,0,0,0,0,0,0,0] [[2,0,0,0,0,0,0,0]]) →
      mi_bitmap_I2 (mi_bitmap_unsafe_setN
        (Bitmap.mk 1 0 [1,0,0,0,0,0,0,0] [[2,0,0,0,0,0,0,0]]) idx n)) ∧
    (∀ ci, mi_bitmap_I2
      (mi_bitmap_chunkmap_try_clear
        (Bitmap.mk 1 0 [1,0,0,0,0,0,0,0] [[2,0,0,0,0,0,0,0]]) ci).1)) :=
  ⟨by constructor <;> decide, by unfold mi_bitmap_chunks_wf; decide,
    by
      intro i hi hc
      interval_cases i
      · decide,
    claim_C2_chunkmap_overapprox (Bitmap.mk 1 0 [1,0,0,0,0,0,0,0] [[2,0,0,0,0,0,0,0]])
      (by constructor <;> decide) (by unfold mi_bitmap_chunks_wf; decide)
      (by
        intro i hi hc
        interval_cases i
        · decide)⟩

/-! ## Exactness of the chunkmap after a failed search pass -/

theorem mi_bfield_iterate_list_nodup (b start cycle : Nat) (hb : b < 2 ^ 64)
    (hsc : start ≤ cycle) (hc : cycle ≤ 64) :
    (mi_bfield_iterate_list b start cycle).Nodup := by
  rw [mi_bfield_iterate_list_eq b start cycle hb hsc hc]
  have hn1 : ((List.range 64).filter
      (fun j => decide (start ≤ j) && decide (j < cycle) && b.testBit j)).Nodup :=
    (List.nodup_range 64).filter _
  have hn2 : ((List.range 64).filter (fun j => decide (j < start) && b.testBit j)).Nodup :=
    (List.nodup_range 64).filter _
  have hn3 : ((List.range 64).filter (fun j => decide (cycle ≤ j) && b.testBit j)).Nodup :=
    (List.nodup_range 64).filter _
  apply List.Nodup.append
  · apply List.Nodup.append hn1 hn2
    rw [List.disjoint_left]
    intro a ha1 ha2
    rw [List.mem_filter] at ha1 ha2
    have c1 := ha1.2
    have c2 := ha2.2
    simp only [Bool.and_eq_true, decide_eq_true_eq] at c1 c2
    omega
  · exact hn3
  · rw [List.disjoint_left]
    intro a ha1 ha2
    rw [List.mem_append] at ha1
    rw [List.mem_filter] at ha2
    have c2 := ha2.2
    simp only [Bool.and_eq_true, decide_eq_true_eq] at c2
    rcases ha1 with ha1 | ha1 <;> rw [List.mem_filter] at ha1 <;>
      have c1 := ha1.2 <;> simp only [Bool.and_eq_true, decide_eq_true_eq] at c1 <;> omega

theorem mi_cycle_iterate_mem (b tseq cycle j : Nat) (hb : b < 2 ^ 64)
    (hc1 : 1 ≤ cycle) (hc : cycle ≤ 64) :
    j ∈ mi_bfield_cycle_iterate_list b tseq cycle ↔ (b.testBit j = true ∧ j < 64) := by
  unfold mi_bfield_cycle_iterate_list
  have hmod : cycle % 2 ^ 32 = cycle := by
    apply Nat.mod_eq_of_lt
    rw [show (2 : Nat) ^ 32 = 4294967296 from by norm_num]
    omega
  rw [hmod]
  exact mi_bfield_iterate_list_mem b _ cycle j hb
    (Nat.le_of_lt (Nat.mod_lt _ (by omega))) hc

theorem mi_cycle_iterate_nodup (b tseq cycle : Nat) (hb : b < 2 ^ 64)
    (hc1 : 1 ≤ cycle) (hc : cycle ≤ 64) :
    (mi_bfield_cycle_iterate_list b tseq cycle).Nodup := by
  unfold mi_bfield_cycle_iterate_list
  have hmod : cycle % 2 ^ 32 = cycle := by
    apply Nat.mod_eq_of_lt
    rw [show (2 : Nat) ^ 32 = 4294967296 from by norm_num]
    omega
  rw [hmod]
  exact mi_bfield_iterate_list_nodup b _ cycle hb
    (Nat.le_of_lt (Nat.mod_lt _ (by omega))) hc

theorem mi_cmapbit_clear_self (cm : Bchunk) (ci : Nat) (hlt : ci / 64 < cm.length) :
    (mi_bchunk_bfield (mi_bchunk_clear cm ci).1 (ci / 64)).testBit (ci % 64) = false := by
  show (mi_bchunk_bfield (cm.set (ci / 64)
    (mi_bchunk_bfield cm (ci / 64) &&& bnot64 (1 <<< (ci % 64)))) (ci / 64)).testBit
      (ci % 64) = false
  rw [mi_bchunk_bfield_set_self cm _ _ hlt]
  exact mi_clear_bit_false _ _ (Nat.mod_lt _ (by omega))

theorem mi_bchunk_clear_out (cm : Bchunk) (ci : Nat) (h : ¬(ci / 64 < cm.length)) :
    (mi_bchunk_clear cm ci).1 = cm := by
  show cm.set (ci / 64) _ = cm
  exact List.set_eq_of_length_le (Nat.le_of_not_lt h)

theorem mi_cmap_try_clear_cmapBit_ne (bm : Bitmap) (ci i : Nat) (hne : i ≠ ci) :
    mi_bitmap_cmapBit (mi_bitmap_chunkmap_try_clear bm ci).1 i = mi_bitmap_cmapBit bm i := by
  unfold mi_bitmap_chunkmap_try_clear
  by_cases hc : (!mi_bchunk_all_are_clear_relaxed (mi_bitmap_chunk bm ci)) = true
  · rw [if_pos hc]
  · rw [if_neg hc]
    have hc2 : ¬((!mi_bchunk_all_are_clear_relaxed
        (mi_bitmap_chunk { bm with chunkmap := (mi_bchunk_clear bm.chunkmap ci).1 } ci))
          = true) := hc
    rw [if_neg hc2]
    show mi_bitmap_cmapBit (mi_bitmap_chunkmap_set_max
      { bm with chunkmap := (mi_bchunk_clear bm.chunkmap ci).1 } ci) i =
      mi_bitmap_cmapBit bm i
    rw [mi_set_max_cmapBit]
    show (mi_bchunk_bfield (mi_bchunk_clear bm.chunkmap ci).1 (i / 64)).testBit (i % 64) = _
    exact mi_cmapbit_clear_ne bm.chunkmap ci i hne

theorem mi_cmap_try_clear_clears (bm : Bitmap) (ci : Nat)
    (hlt : ci / 64 < bm.chunkmap.length)
    (hclear : mi_bchunk_all_are_clear (mi_bitmap_chunk bm ci) = true) :
    mi_bitmap_cmapBit (mi_bitmap_chunkmap_try_clear bm ci).1 ci = false := by
  unfold mi_bitmap_chunkmap_try_clear
  have hc : ¬((!mi_bchunk_all_are_clear_relaxed (mi_bitmap_chunk bm ci)) = true) := by
    unfold mi_bchunk_all_are_clear_relaxed
    rw [hclear]
    simp
  rw [if_neg hc]
  have hc2 : ¬((!mi_bchunk_all_are_clear_relaxed
      (mi_bitmap_chunk { bm with chunkmap := (mi_bchunk_clear bm.chunkmap ci).1 } ci))
        = true) := hc
  rw [if_neg hc2]
  show mi_bitmap_cmapBit (mi_bitmap_chunkmap_set_max
    { bm with chunkmap := (mi_bchunk_clear bm.chunkmap ci).1 } ci) ci = false
  rw [mi_set_max_cmapBit]
  show (mi_bchunk_bfield (mi_bchunk_clear bm.chunkmap ci).1 (ci / 64)).testBit (ci % 64)
    = false
  exact mi_cmapbit_clear_self bm.chunkmap ci hlt

theorem mi_cmap_try_clear_bit_mono (bm : Bitmap) (ci j : Nat)
    (h : mi_bitmap_cmapBit (mi_bitmap_chunkmap_try_clear bm ci).1 j = true) :
    mi_bitmap_cmapBit bm j = true := by
  by_cases hne : j = ci
  · subst hne
    by_cases hcl : mi_bchunk_all_are_clear (mi_bitmap_chunk bm j) = true
    · by_cases hlt : j / 64 < bm.chunkmap.length
      · rw [mi_cmap_try_clear_clears bm j hlt hcl] at h
        exact Bool.noConfusion h
      · revert h
        unfold mi_bitmap_chunkmap_try_clear
        have hc : ¬((!mi_bchunk_all_are_clear_relaxed (mi_bitmap_chunk bm j)) = true) := by
          unfold mi_bchunk_all_are_clear_relaxed
          rw [hcl]
          simp
        rw [if_neg hc]
        have hc2 : ¬((!mi_bchunk_all_are_clear_relaxed
            (mi_bitmap_chunk { bm with chunkmap := (mi_bchunk_clear bm.chunkmap j).1 } j))
              = true) := hc
        rw [if_neg hc2]
        intro h
        have h' : mi_bitmap_cmapBit (mi_bitmap_chunkmap_set_max
            { bm with chunkmap := (mi_bchunk_clear bm.chunkmap j).1 } j) j = true := h
        rw [mi_set_max_cmapBit] at h'
        have h'' : (mi_bchunk_bfield (mi_bchunk_clear bm.chunkmap j).1 (j / 64)).testBit
            (j % 64) = true := h'
        rw [mi_bchunk_clear_out bm.chunkmap j hlt] at h''
        exact h''
    · revert h
      unfold mi_bitmap_chunkmap_try_clear
      have hc : (!mi_bchunk_all_are_clear_relaxed (mi_bitmap_chunk bm j)) = true := by
        unfold mi_bchunk_all_are_clear_relaxed
        cases hx : mi_bchunk_all_are_clear (mi_bitmap_chunk bm j)
        · rfl
        · exact absurd hx hcl
      rw [if_pos hc]
      exact fun h => h
  · rw [mi_cmap_try_clear_cmapBit_ne bm ci j hne] at h
    exact h

theorem mi_bchunk_clear_bfield_lt (cm : Bchunk) (ci : Nat)
    (hb : ∀ f, mi_bchunk_bfield cm f < 2 ^ 64) :
    ∀ f, mi_bchunk_bfield (mi_bchunk_clear cm ci).1 f < 2 ^ 64 := by
  intro f
  show mi_bchunk_bfield (cm.set (ci / 64)
    (mi_bchunk_bfield cm (ci / 64) &&& bnot64 (1 <<< (ci % 64)))) f < 2 ^ 64
  by_cases hlt : ci / 64 < cm.length
  · by_cases hfe : ci / 64 = f
    · subst hfe
      rw [mi_bchunk_bfield_set_self cm _ _ hlt]
      exact Nat.lt_of_le_of_lt Nat.and_le_left (hb _)
    · rw [mi_bchunk_bfield_set_ne cm _ _ _ hfe]
      exact hb f
  · rw [List.set_eq_of_length_le (Nat.le_of_not_lt hlt)]
    exact hb f

theorem mi_cmap_try_clear_cmapfield_lt (bm : Bitmap) (ci : Nat)
    (hb : ∀ f, mi_bchunk_bfield bm.chunkmap f < 2 ^ 64) :
    ∀ f, mi_bchunk_bfield (mi_bitmap_chunkmap_try_clear bm ci).1.chunkmap f < 2 ^ 64 := by
  intro f
  unfold mi_bitmap_chunkmap_try_clear
  by_cases hc : (!mi_bchunk_all_are_clear_relaxed (mi_bitmap_chunk bm ci)) = true
  · rw [if_pos hc]
    exact hb f
  · rw [if_neg hc]
    have hc2 : ¬((!mi_bchunk_all_are_clear_relaxed
        (mi_bitmap_chunk { bm with chunkmap := (mi_bchunk_clear bm.chunkmap ci).1 } ci))
          = true) := hc
    rw [if_neg hc2]
    show mi_bchunk_bfield (mi_bitmap_chunkmap_set_max
      { bm with chunkmap := (mi_bchunk_clear bm.chunkmap ci).1 } ci).chunkmap f < 2 ^ 64
    rw [mi_set_max_chunkmap]
    exact mi_bchunk_clear_bfield_lt bm.chunkmap ci hb f

theorem mi_tfac_visit_fail (try_fn : Bchunk → Nat → Bchunk × Option Nat) (n : Nat)
    (bm : Bitmap) (ci : Nat) (r : Bitmap)
    (h : mi_bitmap_try_find_and_clear_visit try_fn bm ci n = (r, none)) :
    r = (mi_bitmap_chunkmap_try_clear bm ci).1 := by
  simp only [mi_bitmap_try_find_and_clear_visit] at h
  split at h
  · injection h with h1 h2
    exact Option.noConfusion h2
  · injection h with h1 h2
    exact h1.symm

theorem mi_find_inner_fail_spec (try_fn : Bchunk → Nat → Bchunk × Option Nat) (n : Nat) :
    ∀ (lst : List Nat) (bm r : Bitmap),
      mi_bitmap_find_inner (mi_bitmap_try_find_and_clear_visit try_fn) n bm lst =
        (r, none) →
      r.chunks = bm.chunks ∧
      r.chunk_count = bm.chunk_count ∧
      r.chunkmap.length = bm.chunkmap.length ∧
      ((∀ f, mi_bchunk_bfield bm.chunkmap f < 2 ^ 64) →
        ∀ f, mi_bchunk_bfield r.chunkmap f < 2 ^ 64) ∧
      (∀ j, mi_bitmap_cmapBit r j = true → mi_bitmap_cmapBit bm j = true) ∧
      (∀ j, j ∉ lst → mi_bitmap_cmapBit r j = mi_bitmap_cmapBit bm j) ∧
      (∀ j, j ∈ lst → j / 64 < bm.chunkmap.length →
        mi_bchunk_all_are_clear (mi_bitmap_chunk bm j) = true →
        mi_bitmap_cmapBit r j = false) := by
  intro lst
  induction lst with
  | nil =>
    intro bm r h
    injection h with h1 _
    subst h1
    exact ⟨rfl, rfl, rfl, fun hb => hb, fun j h => h, fun j _ => rfl,
      fun j hj _ _ => absurd hj (List.not_mem_nil j)⟩
  | cons i rest ih =>
    intro bm r h
    rw [mi_bitmap_find_inner_cons] at h
    split at h
    next bm1 idx1 heq =>
      injection h with h1 h2
      exact Option.noConfusion h2
    next bm1 heq =>
      have hbm1 : bm1 = (mi_bitmap_chunkmap_try_clear bm i).1 :=
        mi_tfac_visit_fail try_fn n bm i bm1 heq
      subst hbm1
      obtain ⟨ha, hb', hc', hd, he, hf, hg⟩ := ih _ r h
      refine ⟨?_, ?_, ?_, ?_, ?_, ?_, ?_⟩
      · rw [ha, mi_cmap_try_clear_chunks]
      · rw [hb', mi_cmap_try_clear_count]
      · rw [hc', mi_cmap_try_clear_cmaplen]
      · intro hbnd f
        exact hd (mi_cmap_try_clear_cmapfield_lt bm i hbnd) f
      · intro j hj
        exact mi_cmap_try_clear_bit_mono bm i j (he j hj)
      · intro j hjn
        have hj1 : j ∉ rest := fun hx => hjn (List.mem_cons_of_mem _ hx)
        have hj2 : j ≠ i := fun hx => hjn (by rw [hx]; exact List.mem_cons_self i rest)
        rw [hf j hj1, mi_cmap_try_clear_cmapBit_ne bm i j hj2]
      · intro j hjm hlt hcl
        rcases List.mem_cons.mp hjm with hji | hjr
        · subst hji
          have hb1 : mi_bitmap_cmapBit (mi_bitmap_chunkmap_try_clear bm j).1 j = false :=
            mi_cmap_try_clear_clears bm j hlt hcl
          cases hx : mi_bitmap_cmapBit r j
          · rfl
          · have hmono := he j hx
            rw [hb1] at hmono
            exact hmono.symm
        · apply hg j hjr
          · rw [mi_cmap_try_clear_cmaplen]
            exact hlt
          · have hch : mi_bitmap_chunk (mi_bitmap_chunkmap_try_clear bm i).1 j =
                mi_bitmap_chunk bm j := by
              unfold mi_bitmap_chunk
              rw [mi_cmap_try_clear_chunks]
            rw [hch]
            exact hcl

theorem mi_find_outer_fail_spec (try_fn : Bchunk → Nat → Bchunk × Option Nat)
    (n tseq ca cab : Nat) (hcab1 : 1 ≤ cab) (hcab : cab ≤ 64) :
    ∀ (L : List Nat) (bm r : Bitmap), L.Nodup →
      bm.chunkmap.length = 8 →
      (∀ f, mi_bchunk_bfield bm.chunkmap f < 2 ^ 64) →
      mi_bitmap_find_outer (mi_bitmap_try_find_and_clear_visit try_fn) tseq n ca cab bm L =
        (r, none) →
      r.chunks = bm.chunks ∧
      r.chunk_count = bm.chunk_count ∧
      (∀ j, mi_bitmap_cmapBit r j = true → mi_bitmap_cmapBit bm j = true) ∧
      (∀ j, j < 512 → j / 64 ∈ L →
        mi_bchunk_all_are_clear (mi_bitmap_chunk bm j) = true →
        mi_bitmap_cmapBit r j = false) := by
  intro L
  induction L with
  | nil =>
    intro bm r _ _ _ h
    injection h with h1 _
    subst h1
    exact ⟨rfl, rfl, fun j h => h, fun j _ hj _ => absurd hj (List.not_mem_nil _)⟩
  | cons e rest ih =>
    intro bm r hnd hlen hbnd h
    rw [mi_bitmap_find_outer_cons] at h
    split at h
    next bm1 idx1 heq =>
      injection h with h1 h2
      exact Option.noConfusion h2
    next bm1 heq =>
      -- heq : inner pass over entry e from bm gives (bm1, none); h : outer rest from bm1
      obtain ⟨ia, ib, ic, id', ie', if', ig⟩ := mi_find_inner_fail_spec try_fn n _ bm bm1 heq
      obtain ⟨oa, ob, oc, od⟩ := ih bm1 r (List.Nodup.of_cons hnd)
        (ic.trans hlen) (id' hbnd) h
      have hcyc1 : 1 ≤ (if e ≠ ca then 64 else cab) := by
        split
        · omega
        · exact hcab1
      have hcyc : (if e ≠ ca then 64 else cab) ≤ 64 := by
        split
        · omega
        · exact hcab
      have hmeme : ∀ j, j ∈ (mi_bfield_cycle_iterate_list (mi_bchunk_bfield bm.chunkmap e)
          tseq (if e ≠ ca then 64 else cab)).map (fun eidx => e * 64 + eidx) ↔
          ((mi_bchunk_bfield bm.chunkmap e).testBit (j - e * 64) = true ∧
            e * 64 ≤ j ∧ j < e * 64 + 64) := by
        intro j
        rw [List.mem_map]
        constructor
        · rintro ⟨eidx, hmem, hje⟩
          obtain ⟨hbit, hlt64⟩ := (mi_cycle_iterate_mem _ tseq _ eidx (hbnd e)
            hcyc1 hcyc).mp hmem
          subst hje
          constructor
          · simpa using hbit
          · omega
        · rintro ⟨hbit, hge, hlt⟩
          refine ⟨j - e * 64, ?_, by omega⟩
          exact (mi_cycle_iterate_mem _ tseq _ _ (hbnd e) hcyc1 hcyc).mpr ⟨hbit, by omega⟩
      refine ⟨?_, ?_, ?_, ?_⟩
      · rw [oa, ia]
      · rw [ob, ib]
      · intro j hj
        exact ie' j (oc j hj)
      · intro j hj512 hjm hcl
        rcases List.mem_cons.mp hjm with hje | hjr
        · -- entry for j processed now
          by_cases hbit : mi_bitmap_cmapBit bm j = true
          · -- j is in the inner list: cleared by its visit, stays cleared
            have hjin : j ∈ (mi_bfield_cycle_iterate_list (mi_bchunk_bfield bm.chunkmap e)
                tseq (if e ≠ ca then 64 else cab)).map (fun eidx => e * 64 + eidx) := by
              rw [hmeme j]
              refine ⟨?_, by omega, by omega⟩
              have : j - e * 64 = j % 64 := by omega
              rw [this]
              have hbit' : (mi_bchunk_bfield bm.chunkmap (j / 64)).testBit (j % 64) = true :=
                hbit
              rw [← hje]
              exact hbit'
            have hb1 : mi_bitmap_cmapBit bm1 j = false := by
              apply ig j hjin
              · rw [hlen]
                omega
              · exact hcl
            cases hx : mi_bitmap_cmapBit r j
            · rfl
            · have := oc j hx
              rw [hb1] at this
              exact this.symm
          · -- bit already clear: stays clear through the pass
            have hb0 : mi_bitmap_cmapBit bm j = false := by
              cases hx : mi_bitmap_cmapBit bm j
              · rfl
              · exact absurd hx hbit
            have hjnot : j ∉ (mi_bfield_cycle_iterate_list (mi_bchunk_bfield bm.chunkmap e)
                tseq (if e ≠ ca then 64 else cab)).map (fun eidx => e * 64 + eidx) := by
              intro hx
              obtain ⟨hbitx, hge, hlt⟩ := (hmeme j).mp hx
              have : j - e * 64 = j % 64 := by omega
              rw [this] at hbitx
              have hbit' : mi_bitmap_cmapBit bm j = true := by
                show (mi_bchunk_bfield bm.chunkmap (j / 64)).testBit (j % 64) = true
                rw [hje]
                exact hbitx
              rw [hb0] at hbit'
              exact Bool.noConfusion hbit'
            have hb1 : mi_bitmap_cmapBit bm1 j = false := by
              rw [if' j hjnot]
              exact hb0
            cases hx : mi_bitmap_cmapBit r j
            · rfl
            · have := oc j hx
              rw [hb1] at this
              exact this.symm
        · -- entry for j is in the remaining list
          apply od j hj512 hjr
          have hch : mi_bitmap_chunk bm1 j = mi_bitmap_chunk bm j := by
            unfold mi_bitmap_chunk
            rw [ia]
          rw [hch]
          exact hcl

/-- C4 (amended): exactness of the chunkmap holds after a FAILED full
`try_find_and_clear` pass (quiescent drain): if the search returns no index,
every chunkmap entry has been visited and every stale set bit has been
cleared by `mi_bitmap_chunkmap_try_clear`, so for every chunk below the
chunk count the chunkmap bit equals (chunk has a set bit). A successful
pass does NOT restore exactness (see the counterexample): the visit clears
the found bit in the chunk but deliberately leaves the chunkmap bit set. -/
theorem claim_C4_amended (bm : Bitmap) (tseq : Nat)
    (hwf : mi_bitmap_wf bm) (hcwf : mi_bitmap_chunks_wf bm)
    (hI2 : mi_bitmap_I2 bm)
    (hcb : ∀ f, mi_bchunk_bfield bm.chunkmap f < 2 ^ 64)
    (hma : bm.chunk_max_accessed < 512)
    (hfail : (mi_bitmap_try_find_and_clear bm tseq).2 = none) :
    mi_bitmap_cmap_exact (mi_bitmap_try_find_and_clear bm tseq).1 := by
  rcases heqr : mi_bitmap_try_find_and_clear bm tseq with ⟨r, o⟩
  rw [heqr] at hfail
  have ho : o = none := hfail
  subst ho
  have hout : mi_bitmap_find_outer
      (mi_bitmap_try_find_and_clear_visit mi_bchunk_try_find_and_clear_1) tseq 1
      (bm.chunk_max_accessed / 64) (1 + bm.chunk_max_accessed % 64) bm
      (mi_bfield_cycle_iterate_list (mi_bfield_mask (mi_divide_up bm.chunk_count 64) 0)
        tseq (bm.chunk_max_accessed / 64 + 1)) = (r, none) := heqr
  have hduc : mi_divide_up bm.chunk_count 64 ≤ 8 := by
    unfold mi_divide_up
    have := hwf.2
    omega
  have hmask_lt : mi_bfield_mask (mi_divide_up bm.chunk_count 64) 0 < 2 ^ 64 :=
    mi_bfield_mask_lt _ 0 (by omega)
  have hcyc_le : bm.chunk_max_accessed / 64 + 1 ≤ 64 := by omega
  have hnodup := mi_cycle_iterate_nodup _ tseq _ hmask_lt (by omega) hcyc_le
  obtain ⟨oa, ob, oc, od⟩ := mi_find_outer_fail_spec mi_bchunk_try_find_and_clear_1 1 tseq
    (bm.chunk_max_accessed / 64) (1 + bm.chunk_max_accessed % 64) (by omega) (by omega)
    _ bm r hnodup hwf.1 hcb hout
  have hI2r : mi_bitmap_I2 r := by
    have hI2f := mi_tfac_find_I2 mi_bchunk_try_find_and_clear_1
      (fun c n c' o _ _ h => mi_tfac_shrink c c' o h) bm tseq 1 hI2 hwf hcwf
    have heqf : mi_bitmap_find bm tseq 1
        (mi_bitmap_try_find_and_clear_visit mi_bchunk_try_find_and_clear_1) = (r, none) := heqr
    rw [heqf] at hI2f
    exact hI2f
  intro i hi
  have hi' : i < bm.chunk_count := by rw [ob] at hi; exact hi
  have hchr : mi_bitmap_chunk r i = mi_bitmap_chunk bm i := by
    unfold mi_bitmap_chunk
    rw [oa]
  cases hcl : mi_bchunk_all_are_clear (mi_bitmap_chunk r i)
  · -- chunk has a set bit: I2 of the result gives the bit set
    rw [Bool.not_false]
    exact hI2r i hi hcl
  · -- chunk all clear: the failed pass visited entry i/64 and cleared the bit
    rw [Bool.not_true]
    have hi512 : i < 512 := by
      have := hwf.2
      omega
    apply od i hi512
    · rw [mi_cycle_iterate_mem _ tseq _ _ hmask_lt (by omega) hcyc_le]
      constructor
      · rw [mi_bfield_mask_testBit _ 0 _ (by omega)]
        have h2 : i / 64 < mi_divide_up bm.chunk_count 64 := by
          unfold mi_divide_up
          omega
        simp [h2]
      · omega
    · rw [← hchr]
      exact hcl

theorem claim_C4_amended_witness :
    (mi_bitmap_try_find_and_clear
        (Bitmap.mk 1 0 [1, 0, 0, 0, 0, 0, 0, 0] [[0, 0, 0, 0, 0, 0, 0, 0]]) 0).2 = none ∧
    mi_bitmap_cmap_exact
      (mi_bitmap_try_find_and_clear
        (Bitmap.mk 1 0 [1, 0, 0, 0, 0, 0, 0, 0] [[0, 0, 0, 0, 0, 0, 0, 0]]) 0).1 :=
  ⟨by decide,
    claim_C4_amended (Bitmap.mk 1 0 [1, 0, 0, 0, 0, 0, 0, 0] [[0, 0, 0, 0, 0, 0, 0, 0]]) 0
      (by constructor <;> decide)
      (by unfold mi_bitmap_chunks_wf; decide)
      (by
        intro i hi hc
        interval_cases i
        · decide)
      (by
        intro f
        unfold mi_bchunk_bfield
        by_cases h : f < 8
        · interval_cases f <;> decide
        · rw [List.getD_eq_default]
          · decide
          · show 8 ≤ f
            omega)
      (by decide)
      (by decide)⟩

/-! ## The byte-detection trick of `try_find_and_clear8` -/

theorem mi_byte_zero (x : Nat) : mi_byte x 0 = x % 256 := by
  unfold mi_byte
  rw [Nat.mul_zero, Nat.shiftRight_zero]

theorem mi_byte_succ (x j : Nat) : mi_byte x (j + 1) = mi_byte (x / 256) j := by
  unfold mi_byte
  rw [Nat.shiftRight_eq_div_pow, Nat.shiftRight_eq_div_pow,
    show 8 * (j + 1) = 8 + 8 * j from by ring, Nat.pow_add,
    show (2 : Nat) ^ 8 = 256 from by norm_num, Nat.mul_comm,
    ← Nat.div_div_eq_div_mul, Nat.div_div_eq_div_mul, Nat.div_div_eq_div_mul,
    Nat.mul_comm]

theorem mi_byte_split_land (x0 u0 : Nat) (hx : x0 < 256) (hu : u0 < 256) (x1 u1 : Nat) :
    (x0 + 256 * x1) &&& (u0 + 256 * u1) = (x0 &&& u0) + 256 * (x1 &&& u1) := by
  have hx8 : x0 < 2 ^ 8 := by omega
  have hu8 : u0 < 2 ^ 8 := by omega
  have hand : x0 &&& u0 < 2 ^ 8 := Nat.and_lt_two_pow x0 hu8
  have e1 : x0 + 256 * x1 = 2 ^ 8 * x1 + x0 := by omega
  have e2 : u0 + 256 * u1 = 2 ^ 8 * u1 + u0 := by omega
  have e3 : (x0 &&& u0) + 256 * (x1 &&& u1) = 2 ^ 8 * (x1 &&& u1) + (x0 &&& u0) := by omega
  rw [e1, e2, e3]
  apply Nat.eq_of_testBit_eq
  intro j
  rw [Nat.testBit_and, Nat.testBit_mul_pow_two_add x1 hx8 j,
    Nat.testBit_mul_pow_two_add u1 hu8 j,
    Nat.testBit_mul_pow_two_add (x1 &&& u1) hand j]
  by_cases hj : j < 8
  · simp [hj]
  · simp [hj, Nat.testBit_and]

theorem mi_byte_split_xor (x0 u0 : Nat) (hx : x0 < 256) (hu : u0 < 256) (x1 u1 : Nat) :
    (x0 + 256 * x1) ^^^ (u0 + 256 * u1) = (x0 ^^^ u0) + 256 * (x1 ^^^ u1) := by
  have hx8 : x0 < 2 ^ 8 := by omega
  have hu8 : u0 < 2 ^ 8 := by omega
  have hxor : x0 ^^^ u0 < 2 ^ 8 := Nat.xor_lt_two_pow hx8 hu8
  have e1 : x0 + 256 * x1 = 2 ^ 8 * x1 + x0 := by omega
  have e2 : u0 + 256 * u1 = 2 ^ 8 * u1 + u0 := by omega
  have e3 : (x0 ^^^ u0) + 256 * (x1 ^^^ u1) = 2 ^ 8 * (x1 ^^^ u1) + (x0 ^^^ u0) := by omega
  rw [e1, e2, e3]
  apply Nat.eq_of_testBit_eq
  intro j
  rw [Nat.testBit_xor, Nat.testBit_mul_pow_two_add x1 hx8 j,
    Nat.testBit_mul_pow_two_add u1 hu8 j,
    Nat.testBit_mul_pow_two_add (x1 ^^^ u1) hxor j]
  by_cases hj : j < 8
  · simp [hj]
  · simp [hj, Nat.testBit_xor]

theorem mi_mod_mul256 (M a q : Nat) (hM : 0 < M) (ha : a < 256) :
    (a + 256 * q) % (256 * M) = a + 256 * (q % M) := by
  have h1 : 256 * q % (256 * M) = 256 * (q % M) := Nat.mul_mod_mul_left 256 q M
  have hqM : q % M < M := Nat.mod_lt q hM
  have hlt : a + 256 * (q % M) < 256 * M := by omega
  calc (a + 256 * q) % (256 * M)
      = (a % (256 * M) + 256 * q % (256 * M)) % (256 * M) := by rw [Nat.add_mod]
    _ = (a + 256 * (q % M)) % (256 * M) := by
        rw [h1, Nat.mod_eq_of_lt (show a < 256 * M by omega)]
    _ = a + 256 * (q % M) := Nat.mod_eq_of_lt hlt

theorem mi_subk_split (k x0 y0 x1 y1 : Nat) (hx0 : x0 < 256) (hy0 : y0 < 256)
    (hy1 : y1 < 2 ^ (8 * k)) :
    mi_subk (k + 1) (x0 + 256 * x1) (y0 + 256 * y1) =
      if y0 ≤ x0 then (x0 - y0) + 256 * mi_subk k x1 y1
      else (256 + x0 - y0) + 256 * mi_subk k x1 (y1 + 1) := by
  have hM : (0 : Nat) < 2 ^ (8 * k) := Nat.pow_pos (by norm_num)
  have hsplit : (2 : Nat) ^ (8 * (k + 1)) = 256 * 2 ^ (8 * k) := by
    rw [show 8 * (k + 1) = 8 + 8 * k from by ring, Nat.pow_add]
  unfold mi_subk
  rw [hsplit]
  by_cases hc : y0 ≤ x0
  · rw [if_pos hc]
    have hnum : 256 * 2 ^ (8 * k) + (x0 + 256 * x1) - (y0 + 256 * y1) =
        (x0 - y0) + 256 * (2 ^ (8 * k) + x1 - y1) := by omega
    rw [hnum, mi_mod_mul256 _ _ _ hM (by omega)]
  · rw [if_neg hc]
    have hnum : 256 * 2 ^ (8 * k) + (x0 + 256 * x1) - (y0 + 256 * y1) =
        (256 + x0 - y0) + 256 * (2 ^ (8 * k) + x1 - (y1 + 1)) := by omega
    rw [hnum, mi_mod_mul256 _ _ _ hM (by omega)]

theorem mi_lo8_lt (k : Nat) : mi_lo8 k < 2 ^ (8 * k) := by
  induction k with
  | zero => decide
  | succ k ih =>
    have hsplit : (2 : Nat) ^ (8 * (k + 1)) = 256 * 2 ^ (8 * k) := by
      rw [show 8 * (k + 1) = 8 + 8 * k from by ring, Nat.pow_add]
    show 1 + 256 * mi_lo8 k < 2 ^ (8 * (k + 1))
    rw [hsplit]
    omega

theorem mi_hi8_lt (k : Nat) : mi_hi8 k < 2 ^ (8 * k) := by
  induction k with
  | zero => decide
  | succ k ih =>
    have hsplit : (2 : Nat) ^ (8 * (k + 1)) = 256 * 2 ^ (8 * k) := by
      rw [show 8 * (k + 1) = 8 + 8 * k from by ring, Nat.pow_add]
    show 128 + 256 * mi_hi8 k < 2 ^ (8 * (k + 1))
    rw [hsplit]
    omega

theorem mi_bnotk_split (k b : Nat) (hb : b < 2 ^ (8 * (k + 1))) :
    mi_bnotk (k + 1) b = (255 - b % 256) + 256 * mi_bnotk k (b / 256) := by
  have hsplit : (2 : Nat) ^ (8 * (k + 1)) = 256 * 2 ^ (8 * k) := by
    rw [show 8 * (k + 1) = 8 + 8 * k from by ring, Nat.pow_add]
  have hM : (0 : Nat) < 2 ^ (8 * k) := Nat.pow_pos (by norm_num)
  have hxa : ∀ v, v < 256 → v ^^^ 255 = 255 - v := by decide
  have hb0 : b % 256 < 256 := Nat.mod_lt _ (by norm_num)
  have hcst : 2 ^ (8 * (k + 1)) - 1 = 255 + 256 * (2 ^ (8 * k) - 1) := by
    rw [hsplit]
    omega
  have hbd : b = b % 256 + 256 * (b / 256) := by omega
  unfold mi_bnotk
  rw [hcst]
  conv_lhs => rw [hbd]
  rw [mi_byte_split_xor _ _ hb0 (by norm_num) _ _, hxa _ hb0]

theorem mi_hasFF_spec (k : Nat) : ∀ b, b < 2 ^ (8 * k) →
    ((∀ j, j < k → mi_byte b j ≠ 255) ∧ mi_hasFF k b = 0) ∨
    (∃ m y, m < k ∧ mi_byte b m = 255 ∧ (∀ j, j < m → mi_byte b j ≠ 255) ∧
      mi_hasFF k b = 2 ^ (8 * m + 7) * (2 * y + 1)) := by
  induction k with
  | zero =>
    intro b hb
    have hb0 : b = 0 := by
      simpa using hb
    subst hb0
    left
    exact ⟨fun j hj => absurd hj (Nat.not_lt_zero j), by decide⟩
  | succ k ih =>
    intro b hb
    have hsplit : (2 : Nat) ^ (8 * (k + 1)) = 256 * 2 ^ (8 * k) := by
      rw [show 8 * (k + 1) = 8 + 8 * k from by ring, Nat.pow_add]
    have hM : (0 : Nat) < 2 ^ (8 * k) := Nat.pow_pos (by norm_num)
    have hb' : b / 256 < 2 ^ (8 * k) := by
      rw [hsplit] at hb
      omega
    have hb0 : b % 256 < 256 := Nat.mod_lt _ (by norm_num)
    have hnb' : mi_bnotk k (b / 256) < 2 ^ (8 * k) :=
      Nat.xor_lt_two_pow hb' (by omega)
    have hbd : b = b % 256 + 256 * (b / 256) := by omega
    -- decompose the complement, the subtraction and the two ANDs bytewise
    have hnot := mi_bnotk_split k b hb
    have hhi : b &&& mi_hi8 (k + 1) =
        (b % 256 &&& 128) + 256 * (b / 256 &&& mi_hi8 k) := by
      conv_lhs => rw [hbd]
      exact mi_byte_split_land _ _ hb0 (by norm_num) _ _
    by_cases ha : b % 256 = 255
    · -- low byte is 0xFF: the detector flags bit 7 whatever the rest does
      right
      have hsub : mi_subk (k + 1) (mi_bnotk (k + 1) b) (mi_lo8 (k + 1)) =
          255 + 256 * mi_subk k (mi_bnotk k (b / 256)) (mi_lo8 k + 1) := by
        rw [hnot, ha]
        show mi_subk (k + 1) (0 + 256 * mi_bnotk k (b / 256))
            (1 + 256 * mi_lo8 k) = _
        rw [mi_subk_split k 0 1 _ _ (by norm_num) (by norm_num) (mi_lo8_lt k)]
        norm_num
      refine ⟨0, mi_subk k (mi_bnotk k (b / 256)) (mi_lo8 k + 1) &&& (b / 256 &&& mi_hi8 k),
        Nat.succ_pos k, ?_, fun j hj => absurd hj (Nat.not_lt_zero j), ?_⟩
      · rw [mi_byte_zero, ha]
      · unfold mi_hasFF
        rw [hsub, hhi, ha]
        rw [mi_byte_split_land _ _ (by decide) (by decide) _ _]
        rw [show (255 &&& (255 &&& 128) : Nat) = 128 from by decide,
          show (2 : Nat) ^ (8 * 0 + 7) = 128 from by norm_num]
        ring
    · -- low byte is not 0xFF: byte 0 of the detector is clear and the upper
      -- bytes are exactly the k-byte detector of the remaining bytes
      have hsub : mi_subk (k + 1) (mi_bnotk (k + 1) b) (mi_lo8 (k + 1)) =
          (254 - b % 256) + 256 * mi_subk k (mi_bnotk k (b / 256)) (mi_lo8 k) := by
        rw [hnot]
        show mi_subk (k + 1) ((255 - b % 256) + 256 * mi_bnotk k (b / 256))
            (1 + 256 * mi_lo8 k) = _
        rw [mi_subk_split k (255 - b % 256) 1 _ _ (by omega) (by norm_num) (mi_lo8_lt k)]
        rw [if_pos (by omega)]
        omega
      have hlow : (254 - b % 256) &&& (b % 256 &&& 128) = 0 := by
        have : ∀ v, v < 256 → v ≠ 255 → (254 - v) &&& (v &&& 128) = 0 := by decide
        exact this _ hb0 ha
      have hD : mi_hasFF (k + 1) b = 256 * mi_hasFF k (b / 256) := by
        unfold mi_hasFF
        rw [hsub, hhi, mi_byte_split_land _ _ (by omega) (by
          have := Nat.and_lt_two_pow (b % 256) (show (128 : Nat) < 2 ^ 8 from by norm_num)
          omega) _ _, hlow]
        omega
      rcases ih (b / 256) hb' with ⟨hnone, hzero⟩ | ⟨m, y, hm, hbm, hless, heq⟩
      · left
        constructor
        · intro j hj
          match j with
          | 0 =>
            rw [mi_byte_zero]
            exact ha
          | j + 1 =>
            rw [mi_byte_succ]
            exact hnone j (by omega)
        · rw [hD, hzero]
      · right
        refine ⟨m + 1, y, by omega, ?_, ?_, ?_⟩
        · rw [mi_byte_succ]
          exact hbm
        · intro j hj
          match j with
          | 0 =>
            rw [mi_byte_zero]
            exact ha
          | j + 1 =>
            rw [mi_byte_succ]
            exact hless j (by omega)
        · rw [hD, heq, show 8 * (m + 1) + 7 = (8 * m + 7) + 8 from by ring,
            Nat.pow_add]
          ring

theorem mi_ctz_go_pow : ∀ (i fuel y : Nat), y % 2 = 1 → i < fuel →
    mi_bfield_ctz_go fuel (2 ^ i * y) = i := by
  intro i
  induction i with
  | zero =>
    intro fuel y hy hi
    match fuel with
    | f + 1 =>
      show (if 2 ^ 0 * y = 0 then 0
        else if 2 ^ 0 * y % 2 = 1 then 0 else mi_bfield_ctz_go f (2 ^ 0 * y / 2) + 1) = 0
      rw [if_neg (by omega), if_pos (by omega)]
  | succ i ih =>
    intro fuel y hy hi
    match fuel with
    | f + 1 =>
      have hx : 2 ^ (i + 1) * y = 2 * (2 ^ i * y) := by ring
      show (if 2 ^ (i + 1) * y = 0 then 0
        else if 2 ^ (i + 1) * y % 2 = 1 then 0
        else mi_bfield_ctz_go f (2 ^ (i + 1) * y / 2) + 1) = i + 1
      have hpos : 0 < 2 ^ i * y :=
        Nat.mul_pos (Nat.pow_pos (by norm_num)) (by omega)
      rw [if_neg (by omega), if_neg (by omega)]
      rw [show 2 ^ (i + 1) * y / 2 = 2 ^ i * y from by omega]
      rw [ih f y hy (by omega)]

theorem mi_ctz_pow (i y : Nat) (hy : y % 2 = 1) (hi : i < 64) :
    mi_bfield_ctz (2 ^ i * y) = i :=
  mi_ctz_go_pow i 64 y hy hi

theorem mi_has_set8_eq_hasFF (b : Nat) : mi_has_set8 b = mi_hasFF 8 b >>> 7 := by
  have hlo : mi_lo8 8 = MI_BFIELD_LO_BIT8 := by decide
  have hhi : mi_hi8 8 = MI_BFIELD_HI_BIT8 := by decide
  unfold mi_has_set8 mi_hasFF
  rw [hlo, hhi]
  rfl

theorem mi_hasFF_shift (m y : Nat) :
    (2 ^ (8 * m + 7) * (2 * y + 1)) >>> 7 = 2 ^ (8 * m) * (2 * y + 1) := by
  rw [Nat.shiftRight_eq_div_pow,
    show 8 * m + 7 = 7 + 8 * m from by ring, Nat.pow_add, Nat.mul_assoc,
    Nat.mul_div_cancel_left _ (show (0 : Nat) < 2 ^ 7 from by norm_num)]

theorem mi_has_set8_zero_iff (b : Nat) (hb : b < 2 ^ 64) :
    (mi_has_set8 b = 0 ↔ ∀ j, j < 8 → mi_byte b j ≠ 255) := by
  have hb8 : b < 2 ^ (8 * 8) := by
    rw [show 8 * 8 = 64 from rfl]
    exact hb
  rcases mi_hasFF_spec 8 b hb8 with ⟨hnone, hzero⟩ | ⟨m, y, hm, hbm, _, heq⟩
  · rw [mi_has_set8_eq_hasFF, hzero]
    exact ⟨fun _ => hnone, fun _ => rfl⟩
  · rw [mi_has_set8_eq_hasFF, heq, mi_hasFF_shift]
    constructor
    · intro h
      have : (0 : Nat) < 2 ^ (8 * m) * (2 * y + 1) := by positivity
      omega
    · intro h
      exact absurd hbm (h m hm)

theorem mi_has_set8_least (b m : Nat) (hb : b < 2 ^ 64) (hm : m < 8)
    (hbm : mi_byte b m = 255) (hleast : ∀ j, j < m → mi_byte b j ≠ 255) :
    mi_bfield_find_least_bit (mi_has_set8 b) = (true, 8 * m) := by
  have hb8 : b < 2 ^ (8 * 8) := by
    rw [show 8 * 8 = 64 from rfl]
    exact hb
  rcases mi_hasFF_spec 8 b hb8 with ⟨hnone, _⟩ | ⟨m', y, hm', hbm', hless', heq⟩
  · exact absurd hbm (hnone m hm)
  · have hmm : m' = m := by
      rcases Nat.lt_trichotomy m' m with h | h | h
      · exact absurd hbm' (hleast m' h)
      · exact h
      · exact absurd hbm (hless' m h)
    subst hmm
    rw [mi_has_set8_eq_hasFF, heq, mi_hasFF_shift]
    unfold mi_bfield_find_least_bit
    have hpos : 0 < 2 ^ (8 * m') * (2 * y + 1) := by positivity
    rw [mi_ctz_pow (8 * m') (2 * y + 1) (by omega) (by omega)]
    have hne : (2 ^ (8 * m') * (2 * y + 1) != 0) = true := by
      simp only [bne_iff_ne, ne_eq]
      omega
    rw [hne]
